import Mathlib

/-!
# cc-bridge: queue, session manager and broker

A shallow embedding of `internal/schema`, `internal/queue`, `internal/session`
and `internal/broker`, followed by the properties proved about them.

Conventions of the embedding.

* Go `int` and `int64` values are `Int`; where the source does arithmetic
  (`TurnNumber++`, `TurnNumber+1`) the result is wrapped to 64 bits by `wrapInt64`.
* `time.Time` is carried as its instant in nanoseconds since the Unix epoch (the
  `UnixNano()` of a time read from the clock) and `time.Now()` / `uuid.New()` results
  are explicit arguments.
* The file system below the queue manager is explicit state (`FileSystem`);
  functions that mutate it return the new state.
* A Go `string` is a text (`String`), that is a Go string that is valid UTF-8; the
  Go strings that are not, and the difference between a nil and an empty map, are
  carried where `encoding/json` makes them visible (`GoString`, `govalue`).
* `encoding/json` is not re-implemented: a JSON document is identified with the
  object it denotes (`MessageRecord`, `SnapshotData`), and the bytes of a queue file
  with what `schema.FromJSON` makes of them (`FileData`).
* A Go `error` is a value of `Error`; `fmt.Errorf("...: %w", err)` is `Error.wrap`.
-/

namespace CcBridge

/-! ## Errors and small helpers -/

/-- Go error values as the program builds them. -/
inductive Error where
  /-- An OS error for which `os.IsNotExist` holds. -/
  | notExist (path : String)
  /-- Any other OS error on a path. -/
  | os (path : String)
  /-- An error returned by `json.Unmarshal`. -/
  | json
  /-- The result of `fmt.Errorf` without a wrapped error. -/
  | msg (text : String)
  /-- The result of `fmt.Errorf("<text>: %w", inner)`. -/
  | wrap (text : String) (inner : Error)
  /-- An error reported by an Executor. -/
  | exec (text : String)
deriving DecidableEq

deriving instance DecidableEq for Except

/-- Two's-complement wrap of an integer to the range of a Go `int` (64 bits). -/
def wrapInt64 (x : Int) : Int := (x + 2 ^ 63) % 2 ^ 64 - 2 ^ 63

/-- Lookup in a Go map kept as an association list (first binding of the key). -/
def mapGet {β : Type} : List (String × β) → String → Option β
  | [], _ => none
  | (k, v) :: rest, key => if k = key then some v else mapGet rest key

/-- Assignment `m[key] = v` on a Go map kept as an association list: the first
binding of the key is replaced in place, or a binding is added. -/
def mapSet {β : Type} : List (String × β) → String → β → List (String × β)
  | [], key, v => [(key, v)]
  | (k, w) :: rest, key, v =>
    if k = key then (key, v) :: rest else (k, w) :: mapSet rest key v

/-- Removal `delete(m, key)` of every binding of the key. -/
def mapDel {β : Type} : List (String × β) → String → List (String × β)
  | [], _ => []
  | (k, w) :: rest, key => if k = key then mapDel rest key else (k, w) :: mapDel rest key

/-! ## internal/schema -/

def AgentA : String := "agent-a"
def AgentB : String := "agent-b"
def Human : String := "human"
def Broadcast : String := "broadcast"

def TypeMessage : String := "message"
def TypeToolResult : String := "tool_result"
def TypeInject : String := "inject"
def TypeSystem : String := "system"

structure Context where
  SessionID : String
  TurnNumber : Int
deriving DecidableEq

/-- The payload of a message; `Metadata` is a `map[string]string` (nil is `[]`). -/
structure Payload where
  Text : String
  Metadata : List (String × String)
deriving DecidableEq

/-- A message; `Timestamp` is the `UnixNano()` of the `time.Time`, `MsgType` is the
field `Type` and `Context` is the optional `*Context`. -/
structure Message where
  ID : String
  Timestamp : Int
  From : String
  To : String
  MsgType : String
  Payload : Payload
  Context : Option Context
deriving DecidableEq

/-- Go `NewMessage`; `id` is the result of `uuid.New().String()` and `now` of
`time.Now().UTC()`. -/
def NewMessage (id : String) (now : Int) (src dst msgType text : String) : Message :=
  { ID := id, Timestamp := now, From := src, To := dst, MsgType := msgType,
    Payload := { Text := text, Metadata := [] }, Context := none }

def NewUserMessage (id : String) (now : Int) (dst text : String) : Message :=
  NewMessage id now Human dst TypeMessage text

def NewAgentMessage (id : String) (now : Int) (src dst text : String) : Message :=
  NewMessage id now src dst TypeMessage text

def Message.WithMetadata (m : Message) (key value : String) : Message :=
  { m with Payload := { m.Payload with Metadata := mapSet m.Payload.Metadata key value } }

def Message.WithContext (m : Message) (sessionID : String) (turnNumber : Int) : Message :=
  { m with Context := some { SessionID := sessionID, TurnNumber := turnNumber } }

/-- The bytes of a file as `schema.FromJSON` sees them: either bytes that
`json.Unmarshal` decodes to the message `m`, or bytes it rejects. -/
inductive FileData where
  | record (m : Message)
  | corrupt (raw : String)
deriving DecidableEq

/-- The `json.Marshal(msg)` of `Enqueue`: bytes that decode to `msg`. For the messages
carried here (texts, a metadata list that is empty for the nil map, and a timestamp
read from the clock, whose year `json.Marshal` can write) the document that
`json.Marshal` writes decodes to the message it was written for; the Go values for
which it does not, or for which `json.Marshal` fails, are those of `govalue` below. -/
def jsonMarshal (m : Message) : Except Error FileData := .ok (.record m)

/-- Go `FromJSON` on the bytes of a queue file. -/
def FromJSON : FileData → Except Error Message
  | .record m => .ok m
  | .corrupt _ => .error .json

/-! ## Go values and the JSON form of a message

The messages above carry texts and one list for a metadata map that is nil or empty:
this is what the queue and the broker can tell apart. `json.Marshal` and
`json.Unmarshal` see more of a Go value: a string that is not valid UTF-8 is written
with U+FFFD in the place of every invalid byte, and a map tagged `omitempty` is left
out when it is nil and when it is empty. The values below are the Go values with
that detail; the struct tags of `Message`, `Payload` and `Context` give the members
of the JSON object, which is carried with the members that can be left out as
options. The text of the document and the RFC 3339 text of a time belong to the
libraries. -/

/-- Whether `Time.MarshalJSON` can write a time, given as its instant in nanoseconds
since the Unix epoch: the year (in UTC) lies in [0, 9999]. Year 0 begins 62167219200
seconds before the epoch and year 10000 begins 253402300800 seconds after it. -/
def timeWritable (t : Int) : Bool :=
  decide (-62167219200000000000 ≤ t ∧ t < 253402300800000000000)

/-- A piece of a Go string as `utf8.DecodeRuneInString` reads it: a character, or a
byte that is part of the encoding of none (decoded as `RuneError` of width 1). -/
inductive GoChar where
  | rune (c : Char)
  | invalid (byte : Nat)
deriving DecidableEq

/-- A Go string: any sequence of bytes, as the characters and stray bytes it holds. -/
abbrev GoString := List GoChar

/-- The Go string of a text. -/
def goString (s : String) : GoString := s.data.map GoChar.rune

/-- Whether a Go string is valid UTF-8. -/
def validUTF8 (s : GoString) : Bool :=
  s.all (fun c => match c with | .rune _ => true | .invalid _ => false)

/-- A Go string as `encoding/json` writes it: coerced to valid UTF-8, every invalid
byte replaced by the replacement character U+FFFD. -/
def toValidUTF8 (s : GoString) : String :=
  String.mk (s.map (fun c => match c with | .rune r => r | .invalid _ => Char.ofNat 0xFFFD))

/-- The JSON object of a `Context`: `session_id,omitempty`, `turn_number,omitempty`. -/
structure ContextRecord where
  session_id : Option String
  turn_number : Option Int
deriving DecidableEq

/-- The JSON object of a `Payload`: `text`, `metadata,omitempty`. -/
structure PayloadRecord where
  text : String
  metadata : Option (List (String × String))
deriving DecidableEq

/-- The JSON object of a `Message`: `id`, `timestamp`, `from` (here `sender`), `to`
(here `recipient`), `type` (here `kind`), `payload`, `context,omitempty`. -/
structure MessageRecord where
  id : String
  timestamp : Int
  sender : String
  recipient : String
  kind : String
  payload : PayloadRecord
  context : Option ContextRecord
deriving DecidableEq

/-- The bytes given to `FromJSON`: a JSON object, or bytes `json.Unmarshal` rejects. -/
inductive WireData where
  | object (r : MessageRecord)
  | invalid (raw : String)
deriving DecidableEq

namespace govalue

/-- Go `schema.Context`. -/
structure Context where
  SessionID : GoString
  TurnNumber : Int
deriving DecidableEq

/-- Go `schema.Payload`; `Metadata` is `none` for the nil map. -/
structure Payload where
  Text : GoString
  Metadata : Option (List (GoString × GoString))
deriving DecidableEq

/-- Go `schema.Message`; `Timestamp` is the instant of the `time.Time` in nanoseconds
since the Unix epoch, `MsgType` is the field `Type` and `Context` is the `*Context`. -/
structure Message where
  ID : GoString
  Timestamp : Int
  From : GoString
  To : GoString
  MsgType : GoString
  Payload : Payload
  Context : Option Context
deriving DecidableEq

/-- The JSON object `json.Marshal` writes for a `Context`: a member tagged `omitempty`
is left out for the empty string and for 0. -/
def Context.toRecord (c : Context) : ContextRecord :=
  { session_id := if c.SessionID = [] then none else some (toValidUTF8 c.SessionID),
    turn_number := if c.TurnNumber = 0 then none else some c.TurnNumber }

/-- The JSON object `json.Marshal` writes for a `Payload`: `metadata` is left out for
a nil map and for a map without entries. -/
def Payload.toRecord (p : Payload) : PayloadRecord :=
  { text := toValidUTF8 p.Text,
    metadata :=
      match p.Metadata with
      | none => none
      | some [] => none
      | some (e :: es) =>
        some ((e :: es).map (fun kv => (toValidUTF8 kv.1, toValidUTF8 kv.2))) }

/-- The JSON object `json.Marshal` writes for a message. -/
def Message.toRecord (m : Message) : MessageRecord :=
  { id := toValidUTF8 m.ID, timestamp := m.Timestamp, sender := toValidUTF8 m.From,
    recipient := toValidUTF8 m.To, kind := toValidUTF8 m.MsgType,
    payload := m.Payload.toRecord, context := m.Context.map Context.toRecord }

/-- What `json.Unmarshal` stores for a `context` object: a new `Context` with the
members of the object, the others at their zero value. -/
def Context.ofRecord (r : ContextRecord) : Context :=
  { SessionID := goString (r.session_id.getD ""), TurnNumber := r.turn_number.getD 0 }

/-- What `json.Unmarshal` stores for a `payload` object: for a `metadata` member a new
map that receives its entries in order, a later entry of a key replacing an earlier
one; without the member the map stays nil. -/
def Payload.ofRecord (r : PayloadRecord) : Payload :=
  { Text := goString r.text,
    Metadata := r.metadata.map (fun entries =>
      (entries.foldl (fun acc kv => mapSet acc kv.1 kv.2) []).map
        (fun kv => (goString kv.1, goString kv.2))) }

/-- The message `json.Unmarshal` builds from a JSON object, starting from the zero
message. -/
def Message.ofRecord (r : MessageRecord) : Message :=
  { ID := goString r.id, Timestamp := r.timestamp, From := goString r.sender,
    To := goString r.recipient, MsgType := goString r.kind,
    Payload := Payload.ofRecord r.payload, Context := r.context.map Context.ofRecord }

/-- Go `Message.ToJSON`: `json.Marshal(m)`, which fails when `Time.MarshalJSON` cannot
write the timestamp and on no other message. -/
def Message.ToJSON (m : Message) : Except Error WireData :=
  if timeWritable m.Timestamp then .ok (.object m.toRecord)
  else .error (.msg "Time.MarshalJSON: year outside of range [0,9999]")

/-- Go `FromJSON`: `json.Unmarshal` into a zero `Message`. -/
def FromJSON : WireData → Except Error Message
  | .object r => .ok (Message.ofRecord r)
  | .invalid _ => .error .json

/-- Whether every string of a message is valid UTF-8. -/
def Message.validText (m : Message) : Bool :=
  validUTF8 m.ID && validUTF8 m.From && validUTF8 m.To && validUTF8 m.MsgType
    && validUTF8 m.Payload.Text
    && (match m.Payload.Metadata with
        | none => true
        | some entries => entries.all (fun kv => validUTF8 kv.1 && validUTF8 kv.2))
    && (match m.Context with
        | none => true
        | some c => validUTF8 c.SessionID)

end govalue

/-- The Go value of a context, a payload and a message of the embedding: the texts
as Go strings, and an empty metadata list as the nil map (as `NewMessage` leaves
it). -/
def Context.toGo (c : Context) : govalue.Context :=
  { SessionID := goString c.SessionID, TurnNumber := c.TurnNumber }

def Payload.toGo (p : Payload) : govalue.Payload :=
  { Text := goString p.Text,
    Metadata :=
      match p.Metadata with
      | [] => none
      | e :: es => some ((e :: es).map (fun kv => (goString kv.1, goString kv.2))) }

def Message.toGo (m : Message) : govalue.Message :=
  { ID := goString m.ID, Timestamp := m.Timestamp, From := goString m.From,
    To := goString m.To, MsgType := goString m.MsgType,
    Payload := m.Payload.toGo, Context := m.Context.map Context.toGo }

/-! ## path/filepath and sort -/

/-- Splitting of a path at every separator. -/
def splitSep : List Char → List (List Char)
  | [] => [[]]
  | c :: cs =>
    match splitSep cs with
    | [] => [[]]
    | x :: xs => if c = '/' then [] :: x :: xs else (c :: x) :: xs

/-- One step of `filepath.Clean` over the elements of a path: `acc.1` holds the
elements written so far, last first, and `acc.2` counts the leading `..` elements
that cannot be removed. -/
def cleanStep (rooted : Bool) (acc : List (List Char) × Nat) (e : List Char) :
    List (List Char) × Nat :=
  if e = [] ∨ e = ['.'] then acc
  else if e = ['.', '.'] then
    if acc.2 < acc.1.length then (acc.1.tail, acc.2)
    else if rooted then acc
    else (e :: acc.1, acc.2 + 1)
  else (e :: acc.1, acc.2)

/-- Joining of path elements with the separator. -/
def joinSep : List (List Char) → List Char
  | [] => []
  | [x] => x
  | x :: y :: rest => x ++ '/' :: joinSep (y :: rest)

/-- Go `filepath.Clean` on Unix paths. -/
def filepathClean (path : String) : String :=
  if path = "" then "."
  else
    let rooted : Bool := path.data.head? = some '/'
    let out := ((splitSep path.data).foldl (cleanStep rooted) ([], 0)).1.reverse
    let body := joinSep out
    if rooted then String.mk ('/' :: body)
    else if body = [] then "."
    else String.mk body

/-- Go `filepath.Join` of two elements. -/
def filepathJoin (a b : String) : String :=
  if a ≠ "" then filepathClean (a ++ "/" ++ b)
  else if b ≠ "" then filepathClean b
  else ""

/-- Scan of `filepath.Ext` from the end of the path: `acc` is the suffix read. -/
def extScan : List Char → List Char → List Char
  | [], _ => []
  | c :: rest, acc =>
    if c = '/' then [] else if c = '.' then '.' :: acc else extScan rest (c :: acc)

/-- Go `filepath.Ext`: the suffix from the final dot of the final element. -/
def filepathExt (path : String) : String := String.mk (extScan path.data.reverse [])

/-- Scan for the final separator over the reversed path, `acc` being the base name
read so far; the result is (directory part, base name). A path without separator
lies in the working directory `.`, a path directly below the root in `/`. -/
def splitLast : List Char → List Char → List Char × List Char
  | [], acc => (['.'], acc)
  | c :: rest, acc =>
    if c = '/' then (if rest = [] then ['/'] else rest.reverse, acc)
    else splitLast rest (c :: acc)

/-- The directory and the entry name that a clean path denotes. -/
def splitPath (path : String) : String × String :=
  let r := splitLast path.data.reverse []
  (String.mk r.1, String.mk r.2)

/-- Go string comparison `a < b` (bytewise lexicographic; on valid UTF-8 this is
the lexicographic order of the code points). -/
def lessChars : List Char → List Char → Bool
  | [], [] => false
  | [], _ :: _ => true
  | _ :: _, [] => false
  | a :: as, b :: bs =>
    if a.toNat < b.toNat then true
    else if b.toNat < a.toNat then false
    else lessChars as bs

def stringLess (a b : String) : Bool := lessChars a.data b.data

/-- The order `a ≤ b` of Go strings, as `!(b < a)`. -/
def stringLE (a b : String) : Prop := stringLess b a = false

instance stringLE_decidable : DecidableRel stringLE := fun a b =>
  inferInstanceAs (Decidable (stringLess b a = false))

/-- Go `sort.Strings`: the ascending arrangement of the names (unique, since equal
strings are identical). -/
def sortStrings (files : List String) : List String := List.insertionSort stringLE files

/-- The paths of the directories that lead to a path, shortest first, the path
itself last. -/
def pathPrefixes (path : String) : List String :=
  let comps := splitSep path.data
  ((List.range comps.length).map (fun i => String.mk (joinSep (comps.take (i + 1))))).filter
    (fun p => p ≠ "")

/-! ## The file system

Directories are kept by their clean path; each holds its regular files by name.
Storage is reliable: an operation fails only for a reason visible in the state
(a missing directory or file, a file where a directory is needed, or the reverse). -/

/-- The regular files of one directory. -/
abbrev Dir := List (String × FileData)

structure FileSystem where
  dirs : List (String × Dir)
deriving DecidableEq

/-- An entry of `os.ReadDir`. -/
structure DirEntry where
  Name : String
  IsDir : Bool
deriving DecidableEq

def FileSystem.isDir (fs : FileSystem) (path : String) : Bool := (mapGet fs.dirs path).isSome

/-- The regular files of the directory at `path` (none when there is no such directory). -/
def FileSystem.files (fs : FileSystem) (path : String) : Dir := (mapGet fs.dirs path).getD []

def FileSystem.isFile (fs : FileSystem) (path : String) : Bool :=
  (mapGet (fs.files (splitPath path).1) (splitPath path).2).isSome

/-- The names of the directories directly below `path`. -/
def FileSystem.subdirNames (fs : FileSystem) (path : String) : List String :=
  (fs.dirs.filter (fun kv =>
      decide ((splitPath kv.1).1 = path ∧ kv.1 ≠ path ∧ (splitPath kv.1).2 ≠ ""))).map
    (fun kv => (splitPath kv.1).2)

/-- Go `os.ReadDir` (the entries are returned in no particular order here; the one
caller sorts the names). -/
def ReadDir (fs : FileSystem) (path : String) : Except Error (List DirEntry) :=
  match mapGet fs.dirs path with
  | some d =>
    .ok (d.map (fun e => { Name := e.1, IsDir := false })
      ++ (fs.subdirNames path).map (fun n => { Name := n, IsDir := true }))
  | none => if fs.isFile path then .error (.os path) else .error (.notExist path)

/-- Go `os.ReadFile`. -/
def ReadFile (fs : FileSystem) (path : String) : Except Error FileData :=
  match mapGet (fs.files (splitPath path).1) (splitPath path).2 with
  | some data => .ok data
  | none => if fs.isDir path then .error (.os path) else .error (.notExist path)

/-- Go `os.WriteFile`: creates the file or replaces its content. -/
def WriteFile (fs : FileSystem) (path : String) (data : FileData) : Except Error FileSystem :=
  if fs.isDir path then .error (.os path)
  else
    match mapGet fs.dirs (splitPath path).1 with
    | none => .error (.notExist path)
    | some d =>
      if (splitPath path).2 = "" then .error (.os path)
      else .ok { dirs := mapSet fs.dirs (splitPath path).1 (mapSet d (splitPath path).2 data) }

/-- Go `os.Remove` of a regular file. -/
def Remove (fs : FileSystem) (path : String) : Except Error FileSystem :=
  match mapGet fs.dirs (splitPath path).1 with
  | none => .error (.notExist path)
  | some d =>
    match mapGet d (splitPath path).2 with
    | none => if fs.isDir path then .error (.os path) else .error (.notExist path)
    | some _ => .ok { dirs := mapSet fs.dirs (splitPath path).1 (mapDel d (splitPath path).2) }

/-- Go `os.Mkdir` that accepts an existing directory. -/
def mkdirOne (fs : FileSystem) (path : String) : Except Error FileSystem :=
  if fs.isDir path then .ok fs
  else if fs.isFile path then .error (.os path)
  else .ok { dirs := fs.dirs ++ [(path, [])] }

/-- Go `os.MkdirAll`: the directory and every missing parent are created; it fails,
creating nothing, when a regular file is in the way. -/
def MkdirAll (fs : FileSystem) (path : String) : Except Error FileSystem :=
  if path = "" then .error (.notExist path)
  else (pathPrefixes (filepathClean path)).foldlM mkdirOne fs

/-! ## internal/queue -/

namespace queue

structure Queue where
  dir : String
deriving DecidableEq

/-- Go `queue.Manager`; `queues` is the cache `map[string]*Queue`. -/
structure Manager where
  baseDir : String
  queues : List (String × Queue)
deriving DecidableEq

def NewManager (fs : FileSystem) (baseDir : String) : Except Error (Manager × FileSystem) :=
  match MkdirAll fs baseDir with
  | .error e => .error (.wrap "failed to create queue directory" e)
  | .ok fs1 => .ok ({ baseDir := baseDir, queues := [] }, fs1)

/-- Go `Manager.GetQueue`: the cached queue, or a new one whose directory is created. -/
def Manager.GetQueue (m : Manager) (fs : FileSystem) (agent : String) :
    Except Error (Queue × Manager × FileSystem) :=
  match mapGet m.queues agent with
  | some q => .ok (q, m, fs)
  | none =>
    let queueDir := filepathJoin m.baseDir agent
    match MkdirAll fs queueDir with
    | .error e => .error (.wrap ("failed to create queue for " ++ agent) e)
    | .ok fs1 =>
      let q : Queue := { dir := queueDir }
      .ok (q, { m with queues := mapSet m.queues agent q }, fs1)

/-- Go `Queue.listFiles`: the sorted names of the regular `.json` entries. -/
def Queue.listFiles (q : Queue) (fs : FileSystem) : Except Error (List String) :=
  match ReadDir fs q.dir with
  | .error (.notExist _) => .ok []
  | .error e => .error (.wrap "failed to read queue directory" e)
  | .ok entries =>
    .ok (sortStrings
      ((entries.filter (fun e => !e.IsDir && filepathExt e.Name == ".json")).map
        (fun e => e.Name)))

/-- The file name `fmt.Sprintf("%d_%s.json", msg.Timestamp.UnixNano(), msg.ID)`. -/
def fileName (msg : Message) : String :=
  toString msg.Timestamp ++ "_" ++ msg.ID ++ ".json"

def Queue.Enqueue (q : Queue) (fs : FileSystem) (msg : Message) : Except Error FileSystem :=
  match jsonMarshal msg with
  | .error e => .error (.wrap "failed to marshal message" e)
  | .ok data =>
    let filename := fileName msg
    let path := filepathJoin q.dir filename
    match WriteFile fs path data with
    | .error e => .error (.wrap "failed to write message" e)
    | .ok fs1 => .ok fs1

/-- Go `Queue.Dequeue`: the message of the first listed file, which is removed; `none`
on an empty queue. The file system is unchanged when an error is returned. -/
def Queue.Dequeue (q : Queue) (fs : FileSystem) : Except Error (Option Message × FileSystem) :=
  match q.listFiles fs with
  | .error e => .error e
  | .ok [] => .ok (none, fs)
  | .ok (file :: _) =>
    let path := filepathJoin q.dir file
    match ReadFile fs path with
    | .error e => .error (.wrap "failed to read message" e)
    | .ok data =>
      match FromJSON data with
      | .error e => .error (.wrap "failed to unmarshal message" e)
      | .ok msg =>
        match Remove fs path with
        | .error e => .error (.wrap "failed to remove message file" e)
        | .ok fs1 => .ok (some msg, fs1)

def Queue.Peek (q : Queue) (fs : FileSystem) : Except Error (Option Message) :=
  match q.listFiles fs with
  | .error e => .error e
  | .ok [] => .ok none
  | .ok (file :: _) =>
    let path := filepathJoin q.dir file
    match ReadFile fs path with
    | .error e => .error (.wrap "failed to read message" e)
    | .ok data =>
      match FromJSON data with
      | .error e => .error e
      | .ok msg => .ok (some msg)

def Queue.Len (q : Queue) (fs : FileSystem) : Except Error Int :=
  match q.listFiles fs with
  | .error e => .error e
  | .ok files => .ok files.length

/-- The loop of `Queue.List` over the listed files. -/
def readAll (q : Queue) (fs : FileSystem) : List String → Except Error (List Message)
  | [] => .ok []
  | file :: rest =>
    match ReadFile fs (filepathJoin q.dir file) with
    | .error e => .error (.wrap ("failed to read message " ++ file) e)
    | .ok data =>
      match FromJSON data with
      | .error e => .error (.wrap ("failed to unmarshal message " ++ file) e)
      | .ok msg =>
        match readAll q fs rest with
        | .error e => .error e
        | .ok messages => .ok (msg :: messages)

/-- Go `Queue.List` (named `ListAll` here, `List` being the type of lists). -/
def Queue.ListAll (q : Queue) (fs : FileSystem) : Except Error (List Message) :=
  match q.listFiles fs with
  | .error e => .error e
  | .ok files => readAll q fs files

/-- The loop of `Queue.Clear`; the second component is the file system reached,
also when a removal failed. -/
def removeAll (q : Queue) : FileSystem → List String → Option Error × FileSystem
  | fs, [] => (none, fs)
  | fs, file :: rest =>
    match Remove fs (filepathJoin q.dir file) with
    | .error e => (some (.wrap ("failed to remove " ++ file) e), fs)
    | .ok fs1 => removeAll q fs1 rest

def Queue.Clear (q : Queue) (fs : FileSystem) : Option Error × FileSystem :=
  match q.listFiles fs with
  | .error e => (some e, fs)
  | .ok files => removeAll q fs files

end queue

/-! ## internal/session

The session directory is kept apart from the queue directories (as in `main.go`:
`<data-dir>/sessions` and `<data-dir>/queues`). The session manager meets it through
`os.MkdirAll(dir)` and through `os.WriteFile` and `os.ReadFile` at the one path
`<dir>/sessions.json`; its state is carried as a `Store`. -/

namespace session

/-- A session; `CreatedAt` and `UpdatedAt` are `UnixNano()` values. -/
structure Session where
  AgentID : String
  SessionID : String
  TurnNumber : Int
  CreatedAt : Int
  UpdatedAt : Int
deriving DecidableEq

/-- Go `session.Manager`; `sessions` is the `map[string]*Session`. Every pointer in the
map is the only reference to its `Session`, so the map is kept by value. -/
structure Manager where
  dir : String
  sessions : List (String × Session)
deriving DecidableEq

/-- The JSON object of a session in `sessions.json`: `agent_id`, `session_id`,
`turn_number`, `created_at`, `updated_at`; a member that the object does not have, or
has with a value of another type, is `none`. -/
structure SessionRecord where
  agent_id : Option String
  session_id : Option String
  turn_number : Option Int
  created_at : Option Int
  updated_at : Option Int
deriving DecidableEq

/-- The bytes of `sessions.json` as `json.Unmarshal` into a `map[string]*Session`
sees them: a JSON object with its members in document order; a JSON object some
value of which has the wrong type, for which `Unmarshal` stores what it can decode
and reports the mismatch; or bytes that are not a JSON object, for which it stores
nothing. -/
inductive SnapshotData where
  | object (members : List (String × SessionRecord))
  | mistyped (members : List (String × SessionRecord))
  | malformed (raw : String)
deriving DecidableEq

/-- What lies at the path of `sessions.json` in the session directory. -/
inductive SnapshotFile where
  | absent
  /-- A directory, which can be neither read nor replaced as a file. -/
  | directory
  | content (data : SnapshotData)
deriving DecidableEq

/-- The session directory on disk: it does not exist, it cannot exist because a
regular file is in the way, or it exists. -/
inductive Store where
  | missing
  | blocked
  | present (file : SnapshotFile)
deriving DecidableEq

/-- Go `os.MkdirAll(dir)` on the session directory. -/
def Store.MkdirAll (st : Store) (dir : String) : Except Error Store :=
  if dir = "" then .error (.notExist dir)
  else
    match st with
    | .missing => .ok (.present .absent)
    | .blocked => .error (.os dir)
    | .present file => .ok (.present file)

/-- Go `os.WriteFile` at the path of `sessions.json`. -/
def Store.WriteFile (st : Store) (path : String) (data : SnapshotData) : Except Error Store :=
  match st with
  | .missing => .error (.notExist path)
  | .blocked => .error (.os path)
  | .present .directory => .error (.os path)
  | .present _ => .ok (.present (.content data))

/-- Go `os.ReadFile` at the path of `sessions.json`. -/
def Store.ReadFile (st : Store) (path : String) : Except Error SnapshotData :=
  match st with
  | .missing => .error (.notExist path)
  | .blocked => .error (.os path)
  | .present .absent => .error (.notExist path)
  | .present .directory => .error (.os path)
  | .present (.content data) => .ok data

/-- Go `session.NewManager`. -/
def NewManager (st : Store) (dir : String) : Except Error (Manager × Store) :=
  match st.MkdirAll dir with
  | .error e => .error (.wrap "failed to create session directory" e)
  | .ok st1 => .ok ({ dir := dir, sessions := [] }, st1)

/-- Go `Manager.CreateSession`; `now` is the result of `time.Now().UTC()`. -/
def Manager.CreateSession (m : Manager) (agentID : String) (now : Int) :
    Except Error (Session × Manager) :=
  let sess : Session :=
    { AgentID := agentID, SessionID := "", TurnNumber := 0, CreatedAt := now, UpdatedAt := now }
  .ok (sess, { m with sessions := mapSet m.sessions agentID sess })

def Manager.GetSession (m : Manager) (agentID : String) : Except Error Session :=
  match mapGet m.sessions agentID with
  | none => .error (.msg ("session not found for agent: " ++ agentID))
  | some sess => .ok sess

def Manager.SetSessionID (m : Manager) (agentID sessionID : String) (now : Int) :
    Except Error Manager :=
  match mapGet m.sessions agentID with
  | none => .error (.msg ("session not found for agent: " ++ agentID))
  | some sess =>
    let sess1 : Session := { sess with SessionID := sessionID, UpdatedAt := now }
    .ok { m with sessions := mapSet m.sessions agentID sess1 }

def Manager.IncrementTurn (m : Manager) (agentID : String) (now : Int) : Except Error Manager :=
  match mapGet m.sessions agentID with
  | none => .error (.msg ("session not found for agent: " ++ agentID))
  | some sess =>
    let sess1 : Session :=
      { sess with TurnNumber := wrapInt64 (sess.TurnNumber + 1), UpdatedAt := now }
    .ok { m with sessions := mapSet m.sessions agentID sess1 }

def Manager.ListSessions (m : Manager) : List Session := m.sessions.map (fun kv => kv.2)

end session

namespace govalue

/-- Go `session.Session` with its strings as Go strings. -/
structure Session where
  AgentID : GoString
  SessionID : GoString
  TurnNumber : Int
  CreatedAt : Int
  UpdatedAt : Int
deriving DecidableEq

/-- Go `session.Manager` with the keys of its map as Go strings. -/
structure Manager where
  dir : String
  sessions : List (GoString × Session)
deriving DecidableEq

/-- The JSON object `json.MarshalIndent` writes for a session: every member (no tag
has `omitempty`), the strings coerced to valid UTF-8. -/
def Session.toRecord (s : Session) : session.SessionRecord :=
  { agent_id := some (toValidUTF8 s.AgentID), session_id := some (toValidUTF8 s.SessionID),
    turn_number := some s.TurnNumber, created_at := some s.CreatedAt,
    updated_at := some s.UpdatedAt }

/-- The `json.MarshalIndent(m.sessions, ...)` of `Save`: a JSON object with one member
for every entry of the map, its key coerced to valid UTF-8. It fails when
`Time.MarshalJSON` cannot write the `created_at` or the `updated_at` of a session. -/
def jsonMarshalIndent (sessions : List (GoString × Session)) :
    Except Error session.SnapshotData :=
  if sessions.all (fun kv => timeWritable kv.2.CreatedAt && timeWritable kv.2.UpdatedAt) then
    .ok (.object (sessions.map (fun kv => (toValidUTF8 kv.1, kv.2.toRecord))))
  else .error (.msg "Time.MarshalJSON: year outside of range [0,9999]")

/-- Go `Manager.Save`; the second component is the session directory as the call
leaves it. -/
def Manager.Save (m : Manager) (st : session.Store) : Option Error × session.Store :=
  match jsonMarshalIndent m.sessions with
  | .error e => (some (.wrap "failed to marshal sessions" e), st)
  | .ok data =>
    match st.WriteFile (filepathJoin m.dir "sessions.json") data with
    | .error e => (some (.wrap "failed to write sessions" e), st)
    | .ok st1 => (none, st1)

end govalue

namespace session

/-- The Go value of a session of the embedding. -/
def Session.toGo (s : Session) : govalue.Session :=
  { AgentID := goString s.AgentID, SessionID := goString s.SessionID,
    TurnNumber := s.TurnNumber, CreatedAt := s.CreatedAt, UpdatedAt := s.UpdatedAt }

/-- The Go value of a manager of the embedding. -/
def Manager.toGo (m : Manager) : govalue.Manager :=
  { dir := m.dir, sessions := m.sessions.map (fun kv => (goString kv.1, kv.2.toGo)) }

/-- Go `Manager.Save` for a manager of the embedding. -/
def Manager.Save (m : Manager) (st : Store) : Option Error × Store := m.toGo.Save st

/-- The session `json.Unmarshal` allocates for a member of the snapshot: the members
of the JSON object, the others at their zero value. -/
def SessionRecord.toSession (r : SessionRecord) : Session :=
  { AgentID := r.agent_id.getD "", SessionID := r.session_id.getD "",
    TurnNumber := r.turn_number.getD 0, CreatedAt := r.created_at.getD 0,
    UpdatedAt := r.updated_at.getD 0 }

/-- The members `json.Unmarshal` stores into the session map, in document order. -/
def SnapshotData.stored : SnapshotData → List (String × Session)
  | .object members => members.map (fun kv => (kv.1, kv.2.toSession))
  | .mistyped members => members.map (fun kv => (kv.1, kv.2.toSession))
  | .malformed _ => []

/-- The error `json.Unmarshal` into the session map returns for a document. -/
def SnapshotData.unmarshalError : SnapshotData → Option Error
  | .object _ => none
  | .mistyped _ => some .json
  | .malformed _ => some .json

/-- The `json.Unmarshal(data, &m.sessions)` of `Load`. It decodes into the map that is
already there: encoding/json reuses a non-nil map and keeps its entries, storing a
newly allocated session under every key of the document (a later member of the same
key replacing an earlier one). When a value has the wrong type the rest is still
decoded and stored, and the error is returned at the end. -/
def jsonUnmarshal (data : SnapshotData) (sessions : List (String × Session)) :
    Option Error × List (String × Session) :=
  (data.unmarshalError, data.stored.foldl (fun acc kv => mapSet acc kv.1 kv.2) sessions)

/-- Go `Manager.Load`; the second component is the manager as the call leaves it,
also when it returns an error. -/
def Manager.Load (m : Manager) (st : Store) : Option Error × Manager :=
  match st.ReadFile (filepathJoin m.dir "sessions.json") with
  | .error (.notExist _) => (none, m)
  | .error e => (some (.wrap "failed to read sessions" e), m)
  | .ok data =>
    match jsonUnmarshal data m.sessions with
    | (some e, sessions) =>
      (some (.wrap "failed to unmarshal sessions" e), { m with sessions := sessions })
    | (none, sessions) => (none, { m with sessions := sessions })

end session


/-! ## internal/broker -/

namespace broker

/-- The result of an execution. `Cost` is a `float64` in the source, whose only use
is `fmt.Sprintf("%.6f", result.Cost)`; it is carried as that rendering. -/
structure ExecuteResult where
  SessionID : String
  Response : String
  Cost : String
deriving DecidableEq

/-- The `Executor` interface. An implementation may keep state of its own (`σ`),
which `Execute` reads and updates; the arguments are `sessionID`, `message`, `isNew`. -/
structure Executor (σ : Type) where
  Execute : σ → String → String → Bool → Except Error ExecuteResult × σ

/-- The broker with the state it refers to: the file system under the queue manager
and the state of the executor. -/
structure Broker (σ : Type) where
  fs : FileSystem
  queueMgr : queue.Manager
  sessionMgr : session.Manager
  executor : Executor σ
  execState : σ
  agents : List String

def NewBroker {σ : Type} (fs : FileSystem) (qMgr : queue.Manager) (sMgr : session.Manager)
    (exec : Executor σ) (st : σ) : Except Error (Broker σ) :=
  .ok { fs := fs, queueMgr := qMgr, sessionMgr := sMgr, executor := exec, execState := st,
        agents := [] }

/-- Go `Broker.InitializeAgent`; `now` is the clock value read by `CreateSession`. The
broker returned with an error is the state in which the call left it. -/
def Broker.InitializeAgent {σ : Type} (b : Broker σ) (agentID : String) (now : Int) :
    Option Error × Broker σ :=
  match b.sessionMgr.CreateSession agentID now with
  | .error e => (some (.wrap ("failed to create session for " ++ agentID) e), b)
  | .ok (_, sm1) =>
    let b1 := { b with sessionMgr := sm1 }
    match b1.queueMgr.GetQueue b1.fs agentID with
    | .error e => (some (.wrap ("failed to create queue for " ++ agentID) e), b1)
    | .ok (_, qm1, fs1) =>
      (none, { b1 with queueMgr := qm1, fs := fs1, agents := b1.agents ++ [agentID] })

def Broker.Agents {σ : Type} (b : Broker σ) : List String := b.agents

def Broker.SendMessage {σ : Type} (b : Broker σ) (msg : Message) : Option Error × Broker σ :=
  match b.queueMgr.GetQueue b.fs msg.To with
  | .error e => (some (.wrap ("failed to get queue for " ++ msg.To) e), b)
  | .ok (q, qm1, fs1) =>
    match q.Enqueue fs1 msg with
    | .error e => (some e, { b with queueMgr := qm1, fs := fs1 })
    | .ok fs2 => (none, { b with queueMgr := qm1, fs := fs2 })

/-- The values one `ProcessNext` reads from the clock and the id generator. -/
structure TurnInputs where
  /-- The clock read by `SetSessionID`. -/
  setAt : Int
  /-- The clock read by `IncrementTurn`. -/
  incAt : Int
  /-- The id of the response, from `uuid.New().String()`. -/
  respID : String
  /-- The timestamp of the response, from `time.Now().UTC()`. -/
  respAt : Int
deriving DecidableEq

/-- Go `Broker.ProcessNext`. The result pairs what the call returns with the broker as
the call leaves it.

`sess` is the `*Session` stored in the manager map, not a copy: `SetSessionID` and
`IncrementTurn` update that same object, so the `sess.TurnNumber` read for the
response after them is the field as stored then (`sessNow`). The errors of
`SetSessionID` and `IncrementTurn` are discarded, as in the source. -/
def Broker.ProcessNext {σ : Type} (b : Broker σ) (inp : TurnInputs) (agentID : String) :
    Except Error (Option Message) × Broker σ :=
  match b.queueMgr.GetQueue b.fs agentID with
  | .error e => (.error (.wrap "failed to get queue" e), b)
  | .ok (q, qm1, fs1) =>
    match q.Dequeue fs1 with
    | .error e => (.error (.wrap "failed to dequeue" e), { b with queueMgr := qm1, fs := fs1 })
    | .ok (none, fs2) => (.ok none, { b with queueMgr := qm1, fs := fs2 })
    | .ok (some msg, fs2) =>
      let b2 := { b with queueMgr := qm1, fs := fs2 }
      match b2.sessionMgr.GetSession agentID with
      | .error e => (.error (.wrap "failed to get session" e), b2)
      | .ok sess =>
        let isNew : Bool := sess.SessionID == ""
        match b2.executor.Execute b2.execState sess.SessionID msg.Payload.Text isNew with
        | (.error e, st1) => (.error (.wrap "failed to execute" e), { b2 with execState := st1 })
        | (.ok result, st1) =>
          let sm1 :=
            if isNew || result.SessionID != sess.SessionID then
              match b2.sessionMgr.SetSessionID agentID result.SessionID inp.setAt with
              | .ok sm => sm
              | .error _ => b2.sessionMgr
            else b2.sessionMgr
          let sm2 :=
            match sm1.IncrementTurn agentID inp.incAt with
            | .ok sm => sm
            | .error _ => sm1
          let sessNow := (mapGet sm2.sessions agentID).getD sess
          let response :=
            ((NewAgentMessage inp.respID inp.respAt agentID msg.From result.Response).WithContext
              result.SessionID (wrapInt64 (sessNow.TurnNumber + 1))).WithMetadata "cost" result.Cost
          (.ok (some response), { b2 with sessionMgr := sm2, execState := st1 })

/-- Go `Broker.Inject`; `id` and `now` are the id and timestamp given to the message. -/
def Broker.Inject {σ : Type} (b : Broker σ) (id : String) (now : Int)
    (asAgent toAgent text : String) : Option Error × Broker σ :=
  b.SendMessage (NewMessage id now asAgent toAgent TypeInject text)

/-! ### One pass of `Run`

`Run` waits for the ticker or the cancellation of the context and, on every tick,
makes one pass over the registered agents. The pass is embedded here; the timing of the
ticks is not. The two callbacks are observers: their calls are recorded in order. -/

/-- A call of a callback of the broker: `b.errorHandler(agent, err)` or
`b.handler(resp)`. -/
inductive HandlerCall where
  | errorHandler (agent : String) (err : Error)
  | handler (resp : Message)
deriving DecidableEq

/-- The callback calls `Run` makes for the result of one `ProcessNext`; `hasHandler`
and `hasErrorHandler` say that `b.handler` and `b.errorHandler` are not nil. -/
def handlerCalls (hasHandler hasErrorHandler : Bool) (agent : String) :
    Except Error (Option Message) → List HandlerCall
  | .error err => if hasErrorHandler then [.errorHandler agent err] else []
  | .ok (some resp) => if hasHandler then [.handler resp] else []
  | .ok none => []

/-- What one pass leaves: the `ProcessNext` calls made (agent and result, in call
order), the callback calls, and the broker. -/
structure Pass (σ : Type) where
  attempts : List (String × Except Error (Option Message))
  calls : List HandlerCall
  broker : Broker σ

/-- The loop `for _, agent := range b.agents` of `Run` from the `i`-th call of the
pass on; `env i` holds the values the `i`-th `ProcessNext` reads from the clock and
the id generator. -/
def Broker.runPass {σ : Type} (hasHandler hasErrorHandler : Bool) (env : Nat → TurnInputs) :
    Broker σ → Nat → List String → Pass σ
  | b, _, [] => { attempts := [], calls := [], broker := b }
  | b, i, agent :: rest =>
    let r := b.ProcessNext (env i) agent
    let next := Broker.runPass hasHandler hasErrorHandler env r.2 (i + 1) rest
    { attempts := (agent, r.1) :: next.attempts,
      calls := handlerCalls hasHandler hasErrorHandler agent r.1 ++ next.calls,
      broker := next.broker }

/-- One tick of `Run`: the pass over `b.agents`. -/
def Broker.tick {σ : Type} (b : Broker σ) (hasHandler hasErrorHandler : Bool)
    (env : Nat → TurnInputs) : Pass σ :=
  Broker.runPass hasHandler hasErrorHandler env b 0 b.agents

/-! ### The executor of `broker_test.go` -/

structure ExecuteCall where
  SessionID : String
  Message : String
  IsNew : Bool
deriving DecidableEq

/-- The state of a `MockExecutor`. -/
structure MockExecutor where
  responses : List (String × String)
  calls : List ExecuteCall
deriving DecidableEq

/-- Go `MockExecutor.Execute`; the cost `0.001` is rendered `0.001000`. -/
def MockExecutor.Execute (m : MockExecutor) (sessionID message : String) (isNew : Bool) :
    Except Error ExecuteResult × MockExecutor :=
  let m1 := { m with calls := m.calls ++ [{ SessionID := sessionID, Message := message, IsNew := isNew }] }
  let response := match mapGet m.responses sessionID with
    | some r => r
    | none => "mock response"
  let newSessionID := if isNew then "new-session-" ++ sessionID else sessionID
  (.ok { SessionID := newSessionID, Response := response, Cost := "0.001000" }, m1)

def mockExecutor : Executor MockExecutor := { Execute := MockExecutor.Execute }

/-! ### The executor of `executor.go` -/

/-- Go `ClaudeExecutor`, a struct without fields. -/
structure ClaudeExecutor where
deriving DecidableEq

/-- Go `ClaudeExecutor.BuildArgs`: the arguments of the `claude` command. -/
def ClaudeExecutor.BuildArgs (_e : ClaudeExecutor) (sessionID message : String) (isNew : Bool) :
    List String :=
  let args : List String := []
  let args :=
    if isNew then args ++ ["-p", message]
    else args ++ ["--resume", sessionID, "-p", message]
  args ++ ["--output-format", "json", "--max-turns", "1"]

end broker
/-! ## Notions used to state the properties -/

/-- The file system `fs1` is `fs` with, possibly, more directories, all of them empty. -/
def FileSystem.grownFrom (fs1 fs : FileSystem) : Prop :=
  ∀ p, mapGet fs1.dirs p = mapGet fs.dirs p ∨
    (mapGet fs.dirs p = none ∧ mapGet fs1.dirs p = some [] ∧ fs.isFile p = false)

/-- The number written by a list of decimal digits. -/
def digitsValue (l : List Char) : Nat := l.foldl (fun acc c => 10 * acc + (c.toNat - 48)) 0

namespace queue

/-- The content of a queue as its operations observe it: the listed file names in
delivery order, each with the bytes read for it (`none` when the file cannot be
read). -/
def Queue.contents (q : Queue) (fs : FileSystem) :
    Except Error (List (String × Option FileData)) :=
  match q.listFiles fs with
  | .error e => .error e
  | .ok files =>
    .ok (files.map (fun file => (file, (ReadFile fs (filepathJoin q.dir file)).toOption)))

/-- The names that `listFiles` keeps among the regular files of a directory. -/
def jsonNames (d : Dir) : List String :=
  (d.map Prod.fst).filter (fun n => filepathExt n == ".json")

/-- Successive `Enqueue` calls, stopping at the first that fails. -/
def Queue.enqueueAll (q : Queue) : FileSystem → List Message → Except Error FileSystem
  | fs, [] => .ok fs
  | fs, msg :: rest =>
    match q.Enqueue fs msg with
    | .error e => .error e
    | .ok fs1 => Queue.enqueueAll q fs1 rest

/-- The results of `n` successive `Dequeue` calls, in call order. -/
def Queue.dequeueTimes (q : Queue) : FileSystem → Nat → List (Except Error (Option Message))
  | _, 0 => []
  | fs, n + 1 =>
    match q.Dequeue fs with
    | .error e => .error e :: Queue.dequeueTimes q fs n
    | .ok (r, fs1) => .ok r :: Queue.dequeueTimes q fs1 n

/-- The file system after `n` successive `Dequeue` calls (a call that fails leaves it
as it is). -/
def Queue.afterDequeues (q : Queue) : FileSystem → Nat → FileSystem
  | fs, 0 => fs
  | fs, n + 1 =>
    match q.Dequeue fs with
    | .error _ => Queue.afterDequeues q fs n
    | .ok (_, fs1) => Queue.afterDequeues q fs1 n

/-- Well-formedness of the directory of a queue as a directory of a real file
system: it exists, no two of its files share a name, and every file name is an
entry name, so that joining it to the directory gives the path of that entry. -/
def Queue.wellFormed (q : Queue) (fs : FileSystem) : Bool :=
  match mapGet fs.dirs q.dir with
  | none => false
  | some d =>
    decide (d.map Prod.fst).Nodup
      && d.all (fun e => decide (splitPath (filepathJoin q.dir e.1) = (q.dir, e.1)))

end queue

namespace session

/-- A call that builds up the state of a session manager. -/
inductive SessionOp where
  | createSession (agentID : String) (now : Int)
  | setSessionID (agentID sessionID : String) (now : Int)
  | incrementTurn (agentID : String) (now : Int)
deriving DecidableEq

/-- The manager after a call; a call that returns an error has changed nothing. -/
def Manager.perform (m : Manager) : SessionOp → Manager
  | .createSession agentID now =>
    match m.CreateSession agentID now with
    | .ok (_, m1) => m1
    | .error _ => m
  | .setSessionID agentID sessionID now =>
    match m.SetSessionID agentID sessionID now with
    | .ok m1 => m1
    | .error _ => m
  | .incrementTurn agentID now =>
    match m.IncrementTurn agentID now with
    | .ok m1 => m1
    | .error _ => m

/-- The manager after a sequence of calls. -/
def Manager.performAll (m : Manager) (ops : List SessionOp) : Manager :=
  ops.foldl Manager.perform m

end session

namespace broker

/-- The call `ProcessNext b inp agentID` takes the message `msg` from the queue of the
agent and the Executor, called for the session `sess` held before the call, returns
`result`. -/
def Broker.Processes {σ : Type} (b : Broker σ) (agentID : String) (msg : Message)
    (sess : session.Session) (result : ExecuteResult) : Prop :=
  ∃ q qm1 fs1 fs2 st1,
    b.queueMgr.GetQueue b.fs agentID = .ok (q, qm1, fs1) ∧
    q.Dequeue fs1 = .ok (some msg, fs2) ∧
    b.sessionMgr.GetSession agentID = .ok sess ∧
    b.executor.Execute b.execState sess.SessionID msg.Payload.Text (sess.SessionID == "")
      = (.ok result, st1)

/-- Whether a result of `ProcessNext` reports a failed Executor invocation. -/
def isExecuteFailure : Except Error (Option Message) → Bool
  | .error (.wrap text _) => text == "failed to execute"
  | _ => false

/-- Successive `ProcessNext` calls for one agent, one per element of `inps`: the
results in call order and the broker after the last call. -/
def Broker.processTimes {σ : Type} (b : Broker σ) (agentID : String) :
    List TurnInputs → List (Except Error (Option Message)) × Broker σ
  | [] => ([], b)
  | inp :: rest =>
    let r := b.ProcessNext inp agentID
    let rs := Broker.processTimes r.2 agentID rest
    (r.1 :: rs.1, rs.2)

/-- The executor `exec` with a record of its calls: its state is paired with the
calls made so far, in call order. -/
def Executor.recording {σ : Type} (exec : Executor σ) : Executor (σ × List ExecuteCall) :=
  { Execute := fun st sessionID message isNew =>
      ((exec.Execute st.1 sessionID message isNew).1,
        ((exec.Execute st.1 sessionID message isNew).2,
          st.2 ++ [{ SessionID := sessionID, Message := message, IsNew := isNew }])) }

/-- The broker `b` with its executor recording the calls, `calls` being those made
before. -/
def Broker.recorded {σ : Type} (b : Broker σ) (calls : List ExecuteCall) :
    Broker (σ × List ExecuteCall) :=
  { fs := b.fs, queueMgr := b.queueMgr, sessionMgr := b.sessionMgr,
    executor := b.executor.recording, execState := (b.execState, calls), agents := b.agents }

end broker

/-! ## Concrete states for the closed statements -/

namespace sample

open queue session broker

/-- An executor that gives the same answer to every call. -/
def fixedExecutor (r : Except Error ExecuteResult) : Executor Unit :=
  { Execute := fun st _ _ _ => (r, st) }

/-- A broker over new managers for `data/queues` and `data/sessions`. -/
def newBroker {σ : Type} (exec : Executor σ) (st : σ) : Broker σ :=
  { fs := { dirs := [("data", []), ("data/queues", [])] },
    queueMgr := { baseDir := "data/queues", queues := [] },
    sessionMgr := { dir := "data/sessions", sessions := [] },
    executor := exec, execState := st, agents := [] }

/-- The inputs of a turn made at `t`. -/
def turnAt (t : Int) (id : String) : TurnInputs :=
  { setAt := t, incAt := t + 1, respID := id, respAt := t + 2 }

/-- The scenario of the specification: `agent-a` is initialized, `hello` from the human
is queued, and the Executor answers `hi` with token `s1`. -/
def helloBroker : Broker Unit :=
  (((newBroker (fixedExecutor (.ok { SessionID := "s1", Response := "hi", Cost := "0.001000" }))
      ()).InitializeAgent AgentA 1700000000000000000).2.SendMessage
    (NewUserMessage "id-1" 1700000000000000001 AgentA "hello")).2

/-- The same scenario with an Executor that fails. -/
def failingBroker : Broker Unit :=
  (((newBroker (fixedExecutor (.error (.exec "claude command failed")))
      ()).InitializeAgent AgentA 1700000000000000000).2.SendMessage
    (NewUserMessage "id-1" 1700000000000000001 AgentA "hello")).2

/-- An initialized agent with two queued messages and the executor of the tests. -/
def twoMessages : Broker MockExecutor :=
  ((((newBroker mockExecutor { responses := [], calls := [] }).InitializeAgent AgentA
      1700000000000000000).2.SendMessage
    (NewUserMessage "id-1" 1700000000000000001 AgentA "msg")).2.SendMessage
    (NewUserMessage "id-2" 1700000000000000002 AgentA "msg")).2

/-- The agent `agent-a` initialized, nothing queued. -/
def idleBroker : Broker MockExecutor :=
  ((newBroker mockExecutor { responses := [], calls := [] }).InitializeAgent AgentA
      1700000000000000000).2

/-- Both agents initialized and a message injected as `agent-a` to `agent-b`. -/
def injectedBroker : Broker MockExecutor :=
  ((((newBroker mockExecutor { responses := [], calls := [] }).InitializeAgent AgentA
      1700000000000000000).2.InitializeAgent AgentB 1700000000000000001).2.Inject
    "id-1" 1700000000000000002 AgentA AgentB "hi").2

def helloTurn : TurnInputs := turnAt 1700000000000000002 "id-2"

/-- What `ProcessNext` returns in the scenario of the specification. -/
def helloResponse : Message :=
  { ID := "id-2", Timestamp := 1700000000000000004, From := "agent-a", To := "human",
    MsgType := "message", Payload := { Text := "hi", Metadata := [("cost", "0.001000")] },
    Context := some { SessionID := "s1", TurnNumber := 2 } }

def injectedTurn : TurnInputs := turnAt 1700000000000000003 "id-2"

/-- What `ProcessNext` for `agent-b` returns after the injection. -/
def injectedResponse : Message :=
  { ID := "id-2", Timestamp := 1700000000000000005, From := "agent-b", To := "agent-a",
    MsgType := "message",
    Payload := { Text := "mock response", Metadata := [("cost", "0.001000")] },
    Context := some { SessionID := "new-session-", TurnNumber := 2 } }

/-- Both agents initialized, nothing queued. -/
def idleTwo : Broker MockExecutor :=
  (((newBroker mockExecutor { responses := [], calls := [] }).InitializeAgent AgentA
      1700000000000000000).2.InitializeAgent AgentB 1700000000000000001).2

/-- The queue of `agent-a` and of `agent-b` under `data/queues`. -/
def queueA : Queue := { dir := "data/queues/agent-a" }
def queueB : Queue := { dir := "data/queues/agent-b" }

/-- The queue of the queue tests, with its directory created and empty. -/
def testQueue : Queue := { dir := "data/queues/test" }

def emptyTestFS : FileSystem :=
  { dirs := [("data", []), ("data/queues", []), ("data/queues/test", [])] }

/-- Two messages created one nanosecond apart, on 2001-09-09 at 01:46:40 UTC. -/
def lastOf18Digits : Message :=
  NewMessage "id-1" 999999999999999999 "a" "b" TypeMessage "1"

def firstOf19Digits : Message :=
  NewMessage "id-2" 1000000000000000000 "a" "b" TypeMessage "2"

/-- Two messages with the same timestamp and id and different texts. -/
def firstText : Message :=
  NewMessage "id-1" 1700000000000000000 "a" "b" TypeMessage "first text"

def secondText : Message :=
  NewMessage "id-1" 1700000000000000000 "a" "b" TypeMessage "second text"

/-- A message with the timestamp of `firstText` and another id. -/
def otherId : Message :=
  NewMessage "id-2" 1700000000000000000 "a" "b" TypeMessage "other"

/-- The test queue holding `firstText`, and holding `firstText` and `otherId`. -/
def oneRecordFS : FileSystem :=
  { dirs := [("data", []), ("data/queues", []),
      ("data/queues/test", [("1700000000000000000_id-1.json", .record firstText)])] }

def twoRecordFS : FileSystem :=
  { dirs := [("data", []), ("data/queues", []),
      ("data/queues/test", [("1700000000000000000_id-1.json", .record firstText),
                            ("1700000000000000000_id-2.json", .record otherId)])] }

/-- A message whose id holds a path separator, and a file system in which the
directory of the queue `agent-a` holds the directory of the queue `agent-a/7_x`. -/
def slashId : Message := NewMessage "x/y" 7 "a" "agent-a" TypeMessage "text"

def nestedFS : FileSystem :=
  { dirs := [("data", []), ("data/queues", []), ("data/queues/agent-a", []),
             ("data/queues/agent-a/7_x", [])] }

/-- A response as `ProcessNext` builds it, with metadata and context, and a message
whose context holds the zero values. -/
def withBoth : Message :=
  ((NewAgentMessage "id-9" 1700000000123456789 "agent-a" "human" "hi").WithContext "s1" 1).WithMetadata
    "cost" "0.001000"

def zeroContext : Message :=
  (NewAgentMessage "id-9" 1700000000123456789 "agent-a" "human" "hi").WithContext "" 0

/-- An executor that fails for the message text `fail` and answers `ok` otherwise. -/
def pickyExecutor : Executor Unit :=
  { Execute := fun st _ message _ =>
      if message = "fail" then (.error (.exec "claude command failed"), st)
      else (.ok { SessionID := "s1", Response := "ok", Cost := "0.001000" }, st) }

/-- Both agents initialized; the message queued for `agent-a` makes the Executor
fail, the one for `agent-b` does not. -/
def firstFails : Broker Unit :=
  (((((newBroker pickyExecutor ()).InitializeAgent AgentA
      1700000000000000000).2.InitializeAgent AgentB 1700000000000000001).2.SendMessage
    (NewUserMessage "id-1" 1700000000000000002 AgentA "fail")).2.SendMessage
    (NewUserMessage "id-2" 1700000000000000003 AgentB "hello")).2

/-- The clock and id values of the calls of a pass. -/
def passEnv : Nat → TurnInputs := fun i => turnAt (1700000000000000010 + 10 * (i : Int)) "id-r"

/-- Both agents initialized with one message each, and the executor of the tests. -/
def twoAgents : Broker MockExecutor :=
  (((((newBroker mockExecutor { responses := [], calls := [] }).InitializeAgent AgentA
      1700000000000000000).2.InitializeAgent AgentB 1700000000000000001).2.SendMessage
    (NewUserMessage "id-1" 1700000000000000002 AgentA "hello a")).2.SendMessage
    (NewUserMessage "id-2" 1700000000000000003 AgentB "hello b")).2

/-- An executor that echoes the message text as the token: called for two agents
with different texts it returns different tokens. -/
def echoExecutor : Executor Unit :=
  { Execute := fun st _ message _ =>
      (.ok { SessionID := "session-" ++ message, Response := "ok", Cost := "0.001000" }, st) }

/-- Both agents initialized with one message each, and the echoing executor. -/
def helloTwo : Broker Unit :=
  (((((newBroker echoExecutor ()).InitializeAgent AgentA
      1700000000000000000).2.InitializeAgent AgentB 1700000000000000001).2.SendMessage
    (NewUserMessage "id-1" 1700000000000000002 AgentA "a")).2.SendMessage
    (NewUserMessage "id-2" 1700000000000000003 AgentB "b")).2

def replyA : Message :=
  { ID := "id-3", Timestamp := 1700000000000000006, From := "agent-a", To := "human",
    MsgType := "message", Payload := { Text := "ok", Metadata := [("cost", "0.001000")] },
    Context := some { SessionID := "session-a", TurnNumber := 2 } }

def replyB : Message :=
  { ID := "id-4", Timestamp := 1700000000000000009, From := "agent-b", To := "human",
    MsgType := "message", Payload := { Text := "ok", Metadata := [("cost", "0.001000")] },
    Context := some { SessionID := "session-b", TurnNumber := 2 } }

def turnA : TurnInputs := turnAt 1700000000000000004 "id-3"
def turnB : TurnInputs := turnAt 1700000000000000007 "id-4"

/-- The calls of the persistence test: CreateSession, SetSessionID and two
IncrementTurn for `agent-a`. -/
def persistenceOps : List session.SessionOp :=
  [.createSession "agent-a" 1700000000000000000,
   .setSessionID "agent-a" "persisted-session" 1700000000000000001,
   .incrementTurn "agent-a" 1700000000000000002,
   .incrementTurn "agent-a" 1700000000000000003]

/-- A broker whose queue directory holds a regular file named `agent-a`, so that the
directory of the queue of `agent-a` cannot be created. -/
def blockedBroker : Broker Unit :=
  { fs := { dirs := [("data", []), ("data/queues", [("agent-a", .corrupt "not a directory")])] },
    queueMgr := { baseDir := "data/queues", queues := [] },
    sessionMgr := { dir := "data/sessions", sessions := [] },
    executor := fixedExecutor (.error (.exec "not called")), execState := (), agents := [] }

/-- The same broker holding a session of `agent-a` with a token and three turns. -/
def blockedWithSession : Broker Unit :=
  { blockedBroker with
    sessionMgr := { dir := "data/sessions", sessions := [("agent-a", Session.mk "agent-a" "s1" 3 1 2)] } }

/-- The agent `agent-a` initialized and a message queued for it whose sender is
`agent-a/`, an agent id that names the directory of the queue of `agent-a`. -/
def aliasBroker : Broker Unit :=
  (((newBroker (fixedExecutor (.ok { SessionID := "s1", Response := "hi", Cost := "0.001000" }))
      ()).InitializeAgent AgentA 1700000000000000000).2.SendMessage
    (NewMessage "id-1" 1700000000000000001 "agent-a/" AgentA TypeMessage "hello")).2

/-- The response to that message. -/
def aliasResponse : Message :=
  { ID := "id-2", Timestamp := 1700000000000000004, From := "agent-a", To := "agent-a/",
    MsgType := "message", Payload := { Text := "hi", Metadata := [("cost", "0.001000")] },
    Context := some { SessionID := "s1", TurnNumber := 2 } }

/-- The queue directory of the human operator, which nothing has created. -/
def queueHuman : Queue := { dir := "data/queues/human" }

/-- The message of the scenario of the specification, the session of `agent-a` when
it is processed, and the file system once it is taken from the queue. -/
def hello : Message := NewUserMessage "id-1" 1700000000000000001 AgentA "hello"

def freshSessionA : Session :=
  Session.mk "agent-a" "" 0 1700000000000000000 1700000000000000000

def drainedFS : FileSystem :=
  { dirs := [("data", []), ("data/queues", []), ("data/queues/agent-a", [])] }

/-- The queue of the agent id `agent-a/7_x`, whose directory lies in that of `agent-a`. -/
def queueNested : Queue := { dir := "data/queues/agent-a/7_x" }

/-- The messages queued in `twoAgents`, and the file system once the one of `agent-a`
is taken from its queue. -/
def helloA : Message := NewUserMessage "id-1" 1700000000000000002 AgentA "hello a"

def helloB : Message := NewUserMessage "id-2" 1700000000000000003 AgentB "hello b"

def twoAgentsTaken : FileSystem :=
  { dirs := [("data", []), ("data/queues", []), ("data/queues/agent-a", []),
             ("data/queues/agent-b", [("1700000000000000003_id-2.json", .record helloB)])] }

/-- Two messages with different ids whose files have one path: the id of the second
leaves the directory it names. -/
def plainId : Message := NewMessage "x" 5 "a" "b" TypeMessage "first"

def dotDotId : Message := NewMessage "a/../5_x" 5 "a" "b" TypeMessage "second"

/-- The test queue after `otherId` and then `firstText` are enqueued. -/
def enqueuedTwoFS : FileSystem :=
  { dirs := [("data", []), ("data/queues", []),
      ("data/queues/test", [("1700000000000000000_id-2.json", .record otherId),
                            ("1700000000000000000_id-1.json", .record firstText)])] }

def emptyStore : Store := .present .absent

/-- A Go string that is not valid UTF-8: the letter `h` and the byte `0xff`. -/
def invalidToken : GoString := [.rune 'h', .invalid 255]

/-- The manager state that `CreateSession` for `agent-a` and then `SetSessionID` with
that token leave. -/
def coercedManager : govalue.Manager :=
  { dir := "data/sessions",
    sessions := [(goString "agent-a",
      { AgentID := goString "agent-a", SessionID := invalidToken, TurnNumber := 0,
        CreatedAt := 1700000000000000000, UpdatedAt := 1700000000000000001 })] }

/-- A message as `FromJSON` builds it from a document whose `metadata` is the empty
object: the metadata map is empty and not nil. -/
def emptyMetadata : govalue.Message :=
  { ID := goString "id-1", Timestamp := 1700000000000000000, From := goString "human",
    To := goString "agent-a", MsgType := goString "message",
    Payload := { Text := goString "hello", Metadata := some [] }, Context := none }

/-- A message whose text is not valid UTF-8. -/
def invalidText : govalue.Message :=
  { ID := goString "id-1", Timestamp := 1700000000000000000, From := goString "human",
    To := goString "agent-a", MsgType := goString "message",
    Payload := { Text := invalidToken, Metadata := none }, Context := none }

/-- A message whose timestamp is the first instant of the year 10000. -/
def yearTenThousand : govalue.Message :=
  { ID := goString "id-1", Timestamp := 253402300800000000000, From := goString "human",
    To := goString "agent-a", MsgType := goString "message",
    Payload := { Text := goString "hello", Metadata := none }, Context := none }

end sample
/-! ## Properties -/

/-! ### Maps -/

theorem mapGet_mapSet_self {β : Type} (m : List (String × β)) (k : String) (v : β) :
    mapGet (mapSet m k v) k = some v := by
  induction m with
  | nil => simp [mapSet, mapGet]
  | cons kv rest ih =>
    obtain ⟨k1, w⟩ := kv
    by_cases h : k1 = k
    · simp [mapSet, mapGet, h]
    · simp [mapSet, mapGet, h, ih]

theorem mapGet_mapSet_ne {β : Type} (m : List (String × β)) (k k2 : String) (v : β)
    (hne : k2 ≠ k) : mapGet (mapSet m k v) k2 = mapGet m k2 := by
  induction m with
  | nil => simp [mapSet, mapGet, Ne.symm hne]
  | cons kv rest ih =>
    obtain ⟨k1, w⟩ := kv
    by_cases h : k1 = k
    · subst h
      simp [mapSet, mapGet, Ne.symm hne]
    · by_cases h2 : k1 = k2
      · subst h2
        simp [mapSet, mapGet, h]
      · simp [mapSet, mapGet, h, h2, ih]

theorem mapSet_mapSet_self {β : Type} (m : List (String × β)) (k : String) (v w : β) :
    mapSet (mapSet m k v) k w = mapSet m k w := by
  induction m with
  | nil => simp [mapSet]
  | cons kv rest ih =>
    obtain ⟨k1, u⟩ := kv
    by_cases h : k1 = k
    · simp [mapSet, h]
    · simp [mapSet, h, ih]

theorem mapGet_mapDel_self {β : Type} (m : List (String × β)) (k : String) :
    mapGet (mapDel m k) k = none := by
  induction m with
  | nil => simp [mapDel, mapGet]
  | cons kv rest ih =>
    obtain ⟨k1, w⟩ := kv
    by_cases h : k1 = k
    · simp [mapDel, h, ih]
    · simp [mapDel, mapGet, h, ih]

theorem mapGet_mapDel_ne {β : Type} (m : List (String × β)) (k k2 : String) (hne : k2 ≠ k) :
    mapGet (mapDel m k) k2 = mapGet m k2 := by
  induction m with
  | nil => simp [mapDel, mapGet]
  | cons kv rest ih =>
    obtain ⟨k1, w⟩ := kv
    by_cases h : k1 = k
    · subst h
      simp [mapDel, mapGet, Ne.symm hne, ih]
    · by_cases h2 : k1 = k2
      · subst h2
        simp [mapDel, mapGet, h]
      · simp [mapDel, mapGet, h, h2, ih]

theorem mapGet_eq_none_iff {β : Type} (m : List (String × β)) (k : String) :
    mapGet m k = none ↔ k ∉ m.map Prod.fst := by
  induction m with
  | nil => simp [mapGet]
  | cons kv rest ih =>
    obtain ⟨k1, w⟩ := kv
    by_cases h : k1 = k
    · simp [mapGet, h]
    · simp [mapGet, h, ih, Ne.symm h]

theorem mapSet_keys_of_mem {β : Type} (m : List (String × β)) (k : String) (v : β)
    (hmem : k ∈ m.map Prod.fst) : (mapSet m k v).map Prod.fst = m.map Prod.fst := by
  induction m with
  | nil => simp at hmem
  | cons kv rest ih =>
    obtain ⟨k1, w⟩ := kv
    by_cases h : k1 = k
    · simp [mapSet, h]
    · have : k ∈ rest.map Prod.fst := by
        simp only [List.map_cons, List.mem_cons] at hmem
        rcases hmem with h1 | h1
        · exact absurd h1.symm h
        · exact h1
      simp [mapSet, h, ih this]

theorem mapSet_keys_of_not_mem {β : Type} (m : List (String × β)) (k : String) (v : β)
    (hmem : k ∉ m.map Prod.fst) : (mapSet m k v).map Prod.fst = m.map Prod.fst ++ [k] := by
  induction m with
  | nil => simp [mapSet]
  | cons kv rest ih =>
    obtain ⟨k1, w⟩ := kv
    simp only [List.map_cons, List.mem_cons, not_or] at hmem
    have h : ¬ k1 = k := fun h1 => hmem.1 h1.symm
    simp [mapSet, h, ih hmem.2]

theorem mapDel_keys {β : Type} (m : List (String × β)) (k : String) :
    (mapDel m k).map Prod.fst = (m.map Prod.fst).filter (fun n => decide (n ≠ k)) := by
  induction m with
  | nil => simp [mapDel]
  | cons kv rest ih =>
    obtain ⟨k1, w⟩ := kv
    by_cases h : k1 = k
    · simp [mapDel, h, ih]
    · simp [mapDel, h, ih]

/-! ### The order of file names -/

theorem char_eq_of_toNat_eq (a b : Char) (h : a.toNat = b.toNat) : a = b := by
  apply Char.ext
  apply UInt32.ext
  exact h

theorem lessChars_total (a b : List Char) : lessChars b a = false ∨ lessChars a b = false := by
  induction a generalizing b with
  | nil => cases b <;> simp [lessChars]
  | cons x xs ih =>
    cases b with
    | nil => simp [lessChars]
    | cons y ys =>
      simp only [lessChars]
      by_cases h1 : x.toNat < y.toNat
      · have h2 : ¬ y.toNat < x.toNat := by omega
        simp [h1, h2]
      · by_cases h2 : y.toNat < x.toNat
        · simp [h1, h2]
        · simp only [h1, h2, if_false]
          exact ih ys

theorem lessChars_antisymm (a b : List Char) (h1 : lessChars b a = false)
    (h2 : lessChars a b = false) : a = b := by
  induction a generalizing b with
  | nil => cases b <;> simp_all [lessChars]
  | cons x xs ih =>
    cases b with
    | nil => simp_all [lessChars]
    | cons y ys =>
      simp only [lessChars] at h1 h2
      by_cases c1 : x.toNat < y.toNat
      · simp [c1] at h2
      · by_cases c2 : y.toNat < x.toNat
        · simp [c2] at h1
        · simp only [c1, c2, if_false] at h1 h2
          have hxy : x = y := char_eq_of_toNat_eq x y (by omega)
          rw [hxy, ih ys h1 h2]

theorem lessChars_le_trans (a b c : List Char) (h1 : lessChars b a = false)
    (h2 : lessChars c b = false) : lessChars c a = false := by
  induction a generalizing b c with
  | nil => cases c <;> simp [lessChars]
  | cons x xs ih =>
    cases b with
    | nil => simp [lessChars] at h1
    | cons y ys =>
      cases c with
      | nil => simp [lessChars] at h2
      | cons z zs =>
        simp only [lessChars] at h1 h2 ⊢
        by_cases c1 : y.toNat < x.toNat
        · simp [c1] at h1
        · by_cases c2 : z.toNat < y.toNat
          · simp [c2] at h2
          · by_cases c3 : x.toNat < y.toNat
            · have c4 : ¬ z.toNat < x.toNat := by omega
              have c5 : x.toNat < z.toNat := by omega
              simp [c4, c5]
            · by_cases c6 : y.toNat < z.toNat
              · have c4 : ¬ z.toNat < x.toNat := by omega
                have c5 : x.toNat < z.toNat := by omega
                simp [c4, c5]
              · simp only [c1, c3, if_false] at h1
                simp only [c2, c6, if_false] at h2
                have c4 : ¬ z.toNat < x.toNat := by omega
                have c5 : ¬ x.toNat < z.toNat := by omega
                simp only [c4, c5, if_false]
                exact ih ys zs h1 h2

theorem stringLE_total (a b : String) : stringLE a b ∨ stringLE b a :=
  lessChars_total a.data b.data

theorem stringLE_trans (a b c : String) (hab : stringLE a b) (hbc : stringLE b c) :
    stringLE a c :=
  lessChars_le_trans a.data b.data c.data hab hbc

theorem stringLE_antisymm (a b : String) (hab : stringLE a b) (hba : stringLE b a) : a = b :=
  String.ext (lessChars_antisymm a.data b.data hab hba)

theorem sortStrings_perm (l : List String) : (sortStrings l).Perm l :=
  List.perm_insertionSort stringLE l

theorem sortStrings_sorted (l : List String) : (sortStrings l).Sorted stringLE := by
  haveI : IsTotal String stringLE := ⟨stringLE_total⟩
  haveI : IsTrans String stringLE := ⟨stringLE_trans⟩
  exact List.sorted_insertionSort stringLE l

theorem sortStrings_length (l : List String) : (sortStrings l).length = l.length :=
  (sortStrings_perm l).length_eq

theorem mem_sortStrings (l : List String) (x : String) : x ∈ sortStrings l ↔ x ∈ l :=
  (sortStrings_perm l).mem_iff

/-- Removing the head of the sorted arrangement is sorting without that name. -/
theorem sortStrings_filter_head (l : List String) (hnd : l.Nodup) (n : String) (ns : List String)
    (h : sortStrings l = n :: ns) :
    sortStrings (l.filter (fun x => decide (x ≠ n))) = ns := by
  have hperm : (n :: ns).Perm l := h ▸ sortStrings_perm l
  have hsorted : (n :: ns).Sorted stringLE := h ▸ sortStrings_sorted l
  have hnd2 : (n :: ns).Nodup := hperm.nodup_iff.mpr hnd
  have hn : n ∉ ns := (List.nodup_cons.mp hnd2).1
  have h1 : (l.filter (fun x => decide (x ≠ n))).Perm ((n :: ns).filter (fun x => decide (x ≠ n))) :=
    (hperm.filter _).symm
  have h2 : (n :: ns).filter (fun x => decide (x ≠ n)) = ns := by
    rw [List.filter_cons_of_neg (by simp)]
    apply List.filter_eq_self.mpr
    intro a ha
    have : a ≠ n := fun e => hn (e ▸ ha)
    simpa using this
  rw [h2] at h1
  haveI : IsAntisymm String stringLE := ⟨stringLE_antisymm⟩
  exact List.eq_of_perm_of_sorted ((sortStrings_perm _).trans h1) (sortStrings_sorted _)
    hsorted.of_cons

/-! ### Files of a queue directory -/

namespace queue

theorem wellFormed_iff (q : Queue) (fs : FileSystem) :
    q.wellFormed fs = true ↔
      ∃ d, mapGet fs.dirs q.dir = some d ∧ (d.map Prod.fst).Nodup ∧
        ∀ f ∈ d.map Prod.fst, splitPath (filepathJoin q.dir f) = (q.dir, f) := by
  unfold Queue.wellFormed
  cases h : mapGet fs.dirs q.dir with
  | none => simp
  | some d =>
    simp only [Bool.and_eq_true, decide_eq_true_eq, List.all_eq_true, Option.some.injEq,
      exists_eq_left', List.mem_map, forall_exists_index, and_imp]
    constructor
    · rintro ⟨h1, h2⟩
      refine ⟨h1, ?_⟩
      rintro f e he rfl
      exact h2 e he
    · rintro ⟨h1, h2⟩
      exact ⟨h1, fun e he => h2 e.1 e he rfl⟩

theorem listFiles_of_dir (q : Queue) (fs : FileSystem) (d : Dir)
    (hd : mapGet fs.dirs q.dir = some d) :
    q.listFiles fs = .ok (sortStrings (jsonNames d)) := by
  unfold Queue.listFiles ReadDir jsonNames
  rw [hd]
  simp only [List.filter_append, List.map_append, List.filter_map, List.map_map]
  have h2 : (List.filter ((fun e : DirEntry => !e.IsDir && filepathExt e.Name == ".json") ∘
      fun n => ({ Name := n, IsDir := true } : DirEntry)) (fs.subdirNames q.dir)) = [] := by
    apply List.filter_eq_nil_iff.mpr
    intro a _
    simp
  rw [h2]
  simp only [List.map_nil, List.append_nil]
  congr 2

theorem ReadFile_entry (fs : FileSystem) (dir path f : String) (d : Dir)
    (hd : mapGet fs.dirs dir = some d) (hs : splitPath path = (dir, f)) :
    (ReadFile fs path).toOption = mapGet d f := by
  unfold ReadFile FileSystem.files
  rw [hs, hd]
  simp only [Option.getD_some]
  cases mapGet d f with
  | some data => rfl
  | none => by_cases h : fs.isDir path <;> simp [h, Except.toOption]

theorem ReadFile_entry_some (fs : FileSystem) (dir path f : String) (d : Dir) (data : FileData)
    (hd : mapGet fs.dirs dir = some d) (hs : splitPath path = (dir, f))
    (hf : mapGet d f = some data) : ReadFile fs path = .ok data := by
  unfold ReadFile FileSystem.files
  rw [hs, hd]
  simp [hf]

theorem Remove_entry (fs : FileSystem) (dir path f : String) (d : Dir) (data : FileData)
    (hd : mapGet fs.dirs dir = some d) (hs : splitPath path = (dir, f))
    (hf : mapGet d f = some data) :
    Remove fs path = .ok { dirs := mapSet fs.dirs dir (mapDel d f) } := by
  unfold Remove
  rw [hs]
  simp [hd, hf]

theorem mapGet_isSome_of_mem {β : Type} (m : List (String × β)) (k : String)
    (h : k ∈ m.map Prod.fst) : ∃ v, mapGet m k = some v := by
  cases hg : mapGet m k with
  | none => exact absurd h ((mapGet_eq_none_iff m k).mp hg)
  | some v => exact ⟨v, rfl⟩

theorem jsonNames_subset (d : Dir) (f : String) (h : f ∈ jsonNames d) : f ∈ d.map Prod.fst :=
  (List.mem_filter.mp h).1

theorem jsonNames_nodup (d : Dir) (h : (d.map Prod.fst).Nodup) : (jsonNames d).Nodup :=
  h.filter _

theorem jsonNames_mapDel (d : Dir) (n : String) :
    jsonNames (mapDel d n) = (jsonNames d).filter (fun x => decide (x ≠ n)) := by
  unfold jsonNames
  rw [mapDel_keys, List.filter_filter, List.filter_filter]
  congr 1
  funext x
  exact Bool.and_comm _ _

end queue

/-! ### Dequeue on a well-formed queue directory -/

namespace queue

theorem Dequeue_empty (q : Queue) (fs : FileSystem) (h : q.listFiles fs = .ok []) :
    q.Dequeue fs = .ok (none, fs) := by
  unfold Queue.Dequeue
  rw [h]

theorem Dequeue_record (q : Queue) (fs : FileSystem) (d : Dir) (n : String) (ns : List String)
    (m : Message) (hd : mapGet fs.dirs q.dir = some d)
    (hres : splitPath (filepathJoin q.dir n) = (q.dir, n))
    (hs : sortStrings (jsonNames d) = n :: ns) (hm : mapGet d n = some (.record m)) :
    q.Dequeue fs = .ok (some m, { dirs := mapSet fs.dirs q.dir (mapDel d n) }) := by
  unfold Queue.Dequeue
  rw [listFiles_of_dir q fs d hd, hs]
  simp only
  rw [ReadFile_entry_some fs q.dir _ n d _ hd hres hm]
  simp only [FromJSON]
  rw [Remove_entry fs q.dir _ n d _ hd hres hm]

theorem Dequeue_corrupt (q : Queue) (fs : FileSystem) (d : Dir) (n : String) (ns : List String)
    (raw : String) (hd : mapGet fs.dirs q.dir = some d)
    (hres : splitPath (filepathJoin q.dir n) = (q.dir, n))
    (hs : sortStrings (jsonNames d) = n :: ns) (hm : mapGet d n = some (.corrupt raw)) :
    q.Dequeue fs = .error (.wrap "failed to unmarshal message" .json) := by
  unfold Queue.Dequeue
  rw [listFiles_of_dir q fs d hd, hs]
  simp only
  rw [ReadFile_entry_some fs q.dir _ n d _ hd hres hm]
  simp only [FromJSON]

theorem contents_of_dir (q : Queue) (fs : FileSystem) (d : Dir)
    (hd : mapGet fs.dirs q.dir = some d)
    (hres : ∀ f ∈ d.map Prod.fst, splitPath (filepathJoin q.dir f) = (q.dir, f)) :
    q.contents fs = .ok ((sortStrings (jsonNames d)).map (fun f => (f, mapGet d f))) := by
  unfold Queue.contents
  rw [listFiles_of_dir q fs d hd]
  simp only [Except.ok.injEq]
  apply List.map_congr_left
  intro f hf
  have hf2 : f ∈ d.map Prod.fst := jsonNames_subset d f ((mem_sortStrings _ _).mp hf)
  rw [ReadFile_entry fs q.dir _ f d hd (hres f hf2)]

theorem readAll_of_dir (q : Queue) (fs : FileSystem) (d : Dir)
    (hd : mapGet fs.dirs q.dir = some d) (l : List String)
    (hres : ∀ f ∈ l, splitPath (filepathJoin q.dir f) = (q.dir, f)) (msgs : List Message) :
    readAll q fs l = .ok msgs ↔
      l.map (fun f => mapGet d f) = msgs.map (fun m => some (FileData.record m)) := by
  induction l generalizing msgs with
  | nil =>
    cases msgs <;> simp [readAll]
  | cons f rest ih =>
    have hf := hres f (List.mem_cons_self f rest)
    have hrest : ∀ g ∈ rest, splitPath (filepathJoin q.dir g) = (q.dir, g) :=
      fun g hg => hres g (List.mem_cons_of_mem f hg)
    unfold readAll
    cases hg : mapGet d f with
    | none =>
      have h1 : (ReadFile fs (filepathJoin q.dir f)).toOption = none := by
        rw [ReadFile_entry fs q.dir _ f d hd hf, hg]
      cases hr : ReadFile fs (filepathJoin q.dir f) with
      | ok data => rw [hr] at h1; simp [Except.toOption] at h1
      | error e => cases msgs <;> simp [hg]
    | some data =>
      rw [ReadFile_entry_some fs q.dir _ f d data hd hf hg]
      cases data with
      | corrupt raw => cases msgs <;> simp [FromJSON, hg]
      | record m =>
        simp only [FromJSON]
        cases hr : readAll q fs rest with
        | error e =>
          cases msgs with
          | nil => simp
          | cons m2 ms =>
            have := (ih hrest ms).not.mp (by rw [hr]; simp)
            simp only [List.map_cons, hg, List.cons.injEq, not_and, reduceCtorEq, false_iff]
            intro _
            exact this
        | ok ms0 =>
          have h0 := (ih hrest ms0).mp hr
          cases msgs with
          | nil => simp
          | cons m2 ms =>
            simp only [Except.ok.injEq, List.cons.injEq, List.map_cons, hg, Option.some.injEq,
              FileData.record.injEq]
            constructor
            · rintro ⟨h1, h2⟩
              exact ⟨h1, h2 ▸ h0⟩
            · rintro ⟨h1, h2⟩
              refine ⟨h1, ?_⟩
              have h3 := (ih hrest ms).mpr h2
              rw [hr] at h3
              exact Except.ok.inj h3

end queue

namespace queue

theorem Dequeue_some_spec (q : Queue) (fs fs2 : FileSystem) (msg : Message)
    (hwf : q.wellFormed fs = true) (h : q.Dequeue fs = .ok (some msg, fs2)) :
    ∃ d n ns, mapGet fs.dirs q.dir = some d ∧ sortStrings (jsonNames d) = n :: ns ∧
      mapGet d n = some (.record msg) ∧
      fs2 = { dirs := mapSet fs.dirs q.dir (mapDel d n) } := by
  obtain ⟨d, hd, _, hres⟩ := (wellFormed_iff q fs).mp hwf
  cases hs : sortStrings (jsonNames d) with
  | nil =>
    rw [Dequeue_empty q fs (by rw [listFiles_of_dir q fs d hd, hs])] at h
    simp at h
  | cons n ns =>
    have hn : n ∈ d.map Prod.fst :=
      jsonNames_subset d n ((mem_sortStrings _ _).mp (hs ▸ List.mem_cons_self n ns))
    obtain ⟨data, hdata⟩ := mapGet_isSome_of_mem d n hn
    cases data with
    | corrupt raw =>
      rw [Dequeue_corrupt q fs d n ns raw hd (hres n hn) hs hdata] at h
      simp at h
    | record m =>
      rw [Dequeue_record q fs d n ns m hd (hres n hn) hs hdata] at h
      simp only [Except.ok.injEq, Prod.mk.injEq, Option.some.injEq] at h
      exact ⟨d, n, ns, hd, hs, h.1 ▸ hdata, h.2.symm⟩

/-- The directory of a well-formed queue after the removal of its first listed file. -/
theorem removed_spec (q : Queue) (fs : FileSystem) (d : Dir) (n : String) (ns : List String)
    (hwf : q.wellFormed fs = true) (hd : mapGet fs.dirs q.dir = some d)
    (hs : sortStrings (jsonNames d) = n :: ns) :
    q.wellFormed { dirs := mapSet fs.dirs q.dir (mapDel d n) } = true ∧
    mapGet (mapSet fs.dirs q.dir (mapDel d n)) q.dir = some (mapDel d n) ∧
    sortStrings (jsonNames (mapDel d n)) = ns ∧
    (∀ f ∈ ns, mapGet (mapDel d n) f = mapGet d f) ∧
    (∀ f ∈ n :: ns, splitPath (filepathJoin q.dir f) = (q.dir, f)) := by
  obtain ⟨d2, hd2, hnd, hres⟩ := (wellFormed_iff q fs).mp hwf
  rw [hd] at hd2
  cases Option.some.inj hd2
  have hget := mapGet_mapSet_self fs.dirs q.dir (mapDel d n)
  have hsub : ∀ f ∈ (mapDel d n).map Prod.fst, f ∈ d.map Prod.fst := by
    intro f hf
    rw [mapDel_keys] at hf
    exact (List.mem_filter.mp hf).1
  have hnames : sortStrings (jsonNames (mapDel d n)) = ns := by
    rw [jsonNames_mapDel]
    exact sortStrings_filter_head (jsonNames d) (jsonNames_nodup d hnd) n ns hs
  have hperm : (n :: ns).Perm (jsonNames d) := hs ▸ sortStrings_perm (jsonNames d)
  have hnd2 : (n :: ns).Nodup := hperm.nodup_iff.mpr (jsonNames_nodup d hnd)
  refine ⟨?_, hget, hnames, ?_, ?_⟩
  · apply (wellFormed_iff q _).mpr
    refine ⟨mapDel d n, hget, ?_, fun f hf => hres f (hsub f hf)⟩
    rw [mapDel_keys]
    exact hnd.filter _
  · intro f hf
    apply mapGet_mapDel_ne
    intro e
    exact (List.nodup_cons.mp hnd2).1 (e ▸ hf)
  · intro f hf
    exact hres f (jsonNames_subset d f (hperm.mem_iff.mp hf))

theorem Dequeue_some_contents (q : Queue) (fs fs2 : FileSystem) (msg : Message)
    (hwf : q.wellFormed fs = true) (h : q.Dequeue fs = .ok (some msg, fs2)) :
    q.wellFormed fs2 = true ∧
      ∃ n rest, q.contents fs = .ok ((n, some (.record msg)) :: rest) ∧
        q.contents fs2 = .ok rest := by
  obtain ⟨d, n, ns, hd, hs, hm, hfs2⟩ := Dequeue_some_spec q fs fs2 msg hwf h
  obtain ⟨hwf2, hget, hnames, hsame, _⟩ := removed_spec q fs d n ns hwf hd hs
  obtain ⟨d0, hd0, _, hres0⟩ := (wellFormed_iff q fs).mp hwf
  obtain ⟨d1, hd1, _, hres1⟩ := (wellFormed_iff q _).mp hwf2
  rw [hd] at hd0
  cases Option.some.inj hd0
  rw [hget] at hd1
  cases Option.some.inj hd1
  subst hfs2
  refine ⟨hwf2, n, ns.map (fun f => (f, mapGet d f)), ?_, ?_⟩
  · rw [contents_of_dir q fs d hd hres0, hs, List.map_cons, hm]
  · rw [contents_of_dir q _ (mapDel d n) hget hres1, hnames]
    simp only [Except.ok.injEq]
    apply List.map_congr_left
    intro f hf
    rw [hsame f hf]

theorem Dequeue_of_ListAll (q : Queue) (fs : FileSystem) (m : Message) (ms : List Message)
    (hwf : q.wellFormed fs = true) (h : q.ListAll fs = .ok (m :: ms)) :
    ∃ fs2, q.Dequeue fs = .ok (some m, fs2) ∧ q.wellFormed fs2 = true ∧
      q.ListAll fs2 = .ok ms := by
  obtain ⟨d, hd, _, hres⟩ := (wellFormed_iff q fs).mp hwf
  have hres2 : ∀ f ∈ sortStrings (jsonNames d), splitPath (filepathJoin q.dir f) = (q.dir, f) :=
    fun f hf => hres f (jsonNames_subset d f ((mem_sortStrings _ _).mp hf))
  unfold Queue.ListAll at h
  rw [listFiles_of_dir q fs d hd] at h
  simp only at h
  have h1 := (readAll_of_dir q fs d hd _ hres2 (m :: ms)).mp h
  cases hs : sortStrings (jsonNames d) with
  | nil => rw [hs] at h1; simp at h1
  | cons n ns =>
    rw [hs] at h1
    simp only [List.map_cons, List.cons.injEq] at h1
    obtain ⟨hwf2, hget, hnames, hsame, hres3⟩ := removed_spec q fs d n ns hwf hd hs
    refine ⟨_, Dequeue_record q fs d n ns m hd (hres3 n (List.mem_cons_self n ns)) hs h1.1,
      hwf2, ?_⟩
    unfold Queue.ListAll
    rw [listFiles_of_dir q _ (mapDel d n) hget, hnames]
    simp only
    apply (readAll_of_dir q _ (mapDel d n) hget ns
      (fun f hf => hres3 f (List.mem_cons_of_mem n hf)) ms).mpr
    rw [← h1.2]
    apply List.map_congr_left
    intro f hf
    exact hsame f hf

end queue

/-! ### Session manager -/

namespace session

theorem GetSession_ok_iff (m : Manager) (a : String) (s : Session) :
    m.GetSession a = .ok s ↔ mapGet m.sessions a = some s := by
  unfold Manager.GetSession
  cases mapGet m.sessions a <;> simp

theorem GetSession_error_iff (m : Manager) (a : String) :
    (∃ e, m.GetSession a = .error e) ↔ mapGet m.sessions a = none := by
  unfold Manager.GetSession
  cases mapGet m.sessions a <;> simp

theorem SetSessionID_of_get (m : Manager) (a tok : String) (now : Int) (s : Session)
    (h : mapGet m.sessions a = some s) :
    m.SetSessionID a tok now = .ok { m with
      sessions := mapSet m.sessions a { s with SessionID := tok, UpdatedAt := now } } := by
  unfold Manager.SetSessionID
  rw [h]

theorem IncrementTurn_of_get (m : Manager) (a : String) (now : Int) (s : Session)
    (h : mapGet m.sessions a = some s) :
    m.IncrementTurn a now = .ok { m with
      sessions := mapSet m.sessions a { s with TurnNumber := wrapInt64 (s.TurnNumber + 1), UpdatedAt := now } } := by
  unfold Manager.IncrementTurn
  rw [h]

end session

/-! ### The branches of ProcessNext -/

namespace broker

theorem ProcessNext_getQueue_error {σ : Type} (b : Broker σ) (inp : TurnInputs) (a : String)
    (e : Error) (h1 : b.queueMgr.GetQueue b.fs a = .error e) :
    b.ProcessNext inp a = (.error (.wrap "failed to get queue" e), b) := by
  unfold Broker.ProcessNext
  rw [h1]

theorem ProcessNext_dequeue_error {σ : Type} (b : Broker σ) (inp : TurnInputs) (a : String)
    (q : queue.Queue) (qm1 : queue.Manager) (fs1 : FileSystem) (e : Error)
    (h1 : b.queueMgr.GetQueue b.fs a = .ok (q, qm1, fs1)) (h2 : q.Dequeue fs1 = .error e) :
    b.ProcessNext inp a =
      (.error (.wrap "failed to dequeue" e), { b with queueMgr := qm1, fs := fs1 }) := by
  unfold Broker.ProcessNext
  rw [h1]
  simp only
  rw [h2]

theorem ProcessNext_none {σ : Type} (b : Broker σ) (inp : TurnInputs) (a : String)
    (q : queue.Queue) (qm1 : queue.Manager) (fs1 fs2 : FileSystem)
    (h1 : b.queueMgr.GetQueue b.fs a = .ok (q, qm1, fs1)) (h2 : q.Dequeue fs1 = .ok (none, fs2)) :
    b.ProcessNext inp a = (.ok none, { b with queueMgr := qm1, fs := fs2 }) := by
  unfold Broker.ProcessNext
  rw [h1]
  simp only
  rw [h2]

theorem ProcessNext_session_error {σ : Type} (b : Broker σ) (inp : TurnInputs) (a : String)
    (q : queue.Queue) (qm1 : queue.Manager) (fs1 fs2 : FileSystem) (msg : Message) (e : Error)
    (h1 : b.queueMgr.GetQueue b.fs a = .ok (q, qm1, fs1))
    (h2 : q.Dequeue fs1 = .ok (some msg, fs2)) (h3 : b.sessionMgr.GetSession a = .error e) :
    b.ProcessNext inp a =
      (.error (.wrap "failed to get session" e), { b with queueMgr := qm1, fs := fs2 }) := by
  unfold Broker.ProcessNext
  rw [h1]
  simp only
  rw [h2]
  simp only
  rw [h3]

theorem ProcessNext_exec_error {σ : Type} (b : Broker σ) (inp : TurnInputs) (a : String)
    (q : queue.Queue) (qm1 : queue.Manager) (fs1 fs2 : FileSystem) (msg : Message)
    (sess : session.Session) (e : Error) (st1 : σ)
    (h1 : b.queueMgr.GetQueue b.fs a = .ok (q, qm1, fs1))
    (h2 : q.Dequeue fs1 = .ok (some msg, fs2)) (h3 : b.sessionMgr.GetSession a = .ok sess)
    (h4 : b.executor.Execute b.execState sess.SessionID msg.Payload.Text (sess.SessionID == "")
      = (.error e, st1)) :
    b.ProcessNext inp a =
      (.error (.wrap "failed to execute" e),
        { b with queueMgr := qm1, fs := fs2, execState := st1 }) := by
  unfold Broker.ProcessNext
  rw [h1]
  simp only
  rw [h2]
  simp only
  rw [h3]
  simp only
  rw [h4]

/-- The successful branch: what is returned and what the broker holds afterwards. -/
theorem ProcessNext_ok {σ : Type} (b : Broker σ) (inp : TurnInputs) (a : String)
    (q : queue.Queue) (qm1 : queue.Manager) (fs1 fs2 : FileSystem) (msg : Message)
    (sess : session.Session) (result : ExecuteResult) (st1 : σ)
    (h1 : b.queueMgr.GetQueue b.fs a = .ok (q, qm1, fs1))
    (h2 : q.Dequeue fs1 = .ok (some msg, fs2)) (h3 : b.sessionMgr.GetSession a = .ok sess)
    (h4 : b.executor.Execute b.execState sess.SessionID msg.Payload.Text (sess.SessionID == "")
      = (.ok result, st1)) :
    b.ProcessNext inp a =
      (.ok (some (((NewAgentMessage inp.respID inp.respAt a msg.From result.Response).WithContext
          result.SessionID (wrapInt64 (wrapInt64 (sess.TurnNumber + 1) + 1))).WithMetadata
          "cost" result.Cost)),
        { b with
          queueMgr := qm1, fs := fs2, execState := st1,
          sessionMgr :=
            { dir := b.sessionMgr.dir,
              sessions := mapSet b.sessionMgr.sessions a
                { AgentID := sess.AgentID, SessionID := result.SessionID,
                  TurnNumber := wrapInt64 (sess.TurnNumber + 1),
                  CreatedAt := sess.CreatedAt, UpdatedAt := inp.incAt } } }) := by
  have hget := (session.GetSession_ok_iff _ _ _).mp h3
  unfold Broker.ProcessNext
  rw [h1]
  simp only
  rw [h2]
  simp only
  rw [h3]
  simp only
  rw [h4]
  simp only
  by_cases hc : ((sess.SessionID == "") || result.SessionID != sess.SessionID) = true
  · rw [if_pos hc, session.SetSessionID_of_get _ a _ _ sess hget]
    simp only
    rw [session.IncrementTurn_of_get _ a _ _ (mapGet_mapSet_self _ _ _)]
    simp only [mapGet_mapSet_self, Option.getD_some, mapSet_mapSet_self]
  · rw [if_neg hc, session.IncrementTurn_of_get _ a _ sess hget]
    have htok : result.SessionID = sess.SessionID := by
      simp only [Bool.or_eq_true, beq_iff_eq, bne_iff_ne, ne_eq, not_or, not_not] at hc
      exact hc.2
    simp only [mapGet_mapSet_self, Option.getD_some, htok]

end broker

namespace broker

/-- A call that returns a response went through every step. -/
theorem ProcessNext_some_inv {σ : Type} (b : Broker σ) (inp : TurnInputs) (a : String)
    (resp : Message) (h : (b.ProcessNext inp a).1 = .ok (some resp)) :
    ∃ q qm1 fs1 fs2 msg sess result st1,
      b.queueMgr.GetQueue b.fs a = .ok (q, qm1, fs1) ∧
      q.Dequeue fs1 = .ok (some msg, fs2) ∧
      b.sessionMgr.GetSession a = .ok sess ∧
      b.executor.Execute b.execState sess.SessionID msg.Payload.Text (sess.SessionID == "")
        = (.ok result, st1) := by
  cases h1 : b.queueMgr.GetQueue b.fs a with
  | error e =>
    rw [ProcessNext_getQueue_error b inp a e h1] at h
    simp at h
  | ok r =>
    obtain ⟨q, qm1, fs1⟩ := r
    cases h2 : q.Dequeue fs1 with
    | error e =>
      rw [ProcessNext_dequeue_error b inp a q qm1 fs1 e h1 h2] at h
      simp at h
    | ok r2 =>
      obtain ⟨om, fs2⟩ := r2
      cases om with
      | none =>
        rw [ProcessNext_none b inp a q qm1 fs1 fs2 h1 h2] at h
        simp at h
      | some msg =>
        cases h3 : b.sessionMgr.GetSession a with
        | error e =>
          rw [ProcessNext_session_error b inp a q qm1 fs1 fs2 msg e h1 h2 h3] at h
          simp at h
        | ok sess =>
          cases h4 : b.executor.Execute b.execState sess.SessionID msg.Payload.Text
              (sess.SessionID == "") with
          | mk r st1 =>
            cases r with
            | error e =>
              rw [ProcessNext_exec_error b inp a q qm1 fs1 fs2 msg sess e st1 h1 h2 h3 h4] at h
              simp at h
            | ok result => exact ⟨q, qm1, fs1, fs2, msg, sess, result, st1, rfl, h2, rfl, h4⟩

end broker

/-! ### Directory creation leaves every queue as it is -/

theorem mapGet_append_single {β : Type} (m : List (String × β)) (k p : String) (v : β) :
    mapGet (m ++ [(p, v)]) k =
      match mapGet m k with
      | some w => some w
      | none => if p = k then some v else none := by
  induction m with
  | nil => simp [mapGet]
  | cons kv rest ih =>
    obtain ⟨k1, u⟩ := kv
    by_cases h : k1 = k
    · simp [mapGet, h]
    · simp [mapGet, h, ih]

theorem grownFrom_refl (fs : FileSystem) : fs.grownFrom fs := fun _ => Or.inl rfl

theorem grownFrom_files (fs1 fs : FileSystem) (h : fs1.grownFrom fs) (p : String) :
    fs1.files p = fs.files p := by
  unfold FileSystem.files
  rcases h p with h1 | ⟨h1, h2, _⟩
  · rw [h1]
  · rw [h1, h2]
    rfl

theorem grownFrom_isFile (fs1 fs : FileSystem) (h : fs1.grownFrom fs) (p : String) :
    fs1.isFile p = fs.isFile p := by
  unfold FileSystem.isFile
  rw [grownFrom_files fs1 fs h]

theorem grownFrom_trans (fs2 fs1 fs : FileSystem) (h2 : fs2.grownFrom fs1)
    (h1 : fs1.grownFrom fs) : fs2.grownFrom fs := by
  intro p
  rcases h2 p with a | ⟨a1, a2, a3⟩
  · rcases h1 p with c | ⟨c1, c2, c3⟩
    · exact Or.inl (a.trans c)
    · exact Or.inr ⟨c1, a.trans c2, c3⟩
  · rcases h1 p with c | ⟨c1, c2, c3⟩
    · exact Or.inr ⟨c ▸ a1, a2, (grownFrom_isFile fs1 fs h1 p) ▸ a3⟩
    · rw [c2] at a1
      cases a1

theorem mkdirOne_grown (fs fs1 : FileSystem) (p : String) (h : mkdirOne fs p = .ok fs1) :
    fs1.grownFrom fs := by
  unfold mkdirOne at h
  by_cases hd : fs.isDir p = true
  · rw [if_pos hd] at h
    cases h
    exact grownFrom_refl fs
  · rw [if_neg hd] at h
    by_cases hf : fs.isFile p = true
    · rw [if_pos hf] at h
      cases h
    · rw [if_neg hf] at h
      cases h
      intro x
      simp only [mapGet_append_single]
      cases hx : mapGet fs.dirs x with
      | some w => exact Or.inl rfl
      | none =>
        by_cases hpx : p = x
        · subst hpx
          right
          simp only [if_true, true_and]
          simpa using hf
        · left
          simp [hpx]

theorem foldlM_mkdirOne_grown (l : List String) (fs fs1 : FileSystem)
    (h : l.foldlM mkdirOne fs = .ok fs1) : fs1.grownFrom fs := by
  induction l generalizing fs with
  | nil =>
    simp only [List.foldlM_nil, pure, Except.pure, Except.ok.injEq] at h
    rw [← h]
    exact grownFrom_refl fs
  | cons p rest ih =>
    simp only [List.foldlM_cons, bind, Except.bind] at h
    cases hm : mkdirOne fs p with
    | error e => rw [hm] at h; cases h
    | ok fsm =>
      rw [hm] at h
      exact grownFrom_trans fs1 fsm fs (ih fsm h) (mkdirOne_grown fs fsm p hm)

theorem MkdirAll_grown (fs fs1 : FileSystem) (p : String) (h : MkdirAll fs p = .ok fs1) :
    fs1.grownFrom fs := by
  unfold MkdirAll at h
  by_cases hp : p = ""
  · rw [if_pos hp] at h
    cases h
  · rw [if_neg hp] at h
    exact foldlM_mkdirOne_grown _ fs fs1 h

namespace queue

theorem GetQueue_grown (m m1 : Manager) (fs fs1 : FileSystem) (a : String) (q : Queue)
    (h : m.GetQueue fs a = .ok (q, m1, fs1)) : fs1.grownFrom fs := by
  unfold Manager.GetQueue at h
  cases hc : mapGet m.queues a with
  | some q0 =>
    rw [hc] at h
    simp only [Except.ok.injEq, Prod.mk.injEq] at h
    rw [← h.2.2]
    exact grownFrom_refl fs
  | none =>
    rw [hc] at h
    simp only at h
    cases hm : MkdirAll fs (filepathJoin m.baseDir a) with
    | error e => rw [hm] at h; cases h
    | ok fsm =>
      rw [hm] at h
      simp only [Except.ok.injEq, Prod.mk.injEq] at h
      rw [← h.2.2]
      exact MkdirAll_grown fs fsm _ hm

/-- After a successful `GetQueue` the manager returns the same queue from its cache. -/
theorem GetQueue_cached (m m1 : Manager) (fs fs1 fs2 : FileSystem) (a : String) (q : Queue)
    (h : m.GetQueue fs a = .ok (q, m1, fs1)) : m1.GetQueue fs2 a = .ok (q, m1, fs2) := by
  unfold Manager.GetQueue at h ⊢
  cases hc : mapGet m.queues a with
  | some q0 =>
    rw [hc] at h
    simp only [Except.ok.injEq, Prod.mk.injEq] at h
    rw [← h.2.1, hc, h.1]
  | none =>
    rw [hc] at h
    simp only at h
    cases hm : MkdirAll fs (filepathJoin m.baseDir a) with
    | error e => rw [hm] at h; cases h
    | ok fsm =>
      rw [hm] at h
      simp only [Except.ok.injEq, Prod.mk.injEq] at h
      rw [← h.2.1]
      simp only [mapGet_mapSet_self]
      rw [h.1]

theorem listFiles_grown (q : Queue) (fs1 fs : FileSystem) (h : fs1.grownFrom fs) :
    q.listFiles fs1 = q.listFiles fs := by
  rcases h q.dir with h1 | ⟨h1, h2, h3⟩
  · cases hd : mapGet fs.dirs q.dir with
    | some d =>
      rw [listFiles_of_dir q fs d hd, listFiles_of_dir q fs1 d (h1.trans hd)]
    | none =>
      unfold Queue.listFiles ReadDir
      rw [h1, hd, grownFrom_isFile fs1 fs h]
  · rw [listFiles_of_dir q fs1 [] h2]
    unfold Queue.listFiles ReadDir
    rw [h1, h3]
    simp [jsonNames, sortStrings]

theorem contents_grown (q : Queue) (fs1 fs : FileSystem) (h : fs1.grownFrom fs) :
    q.contents fs1 = q.contents fs := by
  unfold Queue.contents
  rw [listFiles_grown q fs1 fs h]
  cases q.listFiles fs with
  | error e => rfl
  | ok files =>
    simp only [Except.ok.injEq]
    apply List.map_congr_left
    intro f _
    unfold ReadFile
    rw [grownFrom_files fs1 fs h]
    cases mapGet (fs.files (splitPath (filepathJoin q.dir f)).1)
      (splitPath (filepathJoin q.dir f)).2 with
    | some data => rfl
    | none =>
      by_cases c1 : fs1.isDir (filepathJoin q.dir f) = true <;>
        by_cases c2 : fs.isDir (filepathJoin q.dir f) = true <;>
        simp [c1, c2, Except.toOption]

end queue

namespace queue

theorem wellFormed_grown (q : Queue) (fs1 fs : FileSystem) (h : fs1.grownFrom fs)
    (hwf : q.wellFormed fs = true) : q.wellFormed fs1 = true := by
  obtain ⟨d, hd, hnd, hres⟩ := (wellFormed_iff q fs).mp hwf
  apply (wellFormed_iff q fs1).mpr
  rcases h q.dir with h1 | ⟨h1, _, _⟩
  · exact ⟨d, h1.trans hd, hnd, hres⟩
  · rw [hd] at h1
    cases h1

theorem ListAll_grown (q : Queue) (fs1 fs : FileSystem) (h : fs1.grownFrom fs)
    (hwf : q.wellFormed fs = true) : q.ListAll fs1 = q.ListAll fs := by
  obtain ⟨d, hd, _, hres⟩ := (wellFormed_iff q fs).mp hwf
  have hd1 : mapGet fs1.dirs q.dir = some d := by
    rcases h q.dir with h1 | ⟨h1, _, _⟩
    · exact h1.trans hd
    · rw [hd] at h1
      cases h1
  have hres2 : ∀ f ∈ sortStrings (jsonNames d), splitPath (filepathJoin q.dir f) = (q.dir, f) :=
    fun f hf => hres f (jsonNames_subset d f ((mem_sortStrings _ _).mp hf))
  unfold Queue.ListAll
  rw [listFiles_of_dir q fs d hd, listFiles_of_dir q fs1 d hd1]
  simp only
  have key : ∀ l : List String,
      (∀ f ∈ l, splitPath (filepathJoin q.dir f) = (q.dir, f)) →
      (∀ f ∈ l, f ∈ d.map Prod.fst) → readAll q fs1 l = readAll q fs l := by
    intro l
    induction l with
    | nil => intros; rfl
    | cons f rest ih =>
      intro hr hm
      obtain ⟨data, hdata⟩ := mapGet_isSome_of_mem d f (hm f (List.mem_cons_self f rest))
      unfold readAll
      rw [ReadFile_entry_some fs q.dir _ f d data hd (hr f (List.mem_cons_self f rest)) hdata,
        ReadFile_entry_some fs1 q.dir _ f d data hd1 (hr f (List.mem_cons_self f rest)) hdata,
        ih (fun g hg => hr g (List.mem_cons_of_mem f hg))
          (fun g hg => hm g (List.mem_cons_of_mem f hg))]
  exact key (sortStrings (jsonNames d)) hres2
    (fun f hf => jsonNames_subset d f ((mem_sortStrings _ _).mp hf))

end queue

theorem wrapInt64_of_range (x : Int) (h1 : -2 ^ 63 ≤ x) (h2 : x < 2 ^ 63) : wrapInt64 x = x := by
  unfold wrapInt64
  norm_num at h1 h2 ⊢
  omega

/-! ### Enqueue of a new file name -/

namespace queue

theorem filepathExt_json (s : String) : filepathExt (s ++ ".json") = ".json" := by
  unfold filepathExt
  rw [String.data_append, List.reverse_append]
  rfl

theorem filepathExt_fileName (msg : Message) : filepathExt (fileName msg) = ".json" :=
  filepathExt_json _

theorem fileName_ne_empty (msg : Message) : fileName msg ≠ "" := by
  intro h
  have h2 := congrArg String.length h
  unfold fileName at h2
  simp only [String.length_append] at h2
  have : ".json".length = 5 := by decide
  have : "".length = 0 := by decide
  omega

theorem jsonNames_mapSet_fresh (d : Dir) (name : String) (data : FileData)
    (hext : filepathExt name = ".json") (hfresh : name ∉ d.map Prod.fst) :
    jsonNames (mapSet d name data) = jsonNames d ++ [name] := by
  unfold jsonNames
  rw [mapSet_keys_of_not_mem d name data hfresh, List.filter_append]
  simp [hext]

theorem sortStrings_append_single (l : List String) (x : String) :
    (sortStrings (l ++ [x])).Perm (x :: sortStrings l) :=
  (sortStrings_perm _).trans
    ((List.perm_append_comm).trans ((sortStrings_perm l).symm.cons x))

/-- What a successful `Enqueue` does when the path of the file lies in the directory
of the queue. -/
theorem Enqueue_ok_inv (q : Queue) (fs fs1 : FileSystem) (msg : Message)
    (hpath : splitPath (filepathJoin q.dir (fileName msg)) = (q.dir, fileName msg))
    (h : q.Enqueue fs msg = .ok fs1) :
    ∃ d, mapGet fs.dirs q.dir = some d ∧
      fs1 = { dirs := mapSet fs.dirs q.dir (mapSet d (fileName msg) (.record msg)) } := by
  unfold Queue.Enqueue jsonMarshal WriteFile at h
  simp only [hpath] at h
  by_cases hd : fs.isDir (filepathJoin q.dir (fileName msg)) = true
  · simp [hd] at h
  · simp only [hd, Bool.false_eq_true, if_false] at h
    cases hg : mapGet fs.dirs q.dir with
    | none => simp [hg] at h
    | some d =>
      simp only [hg, fileName_ne_empty msg, if_false, Except.ok.injEq] at h
      exact ⟨d, rfl, h.symm⟩

end queue

/-! ### Load -/

namespace session

end session

/-! ### Enqueue of a new name, Peek, and draining a queue -/

namespace queue

/-- A successful `Enqueue` under a name that is new and lies in the directory keeps
the records and adds one. -/
theorem Enqueue_new_name_spec (q : Queue) (fs fs1 : FileSystem)
    (msg : Message) (files : List String)
    (hwf : q.wellFormed fs = true)
    (hpath : splitPath (filepathJoin q.dir (fileName msg)) = (q.dir, fileName msg))
    (hfiles : q.listFiles fs = .ok files)
    (hfresh : fileName msg ∉ files)
    (h : q.Enqueue fs msg = .ok fs1) :
    ∃ before after, q.contents fs = .ok before ∧ q.contents fs1 = .ok after ∧
      after.Perm ((fileName msg, some (.record msg)) :: before) ∧
      (∀ r ∈ before, r ∈ after) ∧
      q.Len fs = .ok (before.length : Int) ∧ q.Len fs1 = .ok ((before.length : Int) + 1) := by
  obtain ⟨d, hd, hnd, hres⟩ := (queue.wellFormed_iff q fs).mp hwf
  obtain ⟨d2, hd2, hfs1⟩ := queue.Enqueue_ok_inv q fs fs1 msg hpath h
  rw [hd] at hd2
  cases Option.some.inj hd2
  rw [queue.listFiles_of_dir q fs d hd] at hfiles
  cases Except.ok.inj hfiles
  have hnew : queue.fileName msg ∉ d.map Prod.fst := by
    intro hmem
    apply hfresh
    apply (mem_sortStrings _ _).mpr
    exact List.mem_filter.mpr ⟨hmem, by simp [queue.filepathExt_fileName]⟩
  have hd1 : mapGet fs1.dirs q.dir
      = some (mapSet d (queue.fileName msg) (FileData.record msg)) := by
    rw [hfs1]
    exact mapGet_mapSet_self _ _ _
  have hres1 : ∀ f ∈ (mapSet d (queue.fileName msg) (FileData.record msg)).map Prod.fst,
      splitPath (filepathJoin q.dir f) = (q.dir, f) := by
    intro f hf
    rw [mapSet_keys_of_not_mem d _ _ hnew, List.mem_append, List.mem_singleton] at hf
    rcases hf with hf | hf
    · exact hres f hf
    · rw [hf]
      exact hpath
  have hnames := queue.jsonNames_mapSet_fresh d (queue.fileName msg) (.record msg)
    (queue.filepathExt_fileName msg) hnew
  have hperm := queue.sortStrings_append_single (queue.jsonNames d) (queue.fileName msg)
  have hafter : ((sortStrings (queue.jsonNames d ++ [queue.fileName msg])).map
      (fun f => (f, mapGet (mapSet d (queue.fileName msg) (FileData.record msg)) f))).Perm
      ((queue.fileName msg, some (FileData.record msg)) ::
        (sortStrings (queue.jsonNames d)).map (fun f => (f, mapGet d f))) := by
    refine (hperm.map _).trans ?_
    rw [List.map_cons, mapGet_mapSet_self]
    apply List.Perm.cons
    apply List.Perm.of_eq
    apply List.map_congr_left
    intro f hf
    have hne : f ≠ queue.fileName msg := by
      intro e
      exact hfresh (e ▸ hf)
    rw [mapGet_mapSet_ne d _ f _ hne]
  refine ⟨_, _, queue.contents_of_dir q fs d hd hres,
    (queue.contents_of_dir q fs1 _ hd1 hres1).trans (by rw [hnames]), hafter, ?_, ?_, ?_⟩
  · intro r hr
    exact hafter.symm.subset (List.mem_cons_of_mem _ hr)
  · unfold queue.Queue.Len
    rw [queue.listFiles_of_dir q fs d hd]
    simp
  · unfold queue.Queue.Len
    rw [queue.listFiles_of_dir q fs1 _ hd1, hnames]
    simp only [Except.ok.injEq]
    rw [hperm.length_eq]
    simp

end queue

namespace queue

/-- A file that can be read can be removed. -/
theorem Remove_of_ReadFile (fs : FileSystem) (path : String) (data : FileData)
    (h : ReadFile fs path = .ok data) : ∃ fs1, Remove fs path = .ok fs1 := by
  unfold ReadFile FileSystem.files at h
  unfold Remove
  cases hd : mapGet fs.dirs (splitPath path).1 with
  | none =>
    rw [hd] at h
    simp only [Option.getD_none, mapGet] at h
    by_cases c : fs.isDir path = true <;> simp [c] at h
  | some d =>
    rw [hd] at h
    simp only [Option.getD_some] at h
    cases hf : mapGet d (splitPath path).2 with
    | none =>
      rw [hf] at h
      by_cases c : fs.isDir path = true <;> simp [c] at h
    | some x => exact ⟨{ dirs := mapSet fs.dirs (splitPath path).1 (mapDel d (splitPath path).2) },
        by simp [hf]⟩

/-- Peek and Dequeue agree on every file system: the same message or none, or both
fail. -/
theorem Peek_eq_Dequeue (q : Queue) (fs : FileSystem) :
    (q.Peek fs).toOption = ((q.Dequeue fs).map Prod.fst).toOption := by
  unfold Queue.Peek Queue.Dequeue
  cases hl : q.listFiles fs with
  | error e => rfl
  | ok files =>
    cases files with
    | nil => rfl
    | cons file rest =>
      simp only
      cases hr : ReadFile fs (filepathJoin q.dir file) with
      | error e => rfl
      | ok data =>
        simp only
        cases hj : FromJSON data with
        | error e => rfl
        | ok msg =>
          obtain ⟨fs1, hrm⟩ := Remove_of_ReadFile fs _ data hr
          simp only [hrm]
          rfl

theorem Peek_empty (q : Queue) (fs : FileSystem) (h : q.listFiles fs = .ok []) :
    q.Peek fs = .ok none := by
  unfold Queue.Peek
  rw [h]

theorem dequeueTimes_succ (q : Queue) (fs fs1 : FileSystem) (r : Option Message) (n : Nat)
    (h : q.Dequeue fs = .ok (r, fs1)) :
    q.dequeueTimes fs (n + 1) = .ok r :: q.dequeueTimes fs1 n ∧
      q.afterDequeues fs (n + 1) = q.afterDequeues fs1 n := by
  constructor
  · rw [Queue.dequeueTimes, h]
  · rw [Queue.afterDequeues, h]

theorem dequeueTimes_succ_error (q : Queue) (fs : FileSystem) (e : Error) (n : Nat)
    (h : q.Dequeue fs = .error e) :
    q.dequeueTimes fs (n + 1) = .error e :: q.dequeueTimes fs n ∧
      q.afterDequeues fs (n + 1) = q.afterDequeues fs n := by
  constructor
  · rw [Queue.dequeueTimes, h]
  · rw [Queue.afterDequeues, h]

/-- One more call: the results of the first `n` calls, then the result of a call on
the file system they leave. -/
theorem dequeueTimes_add_one (q : Queue) (n : Nat) :
    ∀ fs : FileSystem,
      q.dequeueTimes fs (n + 1)
        = q.dequeueTimes fs n ++ q.dequeueTimes (q.afterDequeues fs n) 1 := by
  induction n with
  | zero =>
    intro fs
    simp [Queue.dequeueTimes, Queue.afterDequeues]
  | succ k ih =>
    intro fs
    cases hd : q.Dequeue fs with
    | error e =>
      have a := (dequeueTimes_succ_error q fs e (k + 1) hd).1
      have b := dequeueTimes_succ_error q fs e k hd
      calc q.dequeueTimes fs (k + 1 + 1)
          = .error e :: q.dequeueTimes fs (k + 1) := a
        _ = .error e :: (q.dequeueTimes fs k ++ q.dequeueTimes (q.afterDequeues fs k) 1) := by
            rw [ih fs]
        _ = (.error e :: q.dequeueTimes fs k) ++ q.dequeueTimes (q.afterDequeues fs k) 1 := rfl
        _ = q.dequeueTimes fs (k + 1) ++ q.dequeueTimes (q.afterDequeues fs (k + 1)) 1 := by
            rw [b.1, b.2]
    | ok r =>
      obtain ⟨r1, fs1⟩ := r
      have a := (dequeueTimes_succ q fs fs1 r1 (k + 1) hd).1
      have b := dequeueTimes_succ q fs fs1 r1 k hd
      calc q.dequeueTimes fs (k + 1 + 1)
          = .ok r1 :: q.dequeueTimes fs1 (k + 1) := a
        _ = .ok r1 :: (q.dequeueTimes fs1 k ++ q.dequeueTimes (q.afterDequeues fs1 k) 1) := by
            rw [ih fs1]
        _ = (.ok r1 :: q.dequeueTimes fs1 k) ++ q.dequeueTimes (q.afterDequeues fs1 k) 1 := rfl
        _ = q.dequeueTimes fs (k + 1) ++ q.dequeueTimes (q.afterDequeues fs (k + 1)) 1 := by
            rw [b.1, b.2]

theorem listFiles_of_ListAll_nil (q : Queue) (fs : FileSystem) (hwf : q.wellFormed fs = true)
    (h : q.ListAll fs = .ok []) : q.listFiles fs = .ok [] := by
  obtain ⟨d, hd, _, hres⟩ := (wellFormed_iff q fs).mp hwf
  have hres2 : ∀ f ∈ sortStrings (jsonNames d), splitPath (filepathJoin q.dir f) = (q.dir, f) :=
    fun f hf => hres f (jsonNames_subset d f ((mem_sortStrings _ _).mp hf))
  unfold Queue.ListAll at h
  rw [listFiles_of_dir q fs d hd] at h ⊢
  simp only at h
  have h1 := (readAll_of_dir q fs d hd _ hres2 []).mp h
  simp only [List.map_nil, List.map_eq_nil_iff] at h1
  rw [h1]

/-- Draining: on a well-formed queue whose files all parse, as many `Dequeue` calls as
there are messages return them in the order of `List`, and leave an empty queue. -/
theorem drain_spec (q : Queue) (msgs : List Message) :
    ∀ fs : FileSystem, q.wellFormed fs = true → q.ListAll fs = .ok msgs →
      q.dequeueTimes fs msgs.length = msgs.map (fun m => .ok (some m)) ∧
      q.wellFormed (q.afterDequeues fs msgs.length) = true ∧
      q.listFiles (q.afterDequeues fs msgs.length) = .ok [] := by
  induction msgs with
  | nil =>
    intro fs hwf h
    exact ⟨rfl, hwf, listFiles_of_ListAll_nil q fs hwf h⟩
  | cons m ms ih =>
    intro fs hwf h
    obtain ⟨fs2, hdeq, hwf2, hlist2⟩ := Dequeue_of_ListAll q fs m ms hwf h
    obtain ⟨h1, h2⟩ := dequeueTimes_succ q fs fs2 (some m) ms.length hdeq
    obtain ⟨i1, i2, i3⟩ := ih fs2 hwf2 hlist2
    simp only [List.length_cons, List.map_cons]
    rw [h1, h2, i1]
    exact ⟨rfl, i2, i3⟩

/-- The records of a well-formed queue all parse exactly when `List` succeeds. -/
theorem ListAll_iff_contents (q : Queue) (fs : FileSystem) (msgs : List Message)
    (hwf : q.wellFormed fs = true) :
    q.ListAll fs = .ok msgs ↔
      (q.contents fs).map (List.map Prod.snd)
        = .ok (msgs.map (fun m => some (FileData.record m))) := by
  obtain ⟨d, hd, _, hres⟩ := (wellFormed_iff q fs).mp hwf
  have hres2 : ∀ f ∈ sortStrings (jsonNames d), splitPath (filepathJoin q.dir f) = (q.dir, f) :=
    fun f hf => hres f (jsonNames_subset d f ((mem_sortStrings _ _).mp hf))
  rw [contents_of_dir q fs d hd hres]
  unfold Queue.ListAll
  rw [listFiles_of_dir q fs d hd]
  simp only
  rw [readAll_of_dir q fs d hd _ hres2 msgs]
  simp [Except.map, Function.comp_def]

end queue

/-! ### Keys of the session map -/

theorem mapSet_of_not_mem {β : Type} (m : List (String × β)) (k : String) (v : β)
    (h : k ∉ m.map Prod.fst) : mapSet m k v = m ++ [(k, v)] := by
  induction m with
  | nil => rfl
  | cons kv rest ih =>
    obtain ⟨k1, w⟩ := kv
    simp only [List.map_cons, List.mem_cons, not_or] at h
    have hne : ¬ k1 = k := fun e => h.1 e.symm
    simp [mapSet, hne, ih h.2]

theorem mapSet_keys_nodup {β : Type} (m : List (String × β)) (k : String) (v : β)
    (h : (m.map Prod.fst).Nodup) : ((mapSet m k v).map Prod.fst).Nodup := by
  by_cases hm : k ∈ m.map Prod.fst
  · rw [mapSet_keys_of_mem m k v hm]
    exact h
  · rw [mapSet_keys_of_not_mem m k v hm]
    exact List.Nodup.append h (List.nodup_singleton k) (by simpa using hm)

theorem foldl_mapSet_of_nodup {β : Type} (l : List (String × β)) :
    ∀ acc : List (String × β), (l.map Prod.fst).Nodup →
      (∀ k ∈ l.map Prod.fst, k ∉ acc.map Prod.fst) →
      l.foldl (fun a kv => mapSet a kv.1 kv.2) acc = acc ++ l := by
  induction l with
  | nil => intro acc _ _; simp
  | cons x rest ih =>
    intro acc hnd hdis
    rw [List.foldl_cons, mapSet_of_not_mem acc x.1 x.2 (hdis x.1 (by simp))]
    rw [List.map_cons] at hnd
    have hnd2 := List.nodup_cons.mp hnd
    rw [ih (acc ++ [x]) hnd2.2]
    · simp
    · intro k hk
      simp only [List.map_append, List.map_cons, List.map_nil, List.mem_append,
        List.mem_singleton, not_or]
      refine ⟨hdis k (by simp [hk]), ?_⟩
      intro e
      exact hnd2.1 (e ▸ hk)

namespace session

theorem perform_keys_nodup (m : Manager) (op : SessionOp)
    (h : (m.sessions.map Prod.fst).Nodup) : ((m.perform op).sessions.map Prod.fst).Nodup := by
  cases op with
  | createSession a now =>
    simp only [Manager.perform, Manager.CreateSession]
    exact mapSet_keys_nodup _ _ _ h
  | setSessionID a s now =>
    simp only [Manager.perform, Manager.SetSessionID]
    cases mapGet m.sessions a with
    | none => exact h
    | some sess => exact mapSet_keys_nodup _ _ _ h
  | incrementTurn a now =>
    simp only [Manager.perform, Manager.IncrementTurn]
    cases mapGet m.sessions a with
    | none => exact h
    | some sess => exact mapSet_keys_nodup _ _ _ h

theorem performAll_keys_nodup (ops : List SessionOp) :
    ∀ m : Manager, (m.sessions.map Prod.fst).Nodup →
      ((m.performAll ops).sessions.map Prod.fst).Nodup := by
  induction ops with
  | nil => intro m h; exact h
  | cons op rest ih =>
    intro m h
    exact ih (m.perform op) (perform_keys_nodup m op h)

theorem perform_dir (m : Manager) (op : SessionOp) : (m.perform op).dir = m.dir := by
  cases op with
  | createSession a now => rfl
  | setSessionID a s now =>
    simp only [Manager.perform, Manager.SetSessionID]
    cases mapGet m.sessions a <;> rfl
  | incrementTurn a now =>
    simp only [Manager.perform, Manager.IncrementTurn]
    cases mapGet m.sessions a <;> rfl

theorem performAll_dir (ops : List SessionOp) :
    ∀ m : Manager, (m.performAll ops).dir = m.dir := by
  induction ops with
  | nil => intro m; rfl
  | cons op rest ih =>
    intro m
    exact (ih (m.perform op)).trans (perform_dir m op)

end session

/-! ### SendMessage and the pass of Run -/

namespace broker

theorem SendMessage_ok_inv {σ : Type} (b : Broker σ) (msg : Message) (q : queue.Queue)
    (qm1 : queue.Manager) (fs1 : FileSystem)
    (hq : b.queueMgr.GetQueue b.fs msg.To = .ok (q, qm1, fs1))
    (hok : (b.SendMessage msg).1 = none) :
    ∃ fs2, q.Enqueue fs1 msg = .ok fs2 ∧ (b.SendMessage msg).2.fs = fs2 ∧
      (b.SendMessage msg).2.queueMgr = qm1 := by
  unfold Broker.SendMessage at hok ⊢
  rw [hq] at hok ⊢
  simp only at hok ⊢
  cases he : q.Enqueue fs1 msg with
  | error e =>
    rw [he] at hok
    simp at hok
  | ok fs2 => exact ⟨fs2, rfl, rfl, rfl⟩

theorem runPass_agents {σ : Type} (hh he : Bool) (env : Nat → TurnInputs) (l : List String) :
    ∀ (b : Broker σ) (i : Nat), (Broker.runPass hh he env b i l).attempts.map Prod.fst = l := by
  induction l with
  | nil => intro b i; rfl
  | cons a rest ih =>
    intro b i
    simp only [Broker.runPass, List.map_cons, ih]

theorem runPass_calls {σ : Type} (hh he : Bool) (env : Nat → TurnInputs) (l : List String) :
    ∀ (b : Broker σ) (i : Nat),
      (Broker.runPass hh he env b i l).calls
        = ((Broker.runPass hh he env b i l).attempts.map
            (fun p => handlerCalls hh he p.1 p.2)).flatten := by
  induction l with
  | nil => intro b i; rfl
  | cons a rest ih =>
    intro b i
    simp only [Broker.runPass, List.map_cons, List.flatten_cons]
    rw [ih]

theorem runPass_append {σ : Type} (hh he : Bool) (env : Nat → TurnInputs) (l1 l2 : List String) :
    ∀ (b : Broker σ) (i : Nat),
      (Broker.runPass hh he env b i (l1 ++ l2)).attempts
          = (Broker.runPass hh he env b i l1).attempts
            ++ (Broker.runPass hh he env (Broker.runPass hh he env b i l1).broker
                (i + l1.length) l2).attempts ∧
      (Broker.runPass hh he env b i (l1 ++ l2)).calls
          = (Broker.runPass hh he env b i l1).calls
            ++ (Broker.runPass hh he env (Broker.runPass hh he env b i l1).broker
                (i + l1.length) l2).calls ∧
      (Broker.runPass hh he env b i (l1 ++ l2)).broker
          = (Broker.runPass hh he env (Broker.runPass hh he env b i l1).broker
                (i + l1.length) l2).broker := by
  induction l1 with
  | nil => intro b i; exact ⟨rfl, rfl, rfl⟩
  | cons a rest ih =>
    intro b i
    obtain ⟨h1, h2, h3⟩ := ih (b.ProcessNext (env i) a).2 (i + 1)
    have hi : i + 1 + rest.length = i + (a :: rest).length := by
      simp only [List.length_cons]
      omega
    rw [hi] at h1 h2 h3
    simp only [List.cons_append, Broker.runPass]
    refine ⟨?_, ?_, ?_⟩
    · exact congrArg (List.cons _) h1
    · exact (congrArg (fun x => handlerCalls hh he a (b.ProcessNext (env i) a).1 ++ x) h2).trans
        (List.append_assoc _ _ _).symm
    · exact h3

end broker

/-! ### The session manager after a broker call -/

namespace broker

/-- What a failed `InitializeAgent` leaves: the broker with the new session. -/
theorem InitializeAgent_error {σ : Type} (b : Broker σ) (agentID : String) (now : Int)
    (e : Error) (h : (b.InitializeAgent agentID now).1 = some e) :
    (b.InitializeAgent agentID now).2 =
      { b with
        sessionMgr := session.Manager.mk b.sessionMgr.dir
          (mapSet b.sessionMgr.sessions agentID (session.Session.mk agentID "" 0 now now)) } := by
  unfold Broker.InitializeAgent at h ⊢
  simp only [session.Manager.CreateSession] at h ⊢
  cases hq : b.queueMgr.GetQueue b.fs agentID with
  | error e1 => rfl
  | ok r =>
    rw [hq] at h
    simp at h

end broker

/-! ### What an operation on one directory leaves of the queues in other directories -/

namespace queue

theorem readAll_same_dir (q : Queue) (fs fs1 : FileSystem) (d : Dir)
    (hd : mapGet fs.dirs q.dir = some d) (hd1 : mapGet fs1.dirs q.dir = some d) :
    ∀ l : List String,
      (∀ f ∈ l, splitPath (filepathJoin q.dir f) = (q.dir, f)) →
      (∀ f ∈ l, f ∈ d.map Prod.fst) → readAll q fs1 l = readAll q fs l := by
  intro l
  induction l with
  | nil => intros; rfl
  | cons f rest ih =>
    intro hr hm
    obtain ⟨data, hdata⟩ := mapGet_isSome_of_mem d f (hm f (List.mem_cons_self f rest))
    unfold readAll
    rw [ReadFile_entry_some fs q.dir _ f d data hd (hr f (List.mem_cons_self f rest)) hdata,
      ReadFile_entry_some fs1 q.dir _ f d data hd1 (hr f (List.mem_cons_self f rest)) hdata,
      ih (fun g hg => hr g (List.mem_cons_of_mem f hg))
        (fun g hg => hm g (List.mem_cons_of_mem f hg))]

/-- A well-formed queue observes nothing but its own directory. -/
theorem frame_of_same_dir (q : Queue) (fs fs1 : FileSystem) (hwf : q.wellFormed fs = true)
    (h : mapGet fs1.dirs q.dir = mapGet fs.dirs q.dir) :
    q.wellFormed fs1 = true ∧ q.listFiles fs1 = q.listFiles fs ∧
      q.contents fs1 = q.contents fs ∧ q.ListAll fs1 = q.ListAll fs ∧ q.Len fs1 = q.Len fs := by
  obtain ⟨d, hd, hnd, hres⟩ := (wellFormed_iff q fs).mp hwf
  have hd1 : mapGet fs1.dirs q.dir = some d := h.trans hd
  have hl : q.listFiles fs1 = q.listFiles fs := by
    rw [listFiles_of_dir q fs d hd, listFiles_of_dir q fs1 d hd1]
  refine ⟨(wellFormed_iff q fs1).mpr ⟨d, hd1, hnd, hres⟩, hl, ?_, ?_, ?_⟩
  · rw [contents_of_dir q fs d hd hres, contents_of_dir q fs1 d hd1 hres]
  · unfold Queue.ListAll
    rw [listFiles_of_dir q fs d hd, listFiles_of_dir q fs1 d hd1]
    exact readAll_same_dir q fs fs1 d hd hd1 _
      (fun f hf => hres f (jsonNames_subset d f ((mem_sortStrings _ _).mp hf)))
      (fun f hf => jsonNames_subset d f ((mem_sortStrings _ _).mp hf))
  · unfold Queue.Len
    rw [hl]

theorem Dequeue_none_inv (q : Queue) (fs fs1 : FileSystem)
    (h : q.Dequeue fs = .ok (none, fs1)) : fs1 = fs := by
  unfold Queue.Dequeue at h
  cases hl : q.listFiles fs with
  | error e => rw [hl] at h; simp at h
  | ok files =>
    rw [hl] at h
    cases files with
    | nil =>
      simp only [Except.ok.injEq, Prod.mk.injEq, true_and] at h
      exact h.symm
    | cons file rest =>
      simp only at h
      cases hr : ReadFile fs (filepathJoin q.dir file) with
      | error e => rw [hr] at h; simp at h
      | ok data =>
        rw [hr] at h
        simp only at h
        cases hj : FromJSON data with
        | error e => rw [hj] at h; simp at h
        | ok msg =>
          rw [hj] at h
          simp only at h
          cases hrm : Remove fs (filepathJoin q.dir file) with
          | error e => rw [hrm] at h; simp at h
          | ok fs2 => rw [hrm] at h; simp at h

/-- A successful `Enqueue` of a file that lies in the directory of the queue changes
that directory only. -/
theorem Enqueue_frame (q : Queue) (fs fs1 : FileSystem) (msg : Message)
    (hpath : splitPath (filepathJoin q.dir (fileName msg)) = (q.dir, fileName msg))
    (h : q.Enqueue fs msg = .ok fs1) (p : String) (hp : p ≠ q.dir) :
    mapGet fs1.dirs p = mapGet fs.dirs p := by
  obtain ⟨d, _, hfs⟩ := Enqueue_ok_inv q fs fs1 msg hpath h
  subst hfs
  exact mapGet_mapSet_ne _ _ _ _ hp

/-- A `Dequeue` on a well-formed queue changes the directory of the queue only. -/
theorem Dequeue_frame (q : Queue) (fs fs1 : FileSystem) (r : Option Message)
    (hwf : q.wellFormed fs = true) (h : q.Dequeue fs = .ok (r, fs1)) (p : String)
    (hp : p ≠ q.dir) : mapGet fs1.dirs p = mapGet fs.dirs p := by
  cases r with
  | none => rw [Dequeue_none_inv q fs fs1 h]
  | some msg =>
    obtain ⟨d, n, ns, _, _, _, hfs⟩ := Dequeue_some_spec q fs fs1 msg hwf h
    subst hfs
    exact mapGet_mapSet_ne _ _ _ _ hp

theorem Remove_frame (fs fs1 : FileSystem) (dir path f p : String)
    (hs : splitPath path = (dir, f)) (h : Remove fs path = .ok fs1) (hp : p ≠ dir) :
    mapGet fs1.dirs p = mapGet fs.dirs p := by
  unfold Remove at h
  rw [hs] at h
  simp only at h
  cases hd : mapGet fs.dirs dir with
  | none => rw [hd] at h; simp at h
  | some d =>
    rw [hd] at h
    simp only at h
    cases hf : mapGet d f with
    | none =>
      rw [hf] at h
      simp only at h
      split at h <;> simp at h
    | some data =>
      rw [hf] at h
      simp only [Except.ok.injEq] at h
      subst h
      exact mapGet_mapSet_ne _ _ _ _ hp

theorem removeAll_frame (q : Queue) (p : String) (hp : p ≠ q.dir) :
    ∀ (l : List String) (fs : FileSystem),
      (∀ f ∈ l, splitPath (filepathJoin q.dir f) = (q.dir, f)) →
      mapGet (removeAll q fs l).2.dirs p = mapGet fs.dirs p := by
  intro l
  induction l with
  | nil => intros; rfl
  | cons f rest ih =>
    intro fs hres
    unfold removeAll
    cases hr : Remove fs (filepathJoin q.dir f) with
    | error e => rfl
    | ok fs1 =>
      simp only
      rw [ih fs1 (fun g hg => hres g (List.mem_cons_of_mem f hg))]
      exact Remove_frame fs fs1 q.dir _ f p (hres f (List.mem_cons_self f rest)) hr hp

/-- A `Clear` on a well-formed queue changes the directory of the queue only. -/
theorem Clear_frame (q : Queue) (fs : FileSystem) (hwf : q.wellFormed fs = true) (p : String)
    (hp : p ≠ q.dir) : mapGet (q.Clear fs).2.dirs p = mapGet fs.dirs p := by
  obtain ⟨d, hd, _, hres⟩ := (wellFormed_iff q fs).mp hwf
  unfold Queue.Clear
  rw [listFiles_of_dir q fs d hd]
  exact removeAll_frame q p hp _ fs
    (fun f hf => hres f (jsonNames_subset d f ((mem_sortStrings _ _).mp hf)))

/-- A queue that lists nothing lists nothing after a file is removed from another
directory. -/
theorem listFiles_nil_after_removal (q2 : Queue) (fs : FileSystem) (dir n : String) (d : Dir)
    (hd : mapGet fs.dirs dir = some d) (hne : q2.dir ≠ dir)
    (h : q2.listFiles fs = .ok []) :
    q2.listFiles { dirs := mapSet fs.dirs dir (mapDel d n) } = .ok [] := by
  have hsame : mapGet (mapSet fs.dirs dir (mapDel d n)) q2.dir = mapGet fs.dirs q2.dir :=
    mapGet_mapSet_ne _ _ _ _ hne
  cases hd2 : mapGet fs.dirs q2.dir with
  | some d2 =>
    rw [listFiles_of_dir q2 fs d2 hd2] at h
    rw [listFiles_of_dir q2 _ d2 (hsame.trans hd2)]
    exact h
  | none =>
    have hfile : fs.isFile q2.dir = false := by
      unfold Queue.listFiles ReadDir at h
      rw [hd2] at h
      cases hf : fs.isFile q2.dir with
      | false => rfl
      | true => rw [hf] at h; simp at h
    have hfile2 : FileSystem.isFile { dirs := mapSet fs.dirs dir (mapDel d n) } q2.dir = false := by
      unfold FileSystem.isFile FileSystem.files at hfile ⊢
      simp only
      by_cases hp : (splitPath q2.dir).1 = dir
      · rw [hp, mapGet_mapSet_self]
        rw [hp, hd] at hfile
        simp only [Option.getD_some] at hfile ⊢
        by_cases hn : (splitPath q2.dir).2 = n
        · rw [hn, mapGet_mapDel_self]
          rfl
        · rw [mapGet_mapDel_ne _ _ _ hn]
          exact hfile
      · rw [mapGet_mapSet_ne _ _ _ _ hp]
        exact hfile
    unfold Queue.listFiles ReadDir
    simp only
    rw [hsame, hd2]
    simp only
    rw [hfile2]
    rfl

theorem observations_of_listFiles_nil (q : Queue) (fs : FileSystem)
    (h : q.listFiles fs = .ok []) :
    q.contents fs = .ok [] ∧ q.ListAll fs = .ok [] ∧ q.Len fs = .ok 0 := by
  unfold Queue.contents Queue.ListAll Queue.Len
  rw [h]
  exact ⟨rfl, rfl, rfl⟩

end queue

/-! ### File names determine the key of a message -/

theorem digitChar_spec (k : Nat) (hk : k < 10) :
    (Nat.digitChar k).toNat - 48 = k ∧ Nat.digitChar k ≠ '_' ∧ Nat.digitChar k ≠ '-' := by
  interval_cases k <;> exact ⟨by decide, by decide, by decide⟩

theorem toDigitsCore_spec (fuel : Nat) :
    ∀ (n : Nat) (ds : List Char), n < fuel →
      ∃ pre, Nat.toDigitsCore 10 fuel n ds = pre ++ ds ∧ digitsValue pre = n ∧
        ∀ c ∈ pre, c ≠ '_' ∧ c ≠ '-' := by
  induction fuel with
  | zero => intro n ds h; omega
  | succ fuel ih =>
    intro n ds h
    obtain ⟨hv, h1, h2⟩ := digitChar_spec (n % 10) (Nat.mod_lt n (by decide))
    unfold Nat.toDigitsCore
    simp only
    by_cases h0 : n / 10 = 0
    · rw [if_pos h0]
      refine ⟨[Nat.digitChar (n % 10)], rfl, ?_, ?_⟩
      · simp only [digitsValue, List.foldl_cons, List.foldl_nil, hv]
        omega
      · intro c hc
        rw [List.mem_singleton] at hc
        subst hc
        exact ⟨h1, h2⟩
    · rw [if_neg h0]
      obtain ⟨pre, hpre, hval, hch⟩ := ih (n / 10) (Nat.digitChar (n % 10) :: ds) (by omega)
      refine ⟨pre ++ [Nat.digitChar (n % 10)], ?_, ?_, ?_⟩
      · rw [hpre, List.append_assoc]
        rfl
      · unfold digitsValue at hval ⊢
        rw [List.foldl_append, hval]
        simp only [List.foldl_cons, List.foldl_nil, hv]
        omega
      · intro c hc
        rw [List.mem_append, List.mem_singleton] at hc
        rcases hc with hc | hc
        · exact hch c hc
        · subst hc
          exact ⟨h1, h2⟩

theorem toString_nat_spec (n : Nat) :
    digitsValue (toString n).data = n ∧ ∀ c ∈ (toString n).data, c ≠ '_' ∧ c ≠ '-' := by
  obtain ⟨pre, hpre, hval, hch⟩ := toDigitsCore_spec (n + 1) n [] (Nat.lt_succ_self n)
  have hdata : (toString n).data = pre := by
    show (Nat.toDigits 10 n).asString.data = pre
    unfold Nat.toDigits
    rw [hpre, List.append_nil]
    rfl
  rw [hdata]
  exact ⟨hval, hch⟩

theorem toString_nat_injective (a b : Nat) (h : toString a = toString b) : a = b := by
  rw [← (toString_nat_spec a).1, ← (toString_nat_spec b).1, h]

theorem toString_int_data (i : Int) :
    (∃ n : Nat, i = Int.ofNat n ∧ (toString i).data = (toString n).data) ∨
    (∃ n : Nat, i = Int.negSucc n ∧ (toString i).data = '-' :: (toString (n + 1)).data) := by
  cases i with
  | ofNat n => exact Or.inl ⟨n, rfl, rfl⟩
  | negSucc n => exact Or.inr ⟨n, rfl, rfl⟩

theorem toString_int_no_underscore (i : Int) : '_' ∉ (toString i).data := by
  intro hmem
  rcases toString_int_data i with ⟨n, _, hd⟩ | ⟨n, _, hd⟩
  · rw [hd] at hmem
    exact ((toString_nat_spec n).2 _ hmem).1 rfl
  · rw [hd, List.mem_cons] at hmem
    rcases hmem with h | h
    · exact absurd h (by decide)
    · exact ((toString_nat_spec (n + 1)).2 _ h).1 rfl

theorem toString_int_injective (i j : Int) (h : toString i = toString j) : i = j := by
  have hdata := congrArg String.data h
  rcases toString_int_data i with ⟨n, hi, hd⟩ | ⟨n, hi, hd⟩ <;>
    rcases toString_int_data j with ⟨k, hj, he⟩ | ⟨k, hj, he⟩
  · rw [hd, he] at hdata
    have := toString_nat_injective n k (String.ext hdata)
    rw [hi, hj, this]
  · rw [hd, he] at hdata
    have hmem : '-' ∈ (toString n).data := by rw [hdata]; exact List.mem_cons_self _ _
    exact absurd rfl ((toString_nat_spec n).2 _ hmem).2
  · rw [hd, he] at hdata
    have hmem : '-' ∈ (toString k).data := by rw [← hdata]; exact List.mem_cons_self _ _
    exact absurd rfl ((toString_nat_spec k).2 _ hmem).2
  · rw [hd, he] at hdata
    have := toString_nat_injective (n + 1) (k + 1) (String.ext (List.cons.inj hdata).2)
    rw [hi, hj]
    congr 1
    omega

theorem split_at_first (c : Char) :
    ∀ (a1 a2 r1 r2 : List Char), c ∉ a1 → c ∉ a2 → a1 ++ c :: r1 = a2 ++ c :: r2 →
      a1 = a2 ∧ r1 = r2 := by
  intro a1
  induction a1 with
  | nil =>
    intro a2 r1 r2 _ h2 h
    cases a2 with
    | nil => exact ⟨rfl, (List.cons.inj h).2⟩
    | cons x xs =>
      have := (List.cons.inj h).1
      subst this
      exact absurd (List.mem_cons_self _ _) h2
  | cons y ys ih =>
    intro a2 r1 r2 h1 h2 h
    cases a2 with
    | nil =>
      have := (List.cons.inj h).1
      subst this
      exact absurd (List.mem_cons_self _ _) h1
    | cons x xs =>
      obtain ⟨hxy, hrest⟩ := List.cons.inj h
      obtain ⟨e1, e2⟩ := ih xs r1 r2 (fun hm => h1 (List.mem_cons_of_mem _ hm))
        (fun hm => h2 (List.mem_cons_of_mem _ hm)) hrest
      exact ⟨by rw [hxy, e1], e2⟩

namespace queue

/-- The file name of a message determines its timestamp and its id. -/
theorem fileName_injective (m1 m2 : Message) (h : fileName m1 = fileName m2) :
    m1.Timestamp = m2.Timestamp ∧ m1.ID = m2.ID := by
  have hdata := congrArg String.data h
  unfold fileName at hdata
  simp only [String.data_append] at hdata
  have h1 := List.append_cancel_right hdata
  rw [List.append_assoc, List.append_assoc, List.singleton_append,
    List.singleton_append] at h1
  obtain ⟨e1, e2⟩ := split_at_first '_' _ _ _ _ (toString_int_no_underscore _)
    (toString_int_no_underscore _) h1
  exact ⟨toString_int_injective _ _ (String.ext e1), String.ext e2⟩

theorem records_of_perm (l : List (Option FileData)) :
    ∀ msgs : List Message, l.Perm (msgs.map (fun m => some (FileData.record m))) →
      ∃ order : List Message,
        l = order.map (fun m => some (FileData.record m)) ∧ order.Perm msgs := by
  induction l with
  | nil =>
    intro msgs h
    have := h.length_eq
    simp only [List.length_nil, List.length_map] at this
    have hm : msgs = [] := List.length_eq_zero.mp this.symm
    exact ⟨[], rfl, hm ▸ List.Perm.refl _⟩
  | cons x xs ih =>
    intro msgs h
    have hx : x ∈ msgs.map (fun m => some (FileData.record m)) :=
      h.mem_iff.mp (List.mem_cons_self x xs)
    obtain ⟨m, hm, hfm⟩ := List.mem_map.mp hx
    have hp : msgs.Perm (m :: msgs.erase m) := List.perm_cons_erase hm
    have h2 : (x :: xs).Perm (x :: (msgs.erase m).map (fun m => some (FileData.record m))) := by
      have := h.trans (hp.map (fun m => some (FileData.record m)))
      rw [List.map_cons, hfm] at this
      exact this
    obtain ⟨order, ho, hperm⟩ := ih (msgs.erase m) (List.Perm.cons_inv h2)
    refine ⟨m :: order, ?_, (hperm.cons m).trans hp.symm⟩
    rw [List.map_cons, hfm, ho]

theorem listFiles_of_contents (q : Queue) (fs : FileSystem)
    (c : List (String × Option FileData)) (h : q.contents fs = .ok c) :
    q.listFiles fs = .ok (c.map Prod.fst) := by
  unfold Queue.contents at h
  cases hl : q.listFiles fs with
  | error e => rw [hl] at h; simp at h
  | ok files =>
    rw [hl] at h
    simp only [Except.ok.injEq] at h
    subst h
    simp [List.map_map, Function.comp_def]

/-- A successful `Enqueue` of a file that lies in the directory of a well-formed queue
leaves the queue well-formed. -/
theorem Enqueue_wellFormed (q : Queue) (fs fs1 : FileSystem) (msg : Message)
    (hwf : q.wellFormed fs = true)
    (hpath : splitPath (filepathJoin q.dir (fileName msg)) = (q.dir, fileName msg))
    (h : q.Enqueue fs msg = .ok fs1) : q.wellFormed fs1 = true := by
  obtain ⟨d, hd, hnd, hres⟩ := (wellFormed_iff q fs).mp hwf
  obtain ⟨d2, hd2, hfs⟩ := Enqueue_ok_inv q fs fs1 msg hpath h
  rw [hd] at hd2
  cases Option.some.inj hd2
  subst hfs
  apply (wellFormed_iff q _).mpr
  refine ⟨_, mapGet_mapSet_self _ _ _, mapSet_keys_nodup d _ _ hnd, ?_⟩
  intro f hf
  by_cases hmem : fileName msg ∈ d.map Prod.fst
  · rw [mapSet_keys_of_mem d _ _ hmem] at hf
    exact hres f hf
  · rw [mapSet_keys_of_not_mem d _ _ hmem, List.mem_append, List.mem_singleton] at hf
    rcases hf with hf | hf
    · exact hres f hf
    · rw [hf]
      exact hpath

/-- Successive `Enqueue` calls of files with new, pairwise different names that lie in
the directory of the queue: `List` then returns the messages it returned before and
the new ones. -/
theorem enqueueAll_spec (q : Queue) (msgs : List Message) :
    ∀ (fs fs1 : FileSystem) (cur : List Message),
      q.wellFormed fs = true → q.ListAll fs = .ok cur →
      (∀ m ∈ msgs, splitPath (filepathJoin q.dir (fileName m)) = (q.dir, fileName m)) →
      (msgs.map fileName).Nodup →
      (∀ files, q.listFiles fs = .ok files → ∀ m ∈ msgs, fileName m ∉ files) →
      q.enqueueAll fs msgs = .ok fs1 →
      q.wellFormed fs1 = true ∧ ∃ all, q.ListAll fs1 = .ok all ∧ all.Perm (cur ++ msgs) := by
  induction msgs with
  | nil =>
    intro fs fs1 cur hwf hcur _ _ _ h
    unfold Queue.enqueueAll at h
    simp only [Except.ok.injEq] at h
    subst h
    exact ⟨hwf, cur, hcur, by rw [List.append_nil]⟩
  | cons m rest ih =>
    intro fs fs1 cur hwf hcur hpath hnd hfresh h
    unfold Queue.enqueueAll at h
    cases he : q.Enqueue fs m with
    | error e => rw [he] at h; simp at h
    | ok fsA =>
      rw [he] at h
      simp only at h
      have hpm := hpath m (List.mem_cons_self m rest)
      obtain ⟨d, hd, _, _⟩ := (wellFormed_iff q fs).mp hwf
      have hfiles := listFiles_of_dir q fs d hd
      obtain ⟨before, after, hb, ha, hperm, _, _, _⟩ :=
        Enqueue_new_name_spec q fs fsA m _ hwf hpm hfiles
          (hfresh _ hfiles m (List.mem_cons_self m rest)) he
      have hwfA := Enqueue_wellFormed q fs fsA m hwf hpm he
      have hbefore : before.map Prod.snd = cur.map (fun m => some (FileData.record m)) := by
        have := (ListAll_iff_contents q fs cur hwf).mp hcur
        rw [hb] at this
        simpa [Except.map] using this
      have hafter : (after.map Prod.snd).Perm
          ((m :: cur).map (fun m => some (FileData.record m))) := by
        have := hperm.map Prod.snd
        rw [List.map_cons, hbefore] at this
        exact this
      obtain ⟨curA, hcA, hpA⟩ := records_of_perm _ _ hafter
      have hlistA : q.ListAll fsA = .ok curA := by
        apply (ListAll_iff_contents q fsA curA hwfA).mpr
        rw [ha]
        simp only [Except.map, hcA]
      have hnd2 := List.nodup_cons.mp (by simpa using hnd : (fileName m :: rest.map fileName).Nodup)
      have hfreshA : ∀ files, q.listFiles fsA = .ok files →
          ∀ m2 ∈ rest, fileName m2 ∉ files := by
        intro files hf m2 hm2 hmem
        rw [listFiles_of_contents q fsA after ha] at hf
        simp only [Except.ok.injEq] at hf
        subst hf
        have hmem2 : fileName m2 ∈ (((fileName m, some (FileData.record m)) :: before).map
            Prod.fst) := (hperm.map Prod.fst).mem_iff.mp hmem
        rw [List.map_cons, List.mem_cons] at hmem2
        rcases hmem2 with h1 | h1
        · have h1b : fileName m2 = fileName m := h1
          exact hnd2.1 (h1b ▸ List.mem_map_of_mem fileName hm2)
        · have hb2 := listFiles_of_contents q fs before hb
          exact hfresh _ hb2 m2 (List.mem_cons_of_mem m hm2) h1
      obtain ⟨hwf1, all, hall, hpall⟩ := ih fsA fs1 curA hwfA hlistA
        (fun m2 hm2 => hpath m2 (List.mem_cons_of_mem m hm2)) hnd2.2 hfreshA h
      refine ⟨hwf1, all, hall, hpall.trans ?_⟩
      have : (curA ++ rest).Perm ((m :: cur) ++ rest) := hpA.append_right rest
      refine this.trans ?_
      rw [List.cons_append]
      exact (List.perm_middle).symm

end queue

/-! ### Go strings and the JSON form of a message -/

theorem toValidUTF8_goString (t : String) : toValidUTF8 (goString t) = t := by
  unfold toValidUTF8 goString
  apply String.ext
  simp only [List.map_map]
  exact (List.map_congr_left (fun c _ => rfl)).trans (List.map_id _)

theorem goString_toValidUTF8 (s : GoString) (h : validUTF8 s = true) :
    goString (toValidUTF8 s) = s := by
  unfold goString toValidUTF8
  simp only
  induction s with
  | nil => rfl
  | cons c rest ih =>
    unfold validUTF8 at h ih
    rw [List.all_cons, Bool.and_eq_true] at h
    rw [List.map_cons, List.map_cons, ih h.2]
    cases c with
    | rune r => rfl
    | invalid b => simp at h

theorem validUTF8_goString (t : String) : validUTF8 (goString t) = true := by
  unfold validUTF8 goString
  rw [List.all_eq_true]
  intro c hc
  obtain ⟨r, _, hr⟩ := List.mem_map.mp hc
  rw [← hr]

theorem goString_injective (a b : String) (h : goString a = goString b) : a = b := by
  rw [← toValidUTF8_goString a, ← toValidUTF8_goString b, h]

namespace govalue

theorem Context_round_trip (c : Context) (h : validUTF8 c.SessionID = true) :
    Context.ofRecord c.toRecord = c := by
  obtain ⟨sid, turn⟩ := c
  simp only at h
  unfold Context.toRecord Context.ofRecord
  simp only
  by_cases h1 : sid = [] <;> by_cases h2 : turn = 0
  · simp [h1, h2, goString]
  · simp [h1, h2, goString]
  · simp [h1, h2, goString_toValidUTF8 sid h]
  · simp [h1, h2, goString_toValidUTF8 sid h]

theorem entries_round_trip (entries : List (GoString × GoString))
    (hvalid : entries.all (fun kv => validUTF8 kv.1 && validUTF8 kv.2) = true)
    (hkeys : (entries.map Prod.fst).Nodup) :
    ((entries.map (fun kv => (toValidUTF8 kv.1, toValidUTF8 kv.2))).foldl
        (fun acc kv => mapSet acc kv.1 kv.2) []).map (fun kv => (goString kv.1, goString kv.2))
      = entries := by
  have hv : ∀ kv ∈ entries, validUTF8 kv.1 = true ∧ validUTF8 kv.2 = true := by
    intro kv hkv
    have := List.all_eq_true.mp hvalid kv hkv
    simpa using this
  have hnd : ((entries.map (fun kv => (toValidUTF8 kv.1, toValidUTF8 kv.2))).map Prod.fst).Nodup := by
    rw [List.map_map]
    have : (Prod.fst ∘ fun kv : GoString × GoString => (toValidUTF8 kv.1, toValidUTF8 kv.2))
        = toValidUTF8 ∘ Prod.fst := rfl
    rw [this, ← List.map_map]
    refine List.Nodup.map_on ?_ hkeys
    intro a ha b hb hab
    obtain ⟨x, hx, hxa⟩ := List.mem_map.mp ha
    obtain ⟨y, hy, hyb⟩ := List.mem_map.mp hb
    rw [← goString_toValidUTF8 a (hxa ▸ (hv x hx).1), ← goString_toValidUTF8 b (hyb ▸ (hv y hy).1),
      hab]
  rw [foldl_mapSet_of_nodup _ [] hnd (by simp), List.nil_append, List.map_map]
  conv_rhs => rw [← List.map_id entries]
  apply List.map_congr_left
  intro kv hkv
  obtain ⟨k, v⟩ := kv
  have := hv (k, v) hkv
  simp only [Function.comp, id, goString_toValidUTF8 k this.1, goString_toValidUTF8 v this.2]

theorem Payload_round_trip (p : Payload) (htext : validUTF8 p.Text = true)
    (hmeta : p.Metadata ≠ some [])
    (hvalid : ∀ entries, p.Metadata = some entries →
      entries.all (fun kv => validUTF8 kv.1 && validUTF8 kv.2) = true)
    (hkeys : ∀ entries, p.Metadata = some entries → (entries.map Prod.fst).Nodup) :
    Payload.ofRecord p.toRecord = p := by
  obtain ⟨text, md⟩ := p
  simp only at htext hmeta hvalid hkeys
  unfold Payload.toRecord Payload.ofRecord
  simp only [goString_toValidUTF8 text htext]
  cases md with
  | none => rfl
  | some entries =>
    cases entries with
    | nil => exact absurd rfl hmeta
    | cons e es =>
      simp only [Option.map_some']
      rw [entries_round_trip (e :: es) (hvalid _ rfl) (hkeys _ rfl)]

end govalue

theorem Payload_toGo_round_trip (p : Payload) (hkeys : (p.Metadata.map Prod.fst).Nodup) :
    govalue.Payload.ofRecord p.toGo.toRecord = p.toGo := by
  obtain ⟨text, md⟩ := p
  simp only at hkeys
  apply govalue.Payload_round_trip
  · exact validUTF8_goString text
  · unfold Payload.toGo
    cases md <;> simp
  · intro entries he
    unfold Payload.toGo at he
    cases md with
    | nil => simp at he
    | cons e es =>
      simp only [Option.some.injEq] at he
      rw [← he, List.all_eq_true]
      intro kv hkv
      obtain ⟨x, _, hx⟩ := List.mem_map.mp hkv
      rw [← hx]
      simp [validUTF8_goString]
  · intro entries he
    unfold Payload.toGo at he
    cases md with
    | nil => simp at he
    | cons e es =>
      simp only [Option.some.injEq] at he
      rw [← he, List.map_map]
      have : (Prod.fst ∘ fun kv : String × String => (goString kv.1, goString kv.2))
          = goString ∘ Prod.fst := rfl
      rw [this, ← List.map_map]
      exact List.Nodup.map (fun a b h => goString_injective a b h) hkeys

/-- The record of a message of the embedding decodes to that message: for the texts
and metadata lists of the embedding, and a timestamp `json.Marshal` can write,
`json.Marshal` followed by `json.Unmarshal` gives the Go value back, which is what
`FileData.record` stands for. -/
theorem toGo_round_trip (m : Message) (htime : timeWritable m.Timestamp = true)
    (hkeys : (m.Payload.Metadata.map Prod.fst).Nodup) :
    (m.toGo.ToJSON >>= govalue.FromJSON) = .ok m.toGo := by
  obtain ⟨id, ts, src, dst, kind, p, ctx⟩ := m
  simp only at hkeys htime
  unfold govalue.Message.ToJSON
  rw [show (Message.toGo ⟨id, ts, src, dst, kind, p, ctx⟩).Timestamp = ts from rfl, htime, if_pos rfl]
  show Except.ok (govalue.Message.ofRecord (govalue.Message.toRecord _)) = _
  unfold govalue.Message.toRecord govalue.Message.ofRecord Message.toGo
  simp only [toValidUTF8_goString, Payload_toGo_round_trip p hkeys]
  have hc : ((ctx.map Context.toGo).map govalue.Context.toRecord).map govalue.Context.ofRecord
      = ctx.map Context.toGo := by
    cases ctx with
    | none => rfl
    | some c =>
      simp only [Option.map_some']
      rw [govalue.Context_round_trip _ (validUTF8_goString c.SessionID)]
  rw [hc]

/-! ### Save and Load -/

namespace session

theorem Session_record_round_trip (s : Session) : s.toGo.toRecord.toSession = s := by
  obtain ⟨a, sid, t, c, u⟩ := s
  simp [Session.toGo, govalue.Session.toRecord, SessionRecord.toSession, toValidUTF8_goString]

/-- `Load` when the snapshot can be read. -/
theorem Load_of_read (m : Manager) (st : Store) (data : SnapshotData)
    (h : st.ReadFile (filepathJoin m.dir "sessions.json") = .ok data) :
    (m.Load st).2
        = { dir := m.dir,
            sessions := data.stored.foldl (fun acc kv => mapSet acc kv.1 kv.2) m.sessions } ∧
      (m.Load st).1
        = data.unmarshalError.map (fun e => Error.wrap "failed to unmarshal sessions" e) := by
  unfold Manager.Load jsonUnmarshal
  simp only [h]
  cases data <;> exact ⟨rfl, rfl⟩

/-- What `Save` writes when the session directory exists and no directory lies at the
path of the snapshot. -/
theorem Save_present (m : Manager) (file : SnapshotFile) (h : file ≠ .directory)
    (htimes : ∀ kv ∈ m.sessions,
      timeWritable kv.2.CreatedAt = true ∧ timeWritable kv.2.UpdatedAt = true) :
    m.Save (.present file)
      = (none, .present (.content (.object
          (m.sessions.map (fun kv => (kv.1, kv.2.toGo.toRecord)))))) := by
  unfold Manager.Save govalue.Manager.Save govalue.jsonMarshalIndent Manager.toGo
  have hall : (m.sessions.map (fun kv => (goString kv.1, kv.2.toGo))).all
      (fun kv => timeWritable kv.2.CreatedAt && timeWritable kv.2.UpdatedAt) = true := by
    rw [List.all_eq_true]
    intro kv hkv
    obtain ⟨x, hx, hxe⟩ := List.mem_map.mp hkv
    rw [← hxe]
    have := htimes x hx
    simp only [Session.toGo, this.1, this.2, Bool.and_self]
  simp only [hall, if_true]
  simp only [List.map_map]
  have hm : (fun kv : GoString × govalue.Session => (toValidUTF8 kv.1, kv.2.toRecord))
      ∘ (fun kv : String × Session => (goString kv.1, kv.2.toGo))
      = fun kv => (kv.1, kv.2.toGo.toRecord) := by
    funext kv
    simp [toValidUTF8_goString]
  rw [hm]
  cases file with
  | absent => rfl
  | directory => exact absurd rfl h
  | content d => rfl

end session
/-! ## The claims -/

/-- C1, at an input where it fails: two messages with strictly increasing timestamps
(one nanosecond apart, the second the first with 19 digits) are enqueued into an empty
queue; both calls succeed and the two Dequeue calls return the later message first.
The file names are sorted as strings and `%d` does not pad the timestamp. -/
theorem dequeue_order_breaks_when_digits_grow :
    sample.lastOf18Digits.Timestamp < sample.firstOf19Digits.Timestamp ∧
      (sample.testQueue.enqueueAll sample.emptyTestFS
          [sample.lastOf18Digits, sample.firstOf19Digits]).map
        (fun fs => (sample.testQueue.listFiles fs, sample.testQueue.dequeueTimes fs 2))
      = .ok (.ok ["1000000000000000000_id-2.json", "999999999999999999_id-1.json"],
          [.ok (some sample.firstOf19Digits), .ok (some sample.lastOf18Digits)]) := by
  decide

/-- C2, at the scenario of the specification: the first turn of a freshly created
agent returns a response whose context has turn_number 2, while the session holds
turn_number 1 (the turn number before the call plus 1). `ProcessNext` reads
`sess.TurnNumber + 1` after `IncrementTurn` has updated the same session object. -/
theorem first_response_reports_turn_two :
    (sample.helloBroker.sessionMgr.GetSession AgentA).map (fun s => s.TurnNumber) = .ok 0 ∧
      (sample.helloBroker.ProcessNext sample.helloTurn AgentA).1.map
          (Option.map (fun m => m.Context))
        = .ok (some (some { SessionID := "s1", TurnNumber := 2 })) ∧
      ((sample.helloBroker.ProcessNext sample.helloTurn AgentA).2.sessionMgr.GetSession
          AgentA).map (fun s => (s.SessionID, s.TurnNumber)) = .ok ("s1", 1) := by
  decide

/-- C3 fails: with the executor of the tests, which returns the token `new-session-`
for every first call, two initialized agents complete their first ProcessNext and
then hold the same session_id. -/
theorem same_token_gives_same_session_id :
    (∃ r, (sample.twoAgents.ProcessNext sample.turnA AgentA).1 = .ok (some r)) ∧
      (∃ r, ((sample.twoAgents.ProcessNext sample.turnA AgentA).2.ProcessNext sample.turnB
          AgentB).1 = .ok (some r)) ∧
      (((sample.twoAgents.ProcessNext sample.turnA AgentA).2.ProcessNext sample.turnB
          AgentB).2.sessionMgr.GetSession AgentA).map (fun s => s.SessionID)
        = .ok "new-session-" ∧
      (((sample.twoAgents.ProcessNext sample.turnA AgentA).2.ProcessNext sample.turnB
          AgentB).2.sessionMgr.GetSession AgentB).map (fun s => s.SessionID)
        = .ok "new-session-" := by
  refine ⟨⟨_, rfl⟩, ⟨_, rfl⟩, ?_, ?_⟩ <;> decide

/-- C4 fails: (1) a message with the timestamp and id of a queued record replaces that
record, the call succeeds and Len stays 1; (2) a message whose id holds a path
separator is written below the queue directory, the call succeeds and Len stays 0. -/
theorem enqueue_can_overwrite_or_miss_the_queue :
    ((sample.testQueue.enqueueAll sample.emptyTestFS [sample.firstText]).map
        (fun fs => (sample.testQueue.Len fs, sample.testQueue.ListAll fs))
      = .ok (.ok 1, .ok [sample.firstText]) ∧
     (sample.testQueue.enqueueAll sample.emptyTestFS [sample.firstText, sample.secondText]).map
        (fun fs => (sample.testQueue.Len fs, sample.testQueue.ListAll fs))
      = .ok (.ok 1, .ok [sample.secondText])) ∧
    (sample.queueA.Len sample.nestedFS = .ok 0 ∧
     (sample.queueA.Enqueue sample.nestedFS sample.slashId).map
        (fun fs => (sample.queueA.Len fs, fs.files "data/queues/agent-a/7_x"))
      = .ok (.ok 0, [("y.json", .record sample.slashId)])) := by
  decide

/-- C4 as amended: for a well-formed queue directory and a message whose file name
`<timestamp>_<id>.json` names an entry of that directory (the path joined from them
lies directly in it) that is not yet listed, a successful Enqueue keeps every record
with its content, adds the record of the message, and Len grows by 1. -/
theorem enqueue_of_new_name_adds_one_record (q : queue.Queue) (fs fs1 : FileSystem)
    (msg : Message) (files : List String)
    (hwf : q.wellFormed fs = true)
    (hpath : splitPath (filepathJoin q.dir (queue.fileName msg)) = (q.dir, queue.fileName msg))
    (hfiles : q.listFiles fs = .ok files)
    (hfresh : queue.fileName msg ∉ files)
    (h : q.Enqueue fs msg = .ok fs1) :
    ∃ before after, q.contents fs = .ok before ∧ q.contents fs1 = .ok after ∧
      after.Perm ((queue.fileName msg, some (.record msg)) :: before) ∧
      (∀ r ∈ before, r ∈ after) ∧
      q.Len fs = .ok (before.length : Int) ∧ q.Len fs1 = .ok ((before.length : Int) + 1) := by
  exact queue.Enqueue_new_name_spec q fs fs1 msg files hwf hpath hfiles hfresh h

theorem enqueue_of_new_name_adds_one_record_witness :
    (sample.testQueue.wellFormed sample.oneRecordFS = true ∧
      splitPath (filepathJoin sample.testQueue.dir (queue.fileName sample.otherId))
        = (sample.testQueue.dir, queue.fileName sample.otherId) ∧
      sample.testQueue.listFiles sample.oneRecordFS = .ok ["1700000000000000000_id-1.json"] ∧
      queue.fileName sample.otherId ∉ ["1700000000000000000_id-1.json"] ∧
      sample.testQueue.Enqueue sample.oneRecordFS sample.otherId = .ok sample.twoRecordFS) ∧
    ∃ before after, sample.testQueue.contents sample.oneRecordFS = .ok before ∧
      sample.testQueue.contents sample.twoRecordFS = .ok after ∧
      after.Perm ((queue.fileName sample.otherId, some (.record sample.otherId)) :: before) ∧
      (∀ r ∈ before, r ∈ after) ∧
      sample.testQueue.Len sample.oneRecordFS = .ok (before.length : Int) ∧
      sample.testQueue.Len sample.twoRecordFS = .ok ((before.length : Int) + 1) :=
  ⟨⟨by decide, by decide, by decide, by decide, by decide⟩,
    enqueue_of_new_name_adds_one_record sample.testQueue sample.oneRecordFS sample.twoRecordFS
      sample.otherId ["1700000000000000000_id-1.json"]
      (by decide) (by decide) (by decide) (by decide) (by decide)⟩

namespace broker

open queue session

/-- C3 as amended: when two different agents have each completed a successful
ProcessNext, each holds as session_id the token the Executor returned for its call;
so the two hold the same session_id exactly when the Executor returned the same token
for both calls. -/
theorem session_ids_equal_iff_tokens_equal {σ : Type} (b : Broker σ) (inpA inpB : TurnInputs)
    (agentA agentB : String) (respA respB : Message) (hne : agentA ≠ agentB)
    (hA : (b.ProcessNext inpA agentA).1 = .ok (some respA))
    (hB : ((b.ProcessNext inpA agentA).2.ProcessNext inpB agentB).1 = .ok (some respB)) :
    ∃ msgA sessA resultA msgB sessB resultB,
      b.Processes agentA msgA sessA resultA ∧
      (b.ProcessNext inpA agentA).2.Processes agentB msgB sessB resultB ∧
      (((b.ProcessNext inpA agentA).2.ProcessNext inpB agentB).2.sessionMgr.GetSession
          agentA).map (fun s => s.SessionID) = .ok resultA.SessionID ∧
      (((b.ProcessNext inpA agentA).2.ProcessNext inpB agentB).2.sessionMgr.GetSession
          agentB).map (fun s => s.SessionID) = .ok resultB.SessionID ∧
      ((((b.ProcessNext inpA agentA).2.ProcessNext inpB agentB).2.sessionMgr.GetSession
            agentA).map (fun s => s.SessionID)
          = (((b.ProcessNext inpA agentA).2.ProcessNext inpB agentB).2.sessionMgr.GetSession
            agentB).map (fun s => s.SessionID)
        ↔ resultA.SessionID = resultB.SessionID) := by
  obtain ⟨q, qm1, fs1, fs2, msgA, sessA, resA, st1, h1, h2, h3, h4⟩ :=
    ProcessNext_some_inv b inpA agentA respA hA
  obtain ⟨q', qm1', fs1', fs2', msgB, sessB, resB, st1', h1', h2', h3', h4'⟩ :=
    ProcessNext_some_inv _ inpB agentB respB hB
  refine ⟨msgA, sessA, resA, msgB, sessB, resB, ⟨q, qm1, fs1, fs2, st1, h1, h2, h3, h4⟩,
    ⟨q', qm1', fs1', fs2', st1', h1', h2', h3', h4'⟩, ?_⟩
  have e2 := ProcessNext_ok _ inpB agentB q' qm1' fs1' fs2' msgB sessB resB st1' h1' h2' h3' h4'
  have e1 := ProcessNext_ok b inpA agentA q qm1 fs1 fs2 msgA sessA resA st1 h1 h2 h3 h4
  have gA : (((b.ProcessNext inpA agentA).2.ProcessNext inpB agentB).2.sessionMgr.GetSession
      agentA).map (fun s => s.SessionID) = .ok resA.SessionID := by
    rw [e2]
    simp only [Manager.GetSession]
    rw [mapGet_mapSet_ne _ _ _ _ hne, e1]
    simp only [mapGet_mapSet_self]
    rfl
  have gB : (((b.ProcessNext inpA agentA).2.ProcessNext inpB agentB).2.sessionMgr.GetSession
      agentB).map (fun s => s.SessionID) = .ok resB.SessionID := by
    rw [e2]
    simp only [Manager.GetSession, mapGet_mapSet_self]
    rfl
  refine ⟨gA, gB, ?_⟩
  rw [gA, gB]
  constructor
  · intro h
    exact Except.ok.inj h
  · intro h
    rw [h]

theorem session_ids_equal_iff_tokens_equal_witness :
    (AgentA ≠ AgentB ∧
      (sample.helloTwo.ProcessNext sample.turnA AgentA).1 = .ok (some sample.replyA) ∧
      ((sample.helloTwo.ProcessNext sample.turnA AgentA).2.ProcessNext sample.turnB AgentB).1
        = .ok (some sample.replyB)) ∧
    ∃ msgA sessA resultA msgB sessB resultB,
      sample.helloTwo.Processes AgentA msgA sessA resultA ∧
      (sample.helloTwo.ProcessNext sample.turnA AgentA).2.Processes AgentB msgB sessB resultB ∧
      (((sample.helloTwo.ProcessNext sample.turnA AgentA).2.ProcessNext sample.turnB
          AgentB).2.sessionMgr.GetSession AgentA).map (fun s => s.SessionID)
        = .ok resultA.SessionID ∧
      (((sample.helloTwo.ProcessNext sample.turnA AgentA).2.ProcessNext sample.turnB
          AgentB).2.sessionMgr.GetSession AgentB).map (fun s => s.SessionID)
        = .ok resultB.SessionID ∧
      ((((sample.helloTwo.ProcessNext sample.turnA AgentA).2.ProcessNext sample.turnB
            AgentB).2.sessionMgr.GetSession AgentA).map (fun s => s.SessionID)
          = (((sample.helloTwo.ProcessNext sample.turnA AgentA).2.ProcessNext sample.turnB
            AgentB).2.sessionMgr.GetSession AgentB).map (fun s => s.SessionID)
        ↔ resultA.SessionID = resultB.SessionID) :=
  ⟨⟨by decide, by decide, by decide⟩,
    session_ids_equal_iff_tokens_equal sample.helloTwo sample.turnA sample.turnB AgentA AgentB
      sample.replyA sample.replyB (by decide) (by decide) (by decide)⟩

/-- C7: after every successful ProcessNext that processes a message, the session_id
stored for the agent is the token the Executor returned for that turn, whether or not
the session was new or the token changed; so it is non-empty whenever the Executor
returned a non-empty token. -/
theorem stored_session_id_is_returned_token {σ : Type} (b : Broker σ) (inp : TurnInputs)
    (agentID : String) (resp : Message)
    (h : (b.ProcessNext inp agentID).1 = .ok (some resp)) :
    ∃ msg sess result, b.Processes agentID msg sess result ∧
      ((b.ProcessNext inp agentID).2.sessionMgr.GetSession agentID).map
          (fun s => s.SessionID) = .ok result.SessionID ∧
      (result.SessionID ≠ "" →
        ((b.ProcessNext inp agentID).2.sessionMgr.GetSession agentID).map
          (fun s => decide (s.SessionID ≠ "")) = .ok true) := by
  obtain ⟨q, qm1, fs1, fs2, msg, sess, result, st1, h1, h2, h3, h4⟩ :=
    ProcessNext_some_inv b inp agentID resp h
  refine ⟨msg, sess, result, ⟨q, qm1, fs1, fs2, st1, h1, h2, h3, h4⟩, ?_⟩
  rw [ProcessNext_ok b inp agentID q qm1 fs1 fs2 msg sess result st1 h1 h2 h3 h4]
  simp only [Manager.GetSession, mapGet_mapSet_self]
  constructor
  · rfl
  · intro hne
    simp [Except.map, hne]

theorem stored_session_id_is_returned_token_witness :
    (sample.helloBroker.ProcessNext sample.helloTurn AgentA).1 = .ok (some sample.helloResponse) ∧
      ∃ msg sess result, sample.helloBroker.Processes AgentA msg sess result ∧
        ((sample.helloBroker.ProcessNext sample.helloTurn AgentA).2.sessionMgr.GetSession
            AgentA).map (fun s => s.SessionID) = .ok result.SessionID ∧
        (result.SessionID ≠ "" →
          ((sample.helloBroker.ProcessNext sample.helloTurn AgentA).2.sessionMgr.GetSession
            AgentA).map (fun s => decide (s.SessionID ≠ "")) = .ok true) :=
  ⟨by decide,
    stored_session_id_is_returned_token sample.helloBroker sample.helloTurn AgentA
      sample.helloResponse (by decide)⟩

/-- C10: for every successful ProcessNext(agentId) that processes a dequeued message m,
the response has from = agentId, to = m.from, type `message` and as text the reply
text of the Executor. (The witness is the reply to a message injected as agent-a to
agent-b: it is from agent-b to agent-a.) -/
theorem response_is_addressed_to_sender {σ : Type} (b : Broker σ) (inp : TurnInputs)
    (agentID : String) (resp : Message)
    (h : (b.ProcessNext inp agentID).1 = .ok (some resp)) :
    ∃ msg sess result, b.Processes agentID msg sess result ∧
      resp.From = agentID ∧ resp.To = msg.From ∧ resp.MsgType = TypeMessage ∧
      resp.Payload.Text = result.Response := by
  obtain ⟨q, qm1, fs1, fs2, msg, sess, result, st1, h1, h2, h3, h4⟩ :=
    ProcessNext_some_inv b inp agentID resp h
  refine ⟨msg, sess, result, ⟨q, qm1, fs1, fs2, st1, h1, h2, h3, h4⟩, ?_⟩
  rw [ProcessNext_ok b inp agentID q qm1 fs1 fs2 msg sess result st1 h1 h2 h3 h4] at h
  simp only [Except.ok.injEq, Option.some.injEq] at h
  subst h
  exact ⟨rfl, rfl, rfl, rfl⟩

theorem response_is_addressed_to_sender_witness :
    (sample.injectedBroker.ProcessNext sample.injectedTurn AgentB).1
        = .ok (some sample.injectedResponse) ∧
      ∃ msg sess result, sample.injectedBroker.Processes AgentB msg sess result ∧
        sample.injectedResponse.From = AgentB ∧ sample.injectedResponse.To = msg.From ∧
        sample.injectedResponse.MsgType = TypeMessage ∧
        sample.injectedResponse.Payload.Text = result.Response :=
  ⟨by decide,
    response_is_addressed_to_sender sample.injectedBroker sample.injectedTurn AgentB
      sample.injectedResponse (by decide)⟩

/-- C8: if ProcessNext dequeues a message and then the session lookup or the Executor
invocation fails, ProcessNext returns an error, the dequeued message is not restored
(the queue holds its previous records without the first) and the sessions, so the
session_id and turn_number of the agent, are unchanged. -/
theorem failure_after_dequeue_loses_message {σ : Type} (b : Broker σ) (inp : TurnInputs)
    (agentID : String) (q : Queue) (qm1 : queue.Manager) (fs1 fs2 : FileSystem) (msg : Message)
    (hq : b.queueMgr.GetQueue b.fs agentID = .ok (q, qm1, fs1))
    (hwf : q.wellFormed b.fs = true)
    (hdeq : q.Dequeue fs1 = .ok (some msg, fs2))
    (hfail : (∃ e, b.sessionMgr.GetSession agentID = .error e) ∨
      (∃ sess e st1, b.sessionMgr.GetSession agentID = .ok sess ∧
        b.executor.Execute b.execState sess.SessionID msg.Payload.Text (sess.SessionID == "")
          = (.error e, st1))) :
    (∃ e, (b.ProcessNext inp agentID).1 = .error e) ∧
      (b.ProcessNext inp agentID).2.sessionMgr = b.sessionMgr ∧
      ∃ n rest, q.contents b.fs = .ok ((n, some (.record msg)) :: rest) ∧
        q.contents (b.ProcessNext inp agentID).2.fs = .ok rest := by
  have hg := GetQueue_grown _ _ _ _ _ _ hq
  obtain ⟨_, n, rest, hc1, hc2⟩ :=
    Dequeue_some_contents q fs1 fs2 msg (wellFormed_grown q fs1 b.fs hg hwf) hdeq
  rw [contents_grown q fs1 b.fs hg] at hc1
  rcases hfail with ⟨e, h3⟩ | ⟨sess, e, st1, h3, h4⟩
  · rw [ProcessNext_session_error b inp agentID q qm1 fs1 fs2 msg e hq hdeq h3]
    exact ⟨⟨_, rfl⟩, rfl, n, rest, hc1, hc2⟩
  · rw [ProcessNext_exec_error b inp agentID q qm1 fs1 fs2 msg sess e st1 hq hdeq h3 h4]
    exact ⟨⟨_, rfl⟩, rfl, n, rest, hc1, hc2⟩

theorem failure_after_dequeue_loses_message_witness :
    (sample.failingBroker.queueMgr.GetQueue sample.failingBroker.fs AgentA
        = .ok (sample.queueA, sample.failingBroker.queueMgr, sample.failingBroker.fs) ∧
      sample.queueA.wellFormed sample.failingBroker.fs = true ∧
      sample.queueA.Dequeue sample.failingBroker.fs
        = .ok (some (NewUserMessage "id-1" 1700000000000000001 AgentA "hello"),
            { dirs := [("data", []), ("data/queues", []), ("data/queues/agent-a", [])] })) ∧
    ((∃ e, (sample.failingBroker.ProcessNext sample.helloTurn AgentA).1 = .error e) ∧
      (sample.failingBroker.ProcessNext sample.helloTurn AgentA).2.sessionMgr
        = sample.failingBroker.sessionMgr ∧
      ∃ n rest,
        sample.queueA.contents sample.failingBroker.fs
          = .ok ((n, some (.record (NewUserMessage "id-1" 1700000000000000001 AgentA "hello")))
              :: rest) ∧
        sample.queueA.contents (sample.failingBroker.ProcessNext sample.helloTurn AgentA).2.fs
          = .ok rest) :=
  ⟨⟨by decide, by decide, by decide⟩,
    failure_after_dequeue_loses_message sample.failingBroker sample.helloTurn AgentA
      sample.queueA sample.failingBroker.queueMgr sample.failingBroker.fs
      { dirs := [("data", []), ("data/queues", []), ("data/queues/agent-a", [])] }
      (NewUserMessage "id-1" 1700000000000000001 AgentA "hello")
      (by decide) (by decide) (by decide)
      (Or.inr ⟨{ AgentID := "agent-a", SessionID := "", TurnNumber := 0,
                 CreatedAt := 1700000000000000000, UpdatedAt := 1700000000000000000 },
        .exec "claude command failed", (), by decide, by decide⟩)⟩

/-- C9: ProcessNext on an agent whose queue is empty returns none with no error and
changes nothing: the sessions (so the session_id and turn_number of the agent), the
state of the Executor and the content of every queue are unchanged. -/
theorem empty_queue_changes_nothing {σ : Type} (b : Broker σ) (inp : TurnInputs)
    (agentID : String) (q : Queue) (qm1 : queue.Manager) (fs1 : FileSystem)
    (hq : b.queueMgr.GetQueue b.fs agentID = .ok (q, qm1, fs1))
    (hempty : q.listFiles b.fs = .ok []) :
    (b.ProcessNext inp agentID).1 = .ok none ∧
      (b.ProcessNext inp agentID).2.sessionMgr = b.sessionMgr ∧
      (b.ProcessNext inp agentID).2.execState = b.execState ∧
      ∀ q2 : Queue, q2.contents (b.ProcessNext inp agentID).2.fs = q2.contents b.fs := by
  have hg := GetQueue_grown _ _ _ _ _ _ hq
  have he : q.listFiles fs1 = .ok [] := by rw [listFiles_grown q fs1 b.fs hg, hempty]
  rw [ProcessNext_none b inp agentID q qm1 fs1 fs1 hq (Dequeue_empty q fs1 he)]
  exact ⟨rfl, rfl, rfl, fun q2 => contents_grown q2 fs1 b.fs hg⟩

theorem empty_queue_changes_nothing_witness :
    (sample.idleBroker.queueMgr.GetQueue sample.idleBroker.fs AgentA
        = .ok (sample.queueA, sample.idleBroker.queueMgr, sample.idleBroker.fs) ∧
      sample.queueA.listFiles sample.idleBroker.fs = .ok []) ∧
    ((sample.idleBroker.ProcessNext sample.helloTurn AgentA).1 = .ok none ∧
      (sample.idleBroker.ProcessNext sample.helloTurn AgentA).2.sessionMgr
        = sample.idleBroker.sessionMgr ∧
      (sample.idleBroker.ProcessNext sample.helloTurn AgentA).2.execState
        = sample.idleBroker.execState ∧
      ∀ q2 : Queue, q2.contents (sample.idleBroker.ProcessNext sample.helloTurn AgentA).2.fs
        = q2.contents sample.idleBroker.fs) :=
  ⟨⟨by decide, by decide⟩,
    empty_queue_changes_nothing sample.idleBroker sample.helloTurn AgentA sample.queueA
      sample.idleBroker.queueMgr sample.idleBroker.fs (by decide) (by decide)⟩

theorem processTimes_cons {σ : Type} (b : Broker σ) (a : String) (inp : TurnInputs)
    (rest : List TurnInputs) :
    b.processTimes a (inp :: rest) =
      ((b.ProcessNext inp a).1 :: ((b.ProcessNext inp a).2.processTimes a rest).1,
        ((b.ProcessNext inp a).2.processTimes a rest).2) := rfl

/-- Turn accounting from any session: each successful turn adds one. -/
theorem processTimes_turns {σ : Type} (a : String) (inps : List TurnInputs) :
    ∀ (b : Broker σ) (msgs : List Message) (q : Queue) (qm1 : queue.Manager) (fs1 : FileSystem)
      (sess : Session),
      b.queueMgr.GetQueue b.fs a = .ok (q, qm1, fs1) →
      q.wellFormed fs1 = true → q.ListAll fs1 = .ok msgs → msgs.length = inps.length →
      b.sessionMgr.GetSession a = .ok sess → 0 ≤ sess.TurnNumber →
      sess.TurnNumber + (inps.length : Int) < 2 ^ 63 →
      (∀ r ∈ (b.processTimes a inps).1, isExecuteFailure r = false) →
      (∀ r ∈ (b.processTimes a inps).1, ∃ resp, r = .ok (some resp)) ∧
        ((b.processTimes a inps).2.sessionMgr.GetSession a).map (fun s => s.TurnNumber)
          = .ok (sess.TurnNumber + (inps.length : Int)) := by
  induction inps with
  | nil =>
    intro b msgs q qm1 fs1 sess _ _ _ _ hs _ _ _
    constructor
    · intro r hr
      simp [Broker.processTimes] at hr
    · simp [Broker.processTimes, hs, Except.map]
  | cons inp rest ih =>
    intro b msgs q qm1 fs1 sess hq hwf hlist hlen hs h0 hN hexec
    cases msgs with
    | nil => simp at hlen
    | cons m ms =>
      obtain ⟨fs2, hdeq, hwf2, hlist2⟩ := Dequeue_of_ListAll q fs1 m ms hwf hlist
      rw [processTimes_cons] at hexec ⊢
      simp only [List.length_cons, Nat.cast_add, Nat.cast_one] at hN ⊢
      cases h4 : b.executor.Execute b.execState sess.SessionID m.Payload.Text
          (sess.SessionID == "") with
      | mk r st1 =>
        cases r with
        | error e =>
          have hp := ProcessNext_exec_error b inp a q qm1 fs1 fs2 m sess e st1 hq hdeq hs h4
          have := hexec _ (List.mem_cons_self _ _)
          rw [hp] at this
          simp [isExecuteFailure] at this
        | ok result =>
          have hp := ProcessNext_ok b inp a q qm1 fs1 fs2 m sess result st1 hq hdeq hs h4
          have hw : wrapInt64 (sess.TurnNumber + 1) = sess.TurnNumber + 1 :=
            wrapInt64_of_range _ (by norm_num; omega) (by omega)
          rw [hp] at hexec ⊢
          simp only at hexec ⊢
          have hih := ih _ ms q qm1 fs2
            { AgentID := sess.AgentID, SessionID := result.SessionID,
              TurnNumber := wrapInt64 (sess.TurnNumber + 1),
              CreatedAt := sess.CreatedAt, UpdatedAt := inp.incAt }
            (GetQueue_cached _ _ _ _ fs2 _ _ hq) hwf2 hlist2
            (by simpa using hlen)
            (by simp [Manager.GetSession, mapGet_mapSet_self])
            (by simp only; rw [hw]; omega)
            (by simp only; rw [hw]; omega)
            (fun r hr => hexec r (List.mem_cons_of_mem _ hr))
          constructor
          · intro r hr
            rcases List.mem_cons.mp hr with h1 | h1
            · exact ⟨_, h1⟩
            · exact hih.1 r h1
          · rw [hih.2]
            simp only [hw]
            congr 1
            omega

/-- C6 (turn accounting): for every N, for an agent freshly initialized with
CreateSession whose queue holds N messages, after N ProcessNext calls whose Executor
invocations all succeed every call has returned a response and the session of the
agent has turn_number N. (N is the length of a directory listing, a Go `int`.) -/
theorem turn_number_counts_successful_turns {σ : Type} (b : Broker σ) (agentID : String)
    (inps : List TurnInputs) (msgs : List Message) (q : Queue) (qm1 : queue.Manager)
    (fs1 : FileSystem) (sm0 : session.Manager) (now : Int) (s0 : Session)
    (hcreate : sm0.CreateSession agentID now = .ok (s0, b.sessionMgr))
    (hq : b.queueMgr.GetQueue b.fs agentID = .ok (q, qm1, fs1))
    (hwf : q.wellFormed b.fs = true)
    (hlist : q.ListAll b.fs = .ok msgs)
    (hlen : msgs.length = inps.length)
    (hN : (inps.length : Int) < 2 ^ 63)
    (hexec : ∀ r ∈ (b.processTimes agentID inps).1, isExecuteFailure r = false) :
    (∀ r ∈ (b.processTimes agentID inps).1, ∃ resp, r = .ok (some resp)) ∧
      ((b.processTimes agentID inps).2.sessionMgr.GetSession agentID).map
        (fun s => s.TurnNumber) = .ok (inps.length : Int) := by
  have hg := GetQueue_grown _ _ _ _ _ _ hq
  have hs : b.sessionMgr.GetSession agentID = .ok s0 ∧ s0.TurnNumber = 0 := by
    unfold Manager.CreateSession at hcreate
    simp only [Except.ok.injEq, Prod.mk.injEq] at hcreate
    rw [← hcreate.2, ← hcreate.1]
    simp [Manager.GetSession, mapGet_mapSet_self]
  have h := processTimes_turns agentID inps b msgs q qm1 fs1 s0 hq
    (wellFormed_grown q fs1 b.fs hg hwf) (by rw [ListAll_grown q fs1 b.fs hg hwf]; exact hlist)
    hlen hs.1 (by rw [hs.2]) (by rw [hs.2]; simpa using hN) hexec
  rw [hs.2] at h
  simpa using h

theorem turn_number_counts_successful_turns_witness :
    ((session.Manager.mk "data/sessions" []).CreateSession AgentA 1700000000000000000
        = .ok ({ AgentID := "agent-a", SessionID := "", TurnNumber := 0,
                 CreatedAt := 1700000000000000000, UpdatedAt := 1700000000000000000 },
               sample.twoMessages.sessionMgr) ∧
      sample.twoMessages.queueMgr.GetQueue sample.twoMessages.fs AgentA
        = .ok (sample.queueA, sample.twoMessages.queueMgr, sample.twoMessages.fs) ∧
      sample.queueA.wellFormed sample.twoMessages.fs = true ∧
      sample.queueA.ListAll sample.twoMessages.fs
        = .ok [NewUserMessage "id-1" 1700000000000000001 AgentA "msg",
               NewUserMessage "id-2" 1700000000000000002 AgentA "msg"] ∧
      (∀ r ∈ (sample.twoMessages.processTimes AgentA
          [sample.turnAt 1700000000000000003 "id-3", sample.turnAt 1700000000000000006 "id-4"]).1,
        isExecuteFailure r = false)) ∧
    ((∀ r ∈ (sample.twoMessages.processTimes AgentA
          [sample.turnAt 1700000000000000003 "id-3", sample.turnAt 1700000000000000006 "id-4"]).1,
        ∃ resp, r = .ok (some resp)) ∧
      ((sample.twoMessages.processTimes AgentA
          [sample.turnAt 1700000000000000003 "id-3",
           sample.turnAt 1700000000000000006 "id-4"]).2.sessionMgr.GetSession AgentA).map
        (fun s => s.TurnNumber) = .ok 2) :=
  ⟨⟨by decide, by decide, by decide, by decide, by decide⟩,
    turn_number_counts_successful_turns sample.twoMessages AgentA
      [sample.turnAt 1700000000000000003 "id-3", sample.turnAt 1700000000000000006 "id-4"]
      [NewUserMessage "id-1" 1700000000000000001 AgentA "msg",
       NewUserMessage "id-2" 1700000000000000002 AgentA "msg"]
      sample.queueA sample.twoMessages.queueMgr sample.twoMessages.fs
      (session.Manager.mk "data/sessions" []) 1700000000000000000
      { AgentID := "agent-a", SessionID := "", TurnNumber := 0,
        CreatedAt := 1700000000000000000, UpdatedAt := 1700000000000000000 }
      (by decide) (by decide) (by decide) (by decide) (by decide) (by decide) (by decide)⟩

/-- What every successful ProcessNext reports and stores as turn number: the session
holds the turn number before the call plus 1, and the context of the response holds
that stored number plus 1 (both in 64-bit arithmetic). -/
theorem response_turn_is_one_past_stored_turn {σ : Type} (b : Broker σ) (inp : TurnInputs)
    (agentID : String) (resp : Message)
    (h : (b.ProcessNext inp agentID).1 = .ok (some resp)) :
    ∃ msg sess result, b.Processes agentID msg sess result ∧
      ((b.ProcessNext inp agentID).2.sessionMgr.GetSession agentID).map
          (fun s => s.TurnNumber) = .ok (wrapInt64 (sess.TurnNumber + 1)) ∧
      resp.Context = some { SessionID := result.SessionID,
                            TurnNumber := wrapInt64 (wrapInt64 (sess.TurnNumber + 1) + 1) } := by
  obtain ⟨q, qm1, fs1, fs2, msg, sess, result, st1, h1, h2, h3, h4⟩ :=
    ProcessNext_some_inv b inp agentID resp h
  refine ⟨msg, sess, result, ⟨q, qm1, fs1, fs2, st1, h1, h2, h3, h4⟩, ?_⟩
  rw [ProcessNext_ok b inp agentID q qm1 fs1 fs2 msg sess result st1 h1 h2 h3 h4] at h ⊢
  simp only [Except.ok.injEq, Option.some.injEq] at h
  subst h
  simp only [Manager.GetSession, mapGet_mapSet_self]
  exact ⟨rfl, rfl⟩

end broker

namespace queue

/-- C12: Dequeue and Peek on an empty queue return none with no error: on every queue
whose listing is empty, in particular on the queue GetQueue returns for an agent under
whose directory nothing was stored, and on a queue that held messages and was drained
by as many Dequeue calls. -/
theorem empty_queue_gives_none :
    (∀ (q : Queue) (fs : FileSystem), q.listFiles fs = .ok [] →
      q.Dequeue fs = .ok (none, fs) ∧ q.Peek fs = .ok none) ∧
    (∀ (m m1 : Manager) (fs fs1 : FileSystem) (agent : String) (q : Queue),
      m.GetQueue fs agent = .ok (q, m1, fs1) → q.listFiles fs = .ok [] →
      q.Dequeue fs1 = .ok (none, fs1) ∧ q.Peek fs1 = .ok none) ∧
    (∀ (q : Queue) (fs : FileSystem) (msgs : List Message),
      q.wellFormed fs = true → q.ListAll fs = .ok msgs →
      q.dequeueTimes fs msgs.length = msgs.map (fun m => .ok (some m)) ∧
      q.Dequeue (q.afterDequeues fs msgs.length) = .ok (none, q.afterDequeues fs msgs.length) ∧
      q.Peek (q.afterDequeues fs msgs.length) = .ok none) := by
  refine ⟨fun q fs h => ⟨Dequeue_empty q fs h, Peek_empty q fs h⟩, ?_, ?_⟩
  · intro m m1 fs fs1 agent q hq hempty
    have he : q.listFiles fs1 = .ok [] := by
      rw [listFiles_grown q fs1 fs (GetQueue_grown _ _ _ _ _ _ hq), hempty]
    exact ⟨Dequeue_empty q fs1 he, Peek_empty q fs1 he⟩
  · intro q fs msgs hwf hlist
    obtain ⟨h1, _, h3⟩ := drain_spec q msgs fs hwf hlist
    exact ⟨h1, Dequeue_empty q _ h3, Peek_empty q _ h3⟩

theorem empty_queue_gives_none_witness :
    ((sample.newBroker broker.mockExecutor { responses := [], calls := [] }).queueMgr.GetQueue
          (sample.newBroker broker.mockExecutor { responses := [], calls := [] }).fs "test"
        = .ok (sample.testQueue, { baseDir := "data/queues", queues := [("test", sample.testQueue)] },
            sample.emptyTestFS) ∧
      sample.testQueue.Dequeue sample.emptyTestFS = .ok (none, sample.emptyTestFS) ∧
      sample.testQueue.Peek sample.emptyTestFS = .ok none) ∧
    (sample.testQueue.wellFormed sample.twoRecordFS = true ∧
      sample.testQueue.ListAll sample.twoRecordFS = .ok [sample.firstText, sample.otherId] ∧
      sample.testQueue.dequeueTimes sample.twoRecordFS 2
        = [.ok (some sample.firstText), .ok (some sample.otherId)] ∧
      sample.testQueue.afterDequeues sample.twoRecordFS 2 = sample.emptyTestFS ∧
      sample.testQueue.Dequeue sample.emptyTestFS = .ok (none, sample.emptyTestFS) ∧
      sample.testQueue.Peek sample.emptyTestFS = .ok none) :=
  ⟨⟨by decide,
      (empty_queue_gives_none.1 sample.testQueue sample.emptyTestFS (by decide)).1,
      (empty_queue_gives_none.1 sample.testQueue sample.emptyTestFS (by decide)).2⟩,
    ⟨by decide, by decide,
      (empty_queue_gives_none.2.2 sample.testQueue sample.twoRecordFS
        [sample.firstText, sample.otherId] (by decide) (by decide)).1,
      by decide, by decide, by decide⟩⟩

/-- C17: Peek makes the selection of Dequeue without deleting. On every file system
Peek returns a result (a message, or none) exactly when Dequeue on that file system
returns the same result, and fails exactly when Dequeue fails. Peek only reads, so the
queue is as it was and a repeated Peek returns the same. -/
theorem peek_returns_what_dequeue_returns (q : Queue) (fs : FileSystem) :
    (∀ r, q.Peek fs = .ok r ↔ ∃ fs1, q.Dequeue fs = .ok (r, fs1)) ∧
      ((∃ e, q.Peek fs = .error e) ↔ ∃ e, q.Dequeue fs = .error e) := by
  have h := Peek_eq_Dequeue q fs
  cases hp : q.Peek fs with
  | error e =>
    cases hd : q.Dequeue fs with
    | error e2 => simp
    | ok r =>
      rw [hp, hd] at h
      simp [Except.toOption, Except.map] at h
  | ok r =>
    cases hd : q.Dequeue fs with
    | error e2 =>
      rw [hp, hd] at h
      simp [Except.toOption, Except.map] at h
    | ok r2 =>
      rw [hp, hd] at h
      simp only [Except.toOption, Except.map, Option.some.injEq] at h
      obtain ⟨r3, fs3⟩ := r2
      simp only at h
      subst h
      simp

/-- C18: List is a full, ordered, non-destructive snapshot. On a well-formed queue
whose records all parse, to the messages `msgs` in listing order, List returns `msgs`,
as many successive Dequeue calls return exactly these messages in this order and the
next returns none, and Len is the number of messages. List only reads. -/
theorem list_returns_what_dequeues_return (q : Queue) (fs : FileSystem) (msgs : List Message)
    (hwf : q.wellFormed fs = true)
    (hparse : (q.contents fs).map (List.map Prod.snd)
      = .ok (msgs.map (fun m => some (FileData.record m)))) :
    q.ListAll fs = .ok msgs ∧
      q.dequeueTimes fs (msgs.length + 1) = msgs.map (fun m => .ok (some m)) ++ [.ok none] ∧
      q.Len fs = .ok (msgs.length : Int) := by
  have hlist := (ListAll_iff_contents q fs msgs hwf).mpr hparse
  obtain ⟨h1, _, h3⟩ := drain_spec q msgs fs hwf hlist
  refine ⟨hlist, ?_, ?_⟩
  · rw [dequeueTimes_add_one, h1]
    congr 1
    rw [Queue.dequeueTimes, Dequeue_empty q _ h3]
    rfl
  · obtain ⟨d, hd, _, hres⟩ := (wellFormed_iff q fs).mp hwf
    rw [contents_of_dir q fs d hd hres] at hparse
    simp only [Except.map, List.map_map, Except.ok.injEq] at hparse
    have hlen := congrArg List.length hparse
    simp only [List.length_map] at hlen
    unfold Queue.Len
    rw [listFiles_of_dir q fs d hd]
    simp [hlen]

theorem list_returns_what_dequeues_return_witness :
    (sample.testQueue.wellFormed sample.twoRecordFS = true ∧
      (sample.testQueue.contents sample.twoRecordFS).map (List.map Prod.snd)
        = .ok ([sample.firstText, sample.otherId].map (fun m => some (FileData.record m)))) ∧
    (sample.testQueue.ListAll sample.twoRecordFS = .ok [sample.firstText, sample.otherId] ∧
      sample.testQueue.dequeueTimes sample.twoRecordFS
          ([sample.firstText, sample.otherId].length + 1)
        = [sample.firstText, sample.otherId].map (fun m => .ok (some m)) ++ [.ok none] ∧
      sample.testQueue.Len sample.twoRecordFS
        = .ok (([sample.firstText, sample.otherId].length : Nat) : Int)) :=
  ⟨⟨by decide, by decide⟩,
    list_returns_what_dequeues_return sample.testQueue sample.twoRecordFS
      [sample.firstText, sample.otherId] (by decide) (by decide)⟩

end queue

namespace session

/-- C14 fails: the manager state that CreateSession for `agent-a` and SetSessionID
with the token of the bytes `h` and `0xff` leave is saved without error; Save writes
the token coerced to valid UTF-8, so a new manager on the same directory that loads
the snapshot reports for `agent-a` the session_id `h` followed by U+FFFD, which is
not the token the saved state holds. -/
theorem saved_session_id_is_coerced :
    (validUTF8 sample.invalidToken = false ∧
      mapGet (sample.coercedManager.sessions.map
          (fun kv => (toValidUTF8 kv.1, kv.2.SessionID))) "agent-a"
        = some sample.invalidToken) ∧
    (sample.coercedManager.Save sample.emptyStore).1 = none ∧
    (NewManager (sample.coercedManager.Save sample.emptyStore).2 "data/sessions").map
        (fun r => ((r.1.Load r.2).1,
          ((r.1.Load r.2).2.GetSession "agent-a").map (fun s => goString s.SessionID)))
      = .ok (none, .ok [.rune 'h', .rune (Char.ofNat 0xFFFD)]) := by
  decide

/-- C14 as amended: for every state of a manager built from a new manager with
CreateSession, SetSessionID and IncrementTurn calls on agent ids and session ids that
are texts (valid UTF-8), when no directory lies at the path of `sessions.json` and the
created_at and updated_at of every session are times of a year in [0, 9999]: Save
succeeds, a new manager can be constructed on the same directory, its Load succeeds,
and after it GetSession gives for every agent the same result as in the saved state,
so the same agents and for each the same session_id and turn_number. -/
theorem saved_sessions_load_back (st0 st1 : Store) (dir : String) (m0 : Manager)
    (ops : List SessionOp)
    (hnew : NewManager st0 dir = .ok (m0, st1))
    (hfile : st1 ≠ .present .directory)
    (htimes : ∀ kv ∈ (m0.performAll ops).sessions,
      timeWritable kv.2.CreatedAt = true ∧ timeWritable kv.2.UpdatedAt = true) :
    ((m0.performAll ops).Save st1).1 = none ∧
    ∃ m1 st2,
      NewManager ((m0.performAll ops).Save st1).2 dir = .ok (m1, st2) ∧
      m1.sessions = [] ∧
      (m1.Load st2).1 = none ∧
      ∀ agentID,
        (m1.Load st2).2.GetSession agentID = (m0.performAll ops).GetSession agentID := by
  unfold NewManager Store.MkdirAll at hnew
  by_cases hdir : dir = ""
  · rw [if_pos hdir] at hnew
    simp at hnew
  rw [if_neg hdir] at hnew
  have hm0 : m0 = { dir := dir, sessions := [] } := by
    cases st0 <;> simp at hnew <;> exact hnew.1.symm
  obtain ⟨file, hst1⟩ : ∃ file, st1 = .present file := by
    cases st0 with
    | missing => simp at hnew; exact ⟨_, hnew.2.symm⟩
    | blocked => simp at hnew
    | present f => simp at hnew; exact ⟨_, hnew.2.symm⟩
  subst hm0 hst1
  have hf : file ≠ .directory := fun e => hfile (by rw [e])
  have hnd := performAll_keys_nodup ops { dir := dir, sessions := [] } (by simp)
  have hd := performAll_dir ops { dir := dir, sessions := [] }
  simp only at hd
  rw [Save_present _ file hf htimes]
  have hread : ∀ m : Manager, m.dir = dir →
      (Store.present (.content (.object
        ((Manager.performAll { dir := dir, sessions := [] } ops).sessions.map
          (fun kv => (kv.1, kv.2.toGo.toRecord)))))).ReadFile
        (filepathJoin m.dir "sessions.json")
      = .ok (.object
        ((Manager.performAll { dir := dir, sessions := [] } ops).sessions.map
          (fun kv => (kv.1, kv.2.toGo.toRecord)))) := fun _ _ => rfl
  refine ⟨rfl, { dir := dir, sessions := [] },
    .present (.content (.object
        ((Manager.performAll { dir := dir, sessions := [] } ops).sessions.map
          (fun kv => (kv.1, kv.2.toGo.toRecord))))), ?_, rfl, ?_, ?_⟩
  · unfold NewManager Store.MkdirAll
    rw [if_neg hdir]
  · exact (Load_of_read _ _ _ (hread _ rfl)).2
  · intro agentID
    rw [(Load_of_read _ _ _ (hread { dir := dir, sessions := [] } rfl)).1]
    have hstored : (SnapshotData.object
        ((Manager.performAll { dir := dir, sessions := [] } ops).sessions.map
          (fun kv => (kv.1, kv.2.toGo.toRecord)))).stored
        = (Manager.performAll { dir := dir, sessions := [] } ops).sessions := by
      show List.map _ (List.map _ _) = _
      rw [List.map_map]
      conv_rhs => rw [← List.map_id (Manager.performAll { dir := dir, sessions := [] } ops).sessions]
      apply List.map_congr_left
      intro kv _
      simp [Session_record_round_trip]
    rw [hstored, foldl_mapSet_of_nodup _ [] hnd (by simp), List.nil_append]
    rfl

theorem saved_sessions_load_back_witness :
    (NewManager .missing "data/sessions"
        = .ok ({ dir := "data/sessions", sessions := [] }, sample.emptyStore) ∧
      sample.emptyStore ≠ .present .directory ∧
      (∀ kv ∈ (Manager.performAll { dir := "data/sessions", sessions := [] }
          sample.persistenceOps).sessions,
        timeWritable kv.2.CreatedAt = true ∧ timeWritable kv.2.UpdatedAt = true) ∧
      ((Manager.performAll { dir := "data/sessions", sessions := [] }
          sample.persistenceOps).GetSession "agent-a").map
        (fun s => (s.SessionID, s.TurnNumber)) = .ok ("persisted-session", 2)) ∧
    (((Manager.performAll { dir := "data/sessions", sessions := [] }
          sample.persistenceOps).Save sample.emptyStore).1 = none ∧
      ∃ m1 st2,
        NewManager ((Manager.performAll { dir := "data/sessions", sessions := [] }
          sample.persistenceOps).Save sample.emptyStore).2 "data/sessions" = .ok (m1, st2) ∧
        m1.sessions = [] ∧
        (m1.Load st2).1 = none ∧
        ∀ agentID,
          (m1.Load st2).2.GetSession agentID
            = (Manager.performAll { dir := "data/sessions", sessions := [] }
                sample.persistenceOps).GetSession agentID) :=
  ⟨⟨by decide, by decide, by decide, by decide⟩,
    saved_sessions_load_back .missing sample.emptyStore "data/sessions"
      { dir := "data/sessions", sessions := [] } sample.persistenceOps (by decide) (by decide)
      (by decide)⟩

end session

namespace govalue

/-- C13 fails: (1) the message that FromJSON builds from a document whose `metadata`
is the empty object has an empty metadata map that is not nil; ToJSON leaves the
member out (`omitempty`) and FromJSON of the result gives a message whose metadata
map is nil. (2) For a message whose text holds the byte `0xff`, which is not valid
UTF-8, FromJSON(ToJSON(m)) gives a message whose text holds U+FFFD in its place.
(3) For a message whose timestamp lies in the year 10000, ToJSON fails. -/
theorem round_trip_changes_empty_metadata_and_invalid_text :
    (FromJSON (.object
        { id := "id-1", timestamp := 1700000000000000000, sender := "human",
          recipient := "agent-a", kind := "message",
          payload := { text := "hello", metadata := some [] }, context := none })
      = .ok sample.emptyMetadata ∧
      sample.emptyMetadata.Payload.Metadata = some [] ∧
      (sample.emptyMetadata.ToJSON >>= FromJSON).map (fun m => m.Payload.Metadata)
        = .ok none) ∧
    (sample.invalidText.Payload.Text = [.rune 'h', .invalid 255] ∧
      (sample.invalidText.ToJSON >>= FromJSON).map (fun m => m.Payload.Text)
        = .ok [.rune 'h', .rune (Char.ofNat 0xFFFD)]) ∧
    (sample.yearTenThousand.Timestamp = 253402300800 * 10 ^ 9 ∧
      sample.yearTenThousand.ToJSON
        = .error (.msg "Time.MarshalJSON: year outside of range [0,9999]")) := by
  decide

/-- C13 as amended: for every message whose strings are valid UTF-8, whose timestamp
is a time of a year in [0, 9999] and whose metadata map is nil or holds at least one
entry (with or without context), FromJSON(ToJSON(m)) succeeds and yields a message
equal to m in every field: id, timestamp (as an instant), from, to, type,
payload.text, payload.metadata and context (session_id and turn_number). The keys of
the map are pairwise distinct, as those of a map are. -/
theorem valid_message_round_trip (m : Message) (hvalid : m.validText = true)
    (htime : timeWritable m.Timestamp = true)
    (hmeta : m.Payload.Metadata ≠ some [])
    (hkeys : ((m.Payload.Metadata.getD []).map Prod.fst).Nodup) :
    (m.ToJSON >>= FromJSON) = .ok m := by
  obtain ⟨id, ts, src, dst, kind, p, ctx⟩ := m
  unfold Message.validText at hvalid
  simp only [Bool.and_eq_true] at hvalid
  obtain ⟨⟨⟨⟨⟨⟨h1, h2⟩, h3⟩, h4⟩, h5⟩, h6⟩, h7⟩ := hvalid
  simp only at hmeta hkeys htime
  unfold Message.ToJSON
  simp only [htime, if_true]
  show Except.ok (Message.ofRecord (Message.toRecord _)) = _
  unfold Message.toRecord Message.ofRecord
  simp only [goString_toValidUTF8 _ h1, goString_toValidUTF8 _ h2, goString_toValidUTF8 _ h3,
    goString_toValidUTF8 _ h4]
  have hp : Payload.ofRecord p.toRecord = p := by
    apply Payload_round_trip p h5 hmeta
    · intro entries he
      rw [he] at h6
      exact h6
    · intro entries he
      rw [he] at hkeys
      exact hkeys
  have hc : (ctx.map Context.toRecord).map Context.ofRecord = ctx := by
    cases ctx with
    | none => rfl
    | some c =>
      simp only [Option.map_some']
      rw [Context_round_trip c h7]
  rw [hp, hc]

theorem valid_message_round_trip_witness :
    (sample.withBoth.toGo.validText = true ∧
      timeWritable sample.withBoth.toGo.Timestamp = true ∧
      sample.withBoth.toGo.Payload.Metadata
        = some [(goString "cost", goString "0.001000")] ∧
      ((sample.withBoth.toGo.Payload.Metadata.getD []).map Prod.fst).Nodup ∧
      sample.withBoth.toGo.Context
        = some { SessionID := goString "s1", TurnNumber := 1 }) ∧
    (sample.withBoth.toGo.ToJSON >>= FromJSON) = .ok sample.withBoth.toGo :=
  ⟨⟨by decide, by decide, by decide, by decide, by decide⟩,
    valid_message_round_trip sample.withBoth.toGo (by decide) (by decide) (by decide)
      (by decide)⟩

end govalue

namespace broker

open queue session

/-- C15: Inject(asAgent, toAgent, text), when it succeeds, places exactly one new
message into the queue of toAgent: the records held before stay, one record is added,
Len grows by 1, and the added message has type `inject`, from = asAgent, to = toAgent
and payload.text = text. The id and the timestamp given to the message are those of a
new message: the id is the name of no directory (it holds no path separator) and the
file name made of them is not yet in the queue. -/
theorem inject_places_one_message {σ : Type} (b : Broker σ) (id : String) (now : Int)
    (asAgent toAgent text : String) (q : Queue) (qm1 : queue.Manager) (fs1 : FileSystem)
    (files : List String)
    (hq : b.queueMgr.GetQueue b.fs toAgent = .ok (q, qm1, fs1))
    (hwf : q.wellFormed fs1 = true)
    (hpath : splitPath (filepathJoin q.dir
        (fileName (NewMessage id now asAgent toAgent TypeInject text)))
      = (q.dir, fileName (NewMessage id now asAgent toAgent TypeInject text)))
    (hfiles : q.listFiles b.fs = .ok files)
    (hnew : fileName (NewMessage id now asAgent toAgent TypeInject text) ∉ files)
    (hok : (b.Inject id now asAgent toAgent text).1 = none) :
    ∃ msg before after,
      msg.MsgType = TypeInject ∧ msg.From = asAgent ∧ msg.To = toAgent ∧
      msg.Payload.Text = text ∧
      q.contents b.fs = .ok before ∧
      q.contents (b.Inject id now asAgent toAgent text).2.fs = .ok after ∧
      after.Perm ((fileName msg, some (.record msg)) :: before) ∧
      q.Len b.fs = .ok (before.length : Int) ∧
      q.Len (b.Inject id now asAgent toAgent text).2.fs = .ok ((before.length : Int) + 1) := by
  have hg := GetQueue_grown _ _ _ _ _ _ hq
  unfold Broker.Inject at hok ⊢
  obtain ⟨fs2, henq, hfs, _⟩ :=
    SendMessage_ok_inv b (NewMessage id now asAgent toAgent TypeInject text) q qm1 fs1 hq hok
  rw [hfs]
  have hfiles1 : q.listFiles fs1 = .ok files := by rw [listFiles_grown q fs1 b.fs hg, hfiles]
  obtain ⟨before, after, hb, ha, hperm, _, hl1, hl2⟩ :=
    Enqueue_new_name_spec q fs1 fs2 _ files hwf hpath hfiles1 hnew henq
  refine ⟨NewMessage id now asAgent toAgent TypeInject text, before, after, rfl, rfl, rfl, rfl,
    ?_, ha, hperm, ?_, hl2⟩
  · rw [← contents_grown q fs1 b.fs hg]
    exact hb
  · unfold Queue.Len at hl1 ⊢
    rw [← listFiles_grown q fs1 b.fs hg]
    exact hl1

theorem inject_places_one_message_witness :
    (sample.idleTwo.queueMgr.GetQueue sample.idleTwo.fs AgentB
        = .ok (sample.queueB, sample.idleTwo.queueMgr, sample.idleTwo.fs) ∧
      sample.queueB.wellFormed sample.idleTwo.fs = true ∧
      splitPath (filepathJoin sample.queueB.dir
          (fileName (NewMessage "id-1" 1700000000000000002 AgentA AgentB TypeInject "hi")))
        = (sample.queueB.dir,
            fileName (NewMessage "id-1" 1700000000000000002 AgentA AgentB TypeInject "hi")) ∧
      sample.queueB.listFiles sample.idleTwo.fs = .ok [] ∧
      fileName (NewMessage "id-1" 1700000000000000002 AgentA AgentB TypeInject "hi")
        ∉ ([] : List String) ∧
      (sample.idleTwo.Inject "id-1" 1700000000000000002 AgentA AgentB "hi").1 = none) ∧
    ∃ msg before after,
      msg.MsgType = TypeInject ∧ msg.From = AgentA ∧ msg.To = AgentB ∧
      msg.Payload.Text = "hi" ∧
      sample.queueB.contents sample.idleTwo.fs = .ok before ∧
      sample.queueB.contents
          (sample.idleTwo.Inject "id-1" 1700000000000000002 AgentA AgentB "hi").2.fs
        = .ok after ∧
      after.Perm ((fileName msg, some (.record msg)) :: before) ∧
      sample.queueB.Len sample.idleTwo.fs = .ok (before.length : Int) ∧
      sample.queueB.Len
          (sample.idleTwo.Inject "id-1" 1700000000000000002 AgentA AgentB "hi").2.fs
        = .ok ((before.length : Int) + 1) :=
  ⟨⟨by decide, by decide, by decide, by decide, by decide, by decide⟩,
    inject_places_one_message sample.idleTwo "id-1" 1700000000000000002 AgentA AgentB "hi"
      sample.queueB sample.idleTwo.queueMgr sample.idleTwo.fs []
      (by decide) (by decide) (by decide) (by decide) (by decide) (by decide)⟩

/-- C16 (error isolation within a tick): in one pass of Run, ProcessNext is attempted
once for every registered agent in registration order, and for every agent, whatever
the result of its attempt, the agents registered after it are attempted on the broker
that attempt left. The callbacks are called for the results in that order and for
nothing else: the error handler (when set) with the agent id and the error for every
attempt that failed, and the response handler (when set) with the response of every
attempt that returned one. -/
theorem tick_attempts_every_agent {σ : Type} (b : Broker σ) (hasHandler hasErrorHandler : Bool)
    (env : Nat → TurnInputs) (pre post : List String) (agent : String)
    (hagents : b.agents = pre ++ agent :: post) :
    (b.tick hasHandler hasErrorHandler env).attempts.map Prod.fst = b.agents ∧
    (b.tick hasHandler hasErrorHandler env).attempts
      = (Broker.runPass hasHandler hasErrorHandler env b 0 pre).attempts
        ++ (agent, ((Broker.runPass hasHandler hasErrorHandler env b 0 pre).broker.ProcessNext
              (env pre.length) agent).1)
        :: (Broker.runPass hasHandler hasErrorHandler env
              ((Broker.runPass hasHandler hasErrorHandler env b 0 pre).broker.ProcessNext
                (env pre.length) agent).2 (pre.length + 1) post).attempts ∧
    ((Broker.runPass hasHandler hasErrorHandler env
        ((Broker.runPass hasHandler hasErrorHandler env b 0 pre).broker.ProcessNext
          (env pre.length) agent).2 (pre.length + 1) post).attempts.map Prod.fst = post) ∧
    (b.tick hasHandler hasErrorHandler env).calls
      = ((b.tick hasHandler hasErrorHandler env).attempts.map
          (fun p =>
            match p.2 with
            | .error err => if hasErrorHandler then [HandlerCall.errorHandler p.1 err] else []
            | .ok (some resp) => if hasHandler then [HandlerCall.handler resp] else []
            | .ok none => [])).flatten ∧
    (∀ a err, (a, .error err) ∈ (b.tick hasHandler hasErrorHandler env).attempts →
      hasErrorHandler = true →
      HandlerCall.errorHandler a err ∈ (b.tick hasHandler hasErrorHandler env).calls) ∧
    (∀ a resp, (a, .ok (some resp)) ∈ (b.tick hasHandler hasErrorHandler env).attempts →
      hasHandler = true →
      HandlerCall.handler resp ∈ (b.tick hasHandler hasErrorHandler env).calls) ∧
    (∀ c ∈ (b.tick hasHandler hasErrorHandler env).calls,
      (∃ a err, c = .errorHandler a err ∧ hasErrorHandler = true ∧
        (a, .error err) ∈ (b.tick hasHandler hasErrorHandler env).attempts) ∨
      (∃ a resp, c = .handler resp ∧ hasHandler = true ∧
        (a, .ok (some resp)) ∈ (b.tick hasHandler hasErrorHandler env).attempts)) := by
  have happ := runPass_append hasHandler hasErrorHandler env pre (agent :: post) b 0
  simp only [Nat.zero_add] at happ
  have hatt : (b.tick hasHandler hasErrorHandler env).attempts
      = (Broker.runPass hasHandler hasErrorHandler env b 0 pre).attempts
        ++ (agent, ((Broker.runPass hasHandler hasErrorHandler env b 0 pre).broker.ProcessNext
              (env pre.length) agent).1)
        :: (Broker.runPass hasHandler hasErrorHandler env
              ((Broker.runPass hasHandler hasErrorHandler env b 0 pre).broker.ProcessNext
                (env pre.length) agent).2 (pre.length + 1) post).attempts := by
    unfold Broker.tick
    rw [hagents, happ.1]
    rfl
  have hcalls : (b.tick hasHandler hasErrorHandler env).calls
      = ((b.tick hasHandler hasErrorHandler env).attempts.map
          (fun p =>
            match p.2 with
            | .error err => if hasErrorHandler then [HandlerCall.errorHandler p.1 err] else []
            | .ok (some resp) => if hasHandler then [HandlerCall.handler resp] else []
            | .ok none => [])).flatten := by
    have hc : (b.tick hasHandler hasErrorHandler env).calls
        = ((b.tick hasHandler hasErrorHandler env).attempts.map
            (fun p => handlerCalls hasHandler hasErrorHandler p.1 p.2)).flatten := by
      unfold Broker.tick
      exact runPass_calls _ _ _ _ _ _
    rw [hc]
    rfl
  refine ⟨?_, hatt, runPass_agents _ _ _ _ _ _, hcalls, ?_, ?_, ?_⟩
  · unfold Broker.tick
    exact runPass_agents _ _ _ _ _ _
  · intro a err hmem hset
    rw [hcalls, List.mem_flatten]
    exact ⟨_, List.mem_map.mpr ⟨(a, .error err), hmem, rfl⟩, by simp [hset]⟩
  · intro a resp hmem hset
    rw [hcalls, List.mem_flatten]
    exact ⟨_, List.mem_map.mpr ⟨(a, .ok (some resp)), hmem, rfl⟩, by simp [hset]⟩
  · intro c hc
    rw [hcalls, List.mem_flatten] at hc
    obtain ⟨l, hl, hcl⟩ := hc
    obtain ⟨p, hp, hpl⟩ := List.mem_map.mp hl
    obtain ⟨a, r⟩ := p
    subst hpl
    cases r with
    | error err =>
      simp only at hcl
      by_cases hset : hasErrorHandler = true
      · rw [if_pos hset, List.mem_singleton] at hcl
        exact Or.inl ⟨a, err, hcl, hset, hp⟩
      · rw [if_neg hset] at hcl
        cases hcl
    | ok o =>
      cases o with
      | none => simp only at hcl; cases hcl
      | some resp =>
        simp only at hcl
        by_cases hset : hasHandler = true
        · rw [if_pos hset, List.mem_singleton] at hcl
          exact Or.inr ⟨a, resp, hcl, hset, hp⟩
        · rw [if_neg hset] at hcl
          cases hcl

theorem tick_attempts_every_agent_witness :
    (sample.firstFails.agents = [] ++ AgentA :: [AgentB] ∧
      (sample.firstFails.tick true true sample.passEnv).attempts
        = [(AgentA, .error (.wrap "failed to execute" (.exec "claude command failed"))),
           (AgentB, .ok (some
              { ID := "id-r", Timestamp := 1700000000000000022, From := "agent-b", To := "human",
                MsgType := "message",
                Payload := { Text := "ok", Metadata := [("cost", "0.001000")] },
                Context := some { SessionID := "s1", TurnNumber := 2 } }))] ∧
      (sample.firstFails.tick true true sample.passEnv).calls
        = [.errorHandler AgentA (.wrap "failed to execute" (.exec "claude command failed")),
           .handler
              { ID := "id-r", Timestamp := 1700000000000000022, From := "agent-b", To := "human",
                MsgType := "message",
                Payload := { Text := "ok", Metadata := [("cost", "0.001000")] },
                Context := some { SessionID := "s1", TurnNumber := 2 } }]) ∧
    ((sample.firstFails.tick true true sample.passEnv).attempts.map Prod.fst
        = sample.firstFails.agents ∧
      (∀ a err, (a, .error err) ∈ (sample.firstFails.tick true true sample.passEnv).attempts →
        true = true →
        HandlerCall.errorHandler a err ∈ (sample.firstFails.tick true true sample.passEnv).calls) ∧
      (∀ a resp,
        (a, .ok (some resp)) ∈ (sample.firstFails.tick true true sample.passEnv).attempts →
        true = true →
        HandlerCall.handler resp ∈ (sample.firstFails.tick true true sample.passEnv).calls)) :=
  ⟨⟨by decide, by decide, by decide⟩,
    (tick_attempts_every_agent sample.firstFails true true sample.passEnv [] [AgentB] AgentA
      (by decide)).1,
    (tick_attempts_every_agent sample.firstFails true true sample.passEnv [] [AgentB] AgentA
      (by decide)).2.2.2.2.1,
    (tick_attempts_every_agent sample.firstFails true true sample.passEnv [] [AgentB] AgentA
      (by decide)).2.2.2.2.2.1⟩

end broker

namespace broker

open queue session

/-- C21 fails: the queue directory holds a regular file named `agent-a`, so
InitializeAgent for `agent-a` fails when it provisions the queue; (1) on a broker
without a session for the agent, the session manager holds a newly installed session
afterwards; (2) on a broker whose session of the agent has the token `s1` and three
turns, that session is reset to the empty token and turn 0. -/
theorem failed_initialize_keeps_the_new_session :
    ((sample.blockedBroker.InitializeAgent AgentA 1700000000000000000).1
        = some (.wrap "failed to create queue for agent-a"
            (.wrap "failed to create queue for agent-a" (.os "data/queues/agent-a"))) ∧
      sample.blockedBroker.sessionMgr.GetSession AgentA
        = .error (.msg "session not found for agent: agent-a") ∧
      (sample.blockedBroker.InitializeAgent AgentA 1700000000000000000).2.sessionMgr.GetSession
          AgentA
        = .ok (session.Session.mk "agent-a" "" 0 1700000000000000000 1700000000000000000)) ∧
    ((sample.blockedWithSession.InitializeAgent AgentA 1700000000000000000).1
        = some (.wrap "failed to create queue for agent-a"
            (.wrap "failed to create queue for agent-a" (.os "data/queues/agent-a"))) ∧
      sample.blockedWithSession.sessionMgr.GetSession AgentA
        = .ok (session.Session.mk "agent-a" "s1" 3 1 2) ∧
      (sample.blockedWithSession.InitializeAgent AgentA 1700000000000000000).2.sessionMgr.GetSession
          AgentA
        = .ok (session.Session.mk "agent-a" "" 0 1700000000000000000 1700000000000000000)) := by
  decide

/-- C21 as amended: if InitializeAgent(agentId) fails, the registered-agent list, the
queue manager, the file system and the sessions of the other agents are unchanged,
and the session manager holds for agentId the fresh session that CreateSession
installed before the queue was provisioned (empty session_id, turn_number 0), in
place of any session agentId had. -/
theorem failed_initialize_leaves_only_the_session {σ : Type} (b : Broker σ) (agentID : String)
    (now : Int) (e : Error) (h : (b.InitializeAgent agentID now).1 = some e) :
    (b.InitializeAgent agentID now).2.agents = b.agents ∧
    (b.InitializeAgent agentID now).2.queueMgr = b.queueMgr ∧
    (b.InitializeAgent agentID now).2.fs = b.fs ∧
    (b.InitializeAgent agentID now).2.sessionMgr.GetSession agentID
      = .ok { AgentID := agentID, SessionID := "", TurnNumber := 0, CreatedAt := now,
              UpdatedAt := now } ∧
    ∀ other, other ≠ agentID →
      (b.InitializeAgent agentID now).2.sessionMgr.GetSession other
        = b.sessionMgr.GetSession other := by
  rw [InitializeAgent_error b agentID now e h]
  refine ⟨rfl, rfl, rfl, ?_, ?_⟩
  · unfold session.Manager.GetSession
    simp only [mapGet_mapSet_self]
  · intro other hne
    unfold session.Manager.GetSession
    simp only [mapGet_mapSet_ne _ _ _ _ hne]

theorem failed_initialize_leaves_only_the_session_witness :
    (sample.blockedBroker.InitializeAgent AgentA 1700000000000000000).1
        = some (.wrap "failed to create queue for agent-a"
            (.wrap "failed to create queue for agent-a" (.os "data/queues/agent-a"))) ∧
    ((sample.blockedBroker.InitializeAgent AgentA 1700000000000000000).2.agents
        = sample.blockedBroker.agents ∧
      (sample.blockedBroker.InitializeAgent AgentA 1700000000000000000).2.queueMgr
        = sample.blockedBroker.queueMgr ∧
      (sample.blockedBroker.InitializeAgent AgentA 1700000000000000000).2.fs
        = sample.blockedBroker.fs ∧
      (sample.blockedBroker.InitializeAgent AgentA
          1700000000000000000).2.sessionMgr.GetSession AgentA
        = .ok { AgentID := AgentA, SessionID := "", TurnNumber := 0,
                CreatedAt := 1700000000000000000, UpdatedAt := 1700000000000000000 } ∧
      ∀ other, other ≠ AgentA →
        (sample.blockedBroker.InitializeAgent AgentA
            1700000000000000000).2.sessionMgr.GetSession other
          = sample.blockedBroker.sessionMgr.GetSession other) :=
  ⟨by decide,
    failed_initialize_leaves_only_the_session sample.blockedBroker AgentA 1700000000000000000
      (.wrap "failed to create queue for agent-a"
        (.wrap "failed to create queue for agent-a" (.os "data/queues/agent-a")))
      (by decide)⟩

/-- C22: BuildArgs(sessionID, message, isNew) returns exactly
`-p message --output-format json --max-turns 1` when isNew is true, whatever the
session id (no `--resume` argument is produced), and exactly
`--resume sessionID -p message --output-format json --max-turns 1` when isNew is
false. -/
theorem build_args_exact (e : ClaudeExecutor) (sessionID message : String) :
    e.BuildArgs sessionID message true
      = ["-p", message, "--output-format", "json", "--max-turns", "1"] ∧
    e.BuildArgs sessionID message false
      = ["--resume", sessionID, "-p", message, "--output-format", "json", "--max-turns", "1"] :=
  ⟨rfl, rfl⟩

/-- C24 fails for an agent id that names the directory of another one: `agent-a/` is
another agent id than `agent-a`, and `filepath.Join` gives both the queue directory
`data/queues/agent-a`. A message from `agent-a/` is queued for `agent-a`; the queue
that GetQueue returns for `agent-a/`, the addressee of the response, holds one record
before the successful ProcessNext for `agent-a` and none after it. -/
theorem process_next_takes_from_the_queue_of_an_alias :
    "agent-a/" ≠ AgentA ∧
    (sample.aliasBroker.ProcessNext sample.helloTurn AgentA).1
      = .ok (some sample.aliasResponse) ∧
    sample.aliasResponse.To = "agent-a/" ∧
    (sample.aliasBroker.queueMgr.GetQueue sample.aliasBroker.fs "agent-a/").map
        (fun r => (r.1, r.1.Len r.2.2)) = .ok (sample.queueA, .ok 1) ∧
    ((sample.aliasBroker.ProcessNext sample.helloTurn AgentA).2.queueMgr.GetQueue
        (sample.aliasBroker.ProcessNext sample.helloTurn AgentA).2.fs "agent-a/").map
        (fun r => (r.1, r.1.Len r.2.2)) = .ok (sample.queueA, .ok 0) := by
  decide

/-- C24 as amended: after a successful ProcessNext(agentId) that returns a response,
the queue of agentId is its previous contents minus the head, and every queue kept
in another directory (well-formed, or listing nothing, as the queue of an agent whose
directory does not exist yet) is unchanged: its contents, List and Len are what they
were. No queue gains a record. -/
theorem response_is_not_enqueued {σ : Type} (b : Broker σ) (inp : TurnInputs)
    (agentID : String) (resp : Message) (q : Queue) (qm1 : queue.Manager) (fs1 : FileSystem)
    (hq : b.queueMgr.GetQueue b.fs agentID = .ok (q, qm1, fs1))
    (hwf : q.wellFormed b.fs = true)
    (h : (b.ProcessNext inp agentID).1 = .ok (some resp)) :
    (∃ name msg rest, q.contents b.fs = .ok ((name, some (.record msg)) :: rest) ∧
      q.contents (b.ProcessNext inp agentID).2.fs = .ok rest) ∧
    ∀ q2 : Queue, q2.dir ≠ q.dir →
      (q2.wellFormed b.fs = true ∨ q2.listFiles b.fs = .ok []) →
      q2.contents (b.ProcessNext inp agentID).2.fs = q2.contents b.fs ∧
      q2.ListAll (b.ProcessNext inp agentID).2.fs = q2.ListAll b.fs ∧
      q2.Len (b.ProcessNext inp agentID).2.fs = q2.Len b.fs := by
  obtain ⟨q0, qm0, fs0, fs2, msg, sess, result, st1, h1, h2, h3, h4⟩ :=
    ProcessNext_some_inv b inp agentID resp h
  rw [hq] at h1
  simp only [Except.ok.injEq, Prod.mk.injEq] at h1
  obtain ⟨hq0, hqm0, hfs0⟩ := h1
  subst hq0 hqm0 hfs0
  have hfs : (b.ProcessNext inp agentID).2.fs = fs2 := by
    rw [ProcessNext_ok b inp agentID q qm1 fs1 fs2 msg sess result st1 hq h2 h3 h4]
  rw [hfs]
  have hg := GetQueue_grown _ _ _ _ _ _ hq
  have hwf1 : q.wellFormed fs1 = true := wellFormed_grown q fs1 b.fs hg hwf
  constructor
  · obtain ⟨_, n, rest, hc1, hc2⟩ := Dequeue_some_contents q fs1 fs2 msg hwf1 h2
    refine ⟨n, msg, rest, ?_, hc2⟩
    rw [← contents_grown q fs1 b.fs hg]
    exact hc1
  · intro q2 hne hq2
    rcases hq2 with hwf2 | hnil
    · have hwf21 : q2.wellFormed fs1 = true := wellFormed_grown q2 fs1 b.fs hg hwf2
      obtain ⟨_, _, hc, hl, hn⟩ := frame_of_same_dir q2 fs1 fs2 hwf21
        (Dequeue_frame q fs1 fs2 (some msg) hwf1 h2 q2.dir hne)
      refine ⟨?_, ?_, ?_⟩
      · rw [hc, contents_grown q2 fs1 b.fs hg]
      · rw [hl, ListAll_grown q2 fs1 b.fs hg hwf2]
      · rw [hn]
        unfold Queue.Len
        rw [listFiles_grown q2 fs1 b.fs hg]
    · obtain ⟨d, n, ns, hd, _, _, hfs2⟩ := Dequeue_some_spec q fs1 fs2 msg hwf1 h2
      have hnil1 : q2.listFiles fs1 = .ok [] := by rw [listFiles_grown q2 fs1 b.fs hg, hnil]
      have hnil2 : q2.listFiles fs2 = .ok [] := by
        rw [hfs2]
        exact listFiles_nil_after_removal q2 fs1 q.dir n d hd hne hnil1
      obtain ⟨a1, a2, a3⟩ := observations_of_listFiles_nil q2 b.fs hnil
      obtain ⟨b1, b2, b3⟩ := observations_of_listFiles_nil q2 fs2 hnil2
      exact ⟨b1.trans a1.symm, b2.trans a2.symm, b3.trans a3.symm⟩

theorem response_is_not_enqueued_witness :
    (sample.helloBroker.queueMgr.GetQueue sample.helloBroker.fs AgentA
        = .ok (sample.queueA, sample.helloBroker.queueMgr, sample.helloBroker.fs) ∧
      sample.queueA.wellFormed sample.helloBroker.fs = true ∧
      (sample.helloBroker.ProcessNext sample.helloTurn AgentA).1
        = .ok (some sample.helloResponse) ∧
      sample.helloResponse.To = Human ∧
      sample.queueHuman.dir ≠ sample.queueA.dir ∧
      sample.queueHuman.listFiles sample.helloBroker.fs = .ok []) ∧
    (sample.queueHuman.contents (sample.helloBroker.ProcessNext sample.helloTurn AgentA).2.fs
        = sample.queueHuman.contents sample.helloBroker.fs ∧
      sample.queueHuman.ListAll (sample.helloBroker.ProcessNext sample.helloTurn AgentA).2.fs
        = sample.queueHuman.ListAll sample.helloBroker.fs ∧
      sample.queueHuman.Len (sample.helloBroker.ProcessNext sample.helloTurn AgentA).2.fs
        = sample.queueHuman.Len sample.helloBroker.fs) :=
  ⟨⟨by decide, by decide, by decide, by decide, by decide, by decide⟩,
    (response_is_not_enqueued sample.helloBroker sample.helloTurn AgentA sample.helloResponse
      sample.queueA sample.helloBroker.queueMgr sample.helloBroker.fs
      (by decide) (by decide) (by decide)).2 sample.queueHuman (by decide)
      (Or.inr (by decide))⟩

/-- C27: when ProcessNext dequeues a message m for an agent with a session, it invokes
the Executor exactly once, with the current session_id of the session, with the
payload text of m, and with isNew true exactly when that session_id is the empty
string: run with an executor that records its calls, the call adds exactly this one
call to the record, and returns and leaves what it does without the record. -/
theorem executor_called_once_for_dequeued_message {σ : Type} (b : Broker σ) (inp : TurnInputs)
    (agentID : String) (calls : List ExecuteCall) (q : queue.Queue) (qm1 : queue.Manager)
    (fs1 fs2 : FileSystem) (msg : Message) (sess : session.Session)
    (hq : b.queueMgr.GetQueue b.fs agentID = .ok (q, qm1, fs1))
    (hd : q.Dequeue fs1 = .ok (some msg, fs2))
    (hs : b.sessionMgr.GetSession agentID = .ok sess) :
    (∃ isNew : Bool, (isNew = true ↔ sess.SessionID = "") ∧
      ((b.recorded calls).ProcessNext inp agentID).2.execState.2
        = calls ++ [ExecuteCall.mk sess.SessionID msg.Payload.Text isNew]) ∧
    ((b.recorded calls).ProcessNext inp agentID).1 = (b.ProcessNext inp agentID).1 ∧
    ((b.recorded calls).ProcessNext inp agentID).2.execState.1
      = (b.ProcessNext inp agentID).2.execState ∧
    ((b.recorded calls).ProcessNext inp agentID).2.sessionMgr
      = (b.ProcessNext inp agentID).2.sessionMgr ∧
    ((b.recorded calls).ProcessNext inp agentID).2.fs = (b.ProcessNext inp agentID).2.fs := by
  have hq2 : (b.recorded calls).queueMgr.GetQueue (b.recorded calls).fs agentID
      = .ok (q, qm1, fs1) := hq
  have hs2 : (b.recorded calls).sessionMgr.GetSession agentID = .ok sess := hs
  cases hx : b.executor.Execute b.execState sess.SessionID msg.Payload.Text (sess.SessionID == "")
    with
  | mk r st1 =>
    have hx2 : (b.recorded calls).executor.Execute (b.recorded calls).execState sess.SessionID
        msg.Payload.Text (sess.SessionID == "")
        = (r, (st1, calls ++ [ExecuteCall.mk sess.SessionID msg.Payload.Text
            (sess.SessionID == "")])) := by
      simp only [Broker.recorded, Executor.recording, hx]
    cases r with
    | error e =>
      rw [ProcessNext_exec_error b inp agentID q qm1 fs1 fs2 msg sess e st1 hq hd hs hx,
        ProcessNext_exec_error (b.recorded calls) inp agentID q qm1 fs1 fs2 msg sess e _
          hq2 hd hs2 hx2]
      exact ⟨⟨sess.SessionID == "", beq_iff_eq, rfl⟩, rfl, rfl, rfl, rfl⟩
    | ok result =>
      rw [ProcessNext_ok b inp agentID q qm1 fs1 fs2 msg sess result st1 hq hd hs hx,
        ProcessNext_ok (b.recorded calls) inp agentID q qm1 fs1 fs2 msg sess result _
          hq2 hd hs2 hx2]
      exact ⟨⟨sess.SessionID == "", beq_iff_eq, rfl⟩, rfl, rfl, rfl, rfl⟩

theorem executor_called_once_for_dequeued_message_witness :
    (sample.helloBroker.queueMgr.GetQueue sample.helloBroker.fs AgentA
        = .ok (sample.queueA, sample.helloBroker.queueMgr, sample.helloBroker.fs) ∧
      sample.queueA.Dequeue sample.helloBroker.fs = .ok (some sample.hello, sample.drainedFS) ∧
      sample.helloBroker.sessionMgr.GetSession AgentA = .ok sample.freshSessionA) ∧
    ∃ isNew : Bool, (isNew = true ↔ sample.freshSessionA.SessionID = "") ∧
      ((sample.helloBroker.recorded []).ProcessNext sample.helloTurn AgentA).2.execState.2
        = [] ++ [ExecuteCall.mk sample.freshSessionA.SessionID sample.hello.Payload.Text isNew] :=
  ⟨⟨by decide, by decide, by decide⟩,
    (executor_called_once_for_dequeued_message sample.helloBroker sample.helloTurn AgentA []
      sample.queueA sample.helloBroker.queueMgr sample.helloBroker.fs sample.drainedFS
      sample.hello sample.freshSessionA (by decide) (by decide) (by decide)).1⟩

end broker

namespace queue

/-- C25 fails: the messages with the keys (5, `x`) and (5, `a/../5_x`) are both
enqueued into the empty test queue without error; `filepath.Join` gives the files of
both the path `data/queues/test/5_x.json`, so the second replaces the first, and the
next Dequeue calls return the second message and then none: the first is lost. -/
theorem distinct_keys_can_share_a_file :
    (sample.plainId.Timestamp, sample.plainId.ID)
      ≠ (sample.dotDotId.Timestamp, sample.dotDotId.ID) ∧
    sample.testQueue.listFiles sample.emptyTestFS = .ok [] ∧
    (sample.testQueue.enqueueAll sample.emptyTestFS [sample.plainId, sample.dotDotId]).map
        (fun fs => sample.testQueue.dequeueTimes fs 3)
      = .ok [.ok (some sample.dotDotId), .ok none, .ok none] := by
  decide

/-- C25 as amended: for every n messages with pairwise distinct (timestamp, id) keys
whose files lie directly in the directory of the queue (no id leaves it through a
path separator), enqueued into an empty well-formed queue, the next n Dequeue calls
return each enqueued message exactly once (their results are a permutation of the
enqueued messages) and the (n+1)-th Dequeue returns none. -/
theorem distinct_keys_are_dequeued_exactly_once (q : Queue) (fs fs1 : FileSystem)
    (msgs : List Message)
    (hwf : q.wellFormed fs = true) (hempty : q.listFiles fs = .ok [])
    (hkeys : (msgs.map (fun m => (m.Timestamp, m.ID))).Nodup)
    (hpath : ∀ m ∈ msgs, splitPath (filepathJoin q.dir (fileName m)) = (q.dir, fileName m))
    (henq : q.enqueueAll fs msgs = .ok fs1) :
    ∃ order : List Message, order.Perm msgs ∧
      q.dequeueTimes fs1 (msgs.length + 1)
        = order.map (fun m => .ok (some m)) ++ [.ok none] := by
  have hnames : (msgs.map fileName).Nodup := by
    have hinj : ∀ a ∈ msgs, ∀ b ∈ msgs, fileName a = fileName b →
        (a.Timestamp, a.ID) = (b.Timestamp, b.ID) := by
      intro a _ b _ hab
      obtain ⟨h1, h2⟩ := fileName_injective a b hab
      rw [h1, h2]
    clear hpath henq
    induction msgs with
    | nil => exact List.nodup_nil
    | cons a rest ih =>
      rw [List.map_cons, List.nodup_cons] at hkeys ⊢
      refine ⟨?_, ih hkeys.2 (fun x hx y hy => hinj x (List.mem_cons_of_mem a hx) y
        (List.mem_cons_of_mem a hy))⟩
      intro hmem
      obtain ⟨b, hb, hbe⟩ := List.mem_map.mp hmem
      apply hkeys.1
      rw [hinj a (List.mem_cons_self a rest) b (List.mem_cons_of_mem a hb) hbe.symm]
      exact List.mem_map_of_mem (fun m => (m.Timestamp, m.ID)) hb
  have hcur : q.ListAll fs = .ok [] := (observations_of_listFiles_nil q fs hempty).2.1
  obtain ⟨hwf1, all, hall, hperm⟩ := enqueueAll_spec q msgs fs fs1 [] hwf hcur hpath hnames
    (by
      intro files hf m _ hmem
      rw [hempty] at hf
      simp only [Except.ok.injEq] at hf
      subst hf
      cases hmem)
    henq
  rw [List.nil_append] at hperm
  obtain ⟨hd, _, hnil⟩ := drain_spec q all fs1 hwf1 hall
  refine ⟨all, hperm, ?_⟩
  rw [← hperm.length_eq, dequeueTimes_add_one, hd]
  congr 1
  exact (dequeueTimes_succ q _ _ none 0 (Dequeue_empty q _ hnil)).1

theorem distinct_keys_are_dequeued_exactly_once_witness :
    (sample.testQueue.wellFormed sample.emptyTestFS = true ∧
      sample.testQueue.listFiles sample.emptyTestFS = .ok [] ∧
      ([sample.otherId, sample.firstText].map (fun m => (m.Timestamp, m.ID))).Nodup ∧
      (∀ m ∈ [sample.otherId, sample.firstText],
        splitPath (filepathJoin sample.testQueue.dir (fileName m))
          = (sample.testQueue.dir, fileName m)) ∧
      sample.testQueue.enqueueAll sample.emptyTestFS [sample.otherId, sample.firstText]
        = .ok sample.enqueuedTwoFS ∧
      sample.testQueue.dequeueTimes sample.enqueuedTwoFS 3
        = [.ok (some sample.firstText), .ok (some sample.otherId), .ok none]) ∧
    ∃ order : List Message, order.Perm [sample.otherId, sample.firstText] ∧
      sample.testQueue.dequeueTimes sample.enqueuedTwoFS
          ([sample.otherId, sample.firstText].length + 1)
        = order.map (fun m => .ok (some m)) ++ [.ok none] :=
  ⟨⟨by decide, by decide, by decide, by decide, by decide, by decide⟩,
    distinct_keys_are_dequeued_exactly_once sample.testQueue sample.emptyTestFS
      sample.enqueuedTwoFS [sample.otherId, sample.firstText]
      (by decide) (by decide) (by decide) (by decide) (by decide)⟩

/-- C26 fails: (1) for the distinct agent ids `agent-a` and `agent-a/` GetQueue
returns queues over the one directory `data/queues/agent-a`, so an Enqueue on the
first makes Len of the second 1 and its List the message, and a Dequeue or a Clear
on the first makes it 0 again; (2) for the agent ids `agent-a` and `agent-a/7_x`,
whose directories differ, the Enqueue on the queue of `agent-a` of a message with the
id `x/y` and timestamp 7 puts the record into the queue of `agent-a/7_x`. -/
theorem agent_ids_can_share_a_queue_directory :
    (AgentA ≠ "agent-a/" ∧
      (sample.idleBroker.queueMgr.GetQueue sample.idleBroker.fs AgentA).map (fun r => r.1)
        = .ok { dir := "data/queues/agent-a" } ∧
      (sample.idleBroker.queueMgr.GetQueue sample.idleBroker.fs "agent-a/").map
          (fun r => (r.1, r.2.2)) = .ok ({ dir := "data/queues/agent-a" }, sample.idleBroker.fs) ∧
      sample.queueA.Len sample.idleBroker.fs = .ok 0 ∧
      sample.queueA.Enqueue sample.idleBroker.fs sample.hello = .ok sample.helloBroker.fs ∧
      sample.queueA.Len sample.helloBroker.fs = .ok 1 ∧
      sample.queueA.ListAll sample.helloBroker.fs = .ok [sample.hello] ∧
      sample.queueA.Dequeue sample.helloBroker.fs = .ok (some sample.hello, sample.drainedFS) ∧
      (sample.queueA.Clear sample.helloBroker.fs) = (none, sample.drainedFS) ∧
      sample.queueA.Len sample.drainedFS = .ok 0) ∧
    (AgentA ≠ "agent-a/7_x" ∧
      ({ baseDir := "data/queues", queues := [] } : Manager).GetQueue sample.nestedFS AgentA
        = .ok (sample.queueA, { baseDir := "data/queues", queues := [(AgentA, sample.queueA)] },
            sample.nestedFS) ∧
      ({ baseDir := "data/queues", queues := [] } : Manager).GetQueue sample.nestedFS "agent-a/7_x"
        = .ok (sample.queueNested,
            { baseDir := "data/queues", queues := [("agent-a/7_x", sample.queueNested)] },
            sample.nestedFS) ∧
      sample.queueNested.Len sample.nestedFS = .ok 0 ∧
      (sample.queueA.Enqueue sample.nestedFS sample.slashId).map
          (fun fs => (sample.queueNested.Len fs, sample.queueNested.ListAll fs))
        = .ok (.ok 1, .ok [sample.slashId])) := by
  decide

/-- C26 as amended: for two agent ids a and b whose queues, as returned by GetQueue,
lie in different directories (the ids are then different) and are well-formed, an
Enqueue on the queue of a of a message whose file lies directly in its directory, a
Dequeue on it and a Clear on it leave the contents, List and Len of the queue of b
unchanged. -/
theorem queues_in_different_directories_are_independent (m m1 m2 : Manager)
    (fs0 fs1 fs : FileSystem) (a b : String) (qa qb : Queue)
    (ha : m.GetQueue fs0 a = .ok (qa, m1, fs1)) (hb : m1.GetQueue fs1 b = .ok (qb, m2, fs))
    (hdir : qa.dir ≠ qb.dir)
    (hwfa : qa.wellFormed fs = true) (hwfb : qb.wellFormed fs = true) :
    a ≠ b ∧
    (∀ msg fs2, splitPath (filepathJoin qa.dir (fileName msg)) = (qa.dir, fileName msg) →
      qa.Enqueue fs msg = .ok fs2 →
      qb.ListAll fs2 = qb.ListAll fs ∧ qb.Len fs2 = qb.Len fs ∧
        qb.contents fs2 = qb.contents fs) ∧
    (∀ r fs2, qa.Dequeue fs = .ok (r, fs2) →
      qb.ListAll fs2 = qb.ListAll fs ∧ qb.Len fs2 = qb.Len fs ∧
        qb.contents fs2 = qb.contents fs) ∧
    (qb.ListAll (qa.Clear fs).2 = qb.ListAll fs ∧ qb.Len (qa.Clear fs).2 = qb.Len fs ∧
      qb.contents (qa.Clear fs).2 = qb.contents fs) := by
  refine ⟨?_, ?_, ?_, ?_⟩
  · intro hab
    subst hab
    rw [GetQueue_cached m m1 fs0 fs1 fs1 a qa ha] at hb
    simp only [Except.ok.injEq, Prod.mk.injEq] at hb
    exact hdir (congrArg Queue.dir hb.1)
  · intro msg fs2 hpath henq
    obtain ⟨_, _, hc, hl, hn⟩ := frame_of_same_dir qb fs fs2 hwfb
      (Enqueue_frame qa fs fs2 msg hpath henq qb.dir (Ne.symm hdir))
    exact ⟨hl, hn, hc⟩
  · intro r fs2 hdq
    obtain ⟨_, _, hc, hl, hn⟩ := frame_of_same_dir qb fs fs2 hwfb
      (Dequeue_frame qa fs fs2 r hwfa hdq qb.dir (Ne.symm hdir))
    exact ⟨hl, hn, hc⟩
  · obtain ⟨_, _, hc, hl, hn⟩ := frame_of_same_dir qb fs (qa.Clear fs).2 hwfb
      (Clear_frame qa fs hwfa qb.dir (Ne.symm hdir))
    exact ⟨hl, hn, hc⟩

theorem queues_in_different_directories_are_independent_witness :
    (sample.twoAgents.queueMgr.GetQueue sample.twoAgents.fs AgentA
        = .ok (sample.queueA, sample.twoAgents.queueMgr, sample.twoAgents.fs) ∧
      sample.twoAgents.queueMgr.GetQueue sample.twoAgents.fs AgentB
        = .ok (sample.queueB, sample.twoAgents.queueMgr, sample.twoAgents.fs) ∧
      sample.queueA.dir ≠ sample.queueB.dir ∧
      sample.queueA.wellFormed sample.twoAgents.fs = true ∧
      sample.queueB.wellFormed sample.twoAgents.fs = true ∧
      sample.queueA.Dequeue sample.twoAgents.fs
        = .ok (some sample.helloA, sample.twoAgentsTaken) ∧
      sample.queueB.ListAll sample.twoAgents.fs = .ok [sample.helloB]) ∧
    (sample.queueB.ListAll sample.twoAgentsTaken = sample.queueB.ListAll sample.twoAgents.fs ∧
      sample.queueB.Len sample.twoAgentsTaken = sample.queueB.Len sample.twoAgents.fs ∧
      sample.queueB.contents sample.twoAgentsTaken
        = sample.queueB.contents sample.twoAgents.fs) :=
  ⟨⟨by decide, by decide, by decide, by decide, by decide, by decide, by decide⟩,
    (queues_in_different_directories_are_independent sample.twoAgents.queueMgr
      sample.twoAgents.queueMgr sample.twoAgents.queueMgr sample.twoAgents.fs
      sample.twoAgents.fs sample.twoAgents.fs AgentA AgentB sample.queueA sample.queueB
      (by decide) (by decide) (by decide) (by decide) (by decide)).2.2.1
      (some sample.helloA) sample.twoAgentsTaken (by decide)⟩

end queue
end CcBridge
